import Mathlib

/-!
# tlRender core: loop arithmetic, range coalescing, frame assembly, frame cache, seeking

A shallow embedding of `tlrCore/TimelinePlayer.cpp` and `tlrCore/Timeline.cpp`.

* Times are `otime::RationalTime` values; the doubles of the library are taken as exact
  rationals, so every statement below is about exact arithmetic.
* `std::map` is an association list kept in key order, `std::future` is an outcome that is
  either a value or an exception, `std::size_t` is a natural number reduced modulo `2^64`
  where the source adds two of them.
* The worker thread and the caller thread are modelled as separate functions over one
  explicit state; interleavings are chosen by whoever composes the functions.
-/

set_option linter.dupNamespace false

namespace tlr

/-! ## Time primitives (opentime) -/

/-- Modelled from the spec: `otime::RationalTime`, declared in the opentime headers that the
sources include but that are not part of the source tree. A time of `value` units of
`1 / rate` seconds. -/
structure RationalTime where
  value : ℚ
  rate : ℚ
deriving DecidableEq

namespace RationalTime

/-- Modelled from the spec: `RationalTime::value_rescaled_to(double)`; the value is kept as
it is when the rate does not change and is rescaled otherwise. -/
def value_rescaled_to (t : RationalTime) (new_rate : ℚ) : ℚ :=
  if new_rate = t.rate then t.value else t.value * new_rate / t.rate

/-- Modelled from the spec: `RationalTime::rescaled_to(double)`. -/
def rescaled_to (t : RationalTime) (new_rate : ℚ) : RationalTime :=
  ⟨t.value_rescaled_to new_rate, new_rate⟩

/-- Modelled from the spec: `operator+` of `RationalTime`; the result has the larger of the
two rates. -/
def add (lhs rhs : RationalTime) : RationalTime :=
  if lhs.rate < rhs.rate then ⟨lhs.value_rescaled_to rhs.rate + rhs.value, rhs.rate⟩
  else ⟨rhs.value_rescaled_to lhs.rate + lhs.value, lhs.rate⟩

/-- Modelled from the spec: `operator-` of `RationalTime`; the result has the larger of the
two rates. -/
def sub (lhs rhs : RationalTime) : RationalTime :=
  if lhs.rate < rhs.rate then ⟨lhs.value_rescaled_to rhs.rate - rhs.value, rhs.rate⟩
  else ⟨lhs.value - rhs.value_rescaled_to lhs.rate, lhs.rate⟩

/-- Modelled from the spec: `operator>` of `RationalTime`, a comparison in seconds. -/
def gt (lhs rhs : RationalTime) : Prop := lhs.value / lhs.rate > rhs.value / rhs.rate

/-- Modelled from the spec: `operator>=` of `RationalTime`, a comparison in seconds. -/
def ge (lhs rhs : RationalTime) : Prop := lhs.value / lhs.rate ≥ rhs.value / rhs.rate

/-- Modelled from the spec: `operator<` of `RationalTime`, the negation of `operator>=`. -/
def lt (lhs rhs : RationalTime) : Prop := ¬ ge lhs rhs

/-- Modelled from the spec: `operator<=` of `RationalTime`, the negation of `operator>`. -/
def le (lhs rhs : RationalTime) : Prop := ¬ gt lhs rhs

/-- Modelled from the spec: `operator==` of `RationalTime`; the left value rescaled to the
right rate is compared with the right value. -/
def equal (lhs rhs : RationalTime) : Prop := lhs.value_rescaled_to rhs.rate = rhs.value

instance (a b : RationalTime) : Decidable (gt a b) := by unfold gt; infer_instance
instance (a b : RationalTime) : Decidable (ge a b) := by unfold ge; infer_instance
instance (a b : RationalTime) : Decidable (lt a b) := by unfold lt; infer_instance
instance (a b : RationalTime) : Decidable (le a b) := by unfold le; infer_instance
instance (a b : RationalTime) : Decidable (equal a b) := by unfold equal; infer_instance

/-- Modelled from the spec: `RationalTime::duration_from_start_end_time_inclusive`. -/
def duration_from_start_end_time_inclusive (start_time end_time_inclusive : RationalTime) :
    RationalTime :=
  if start_time.rate = end_time_inclusive.rate then
    ⟨end_time_inclusive.value - start_time.value + 1, start_time.rate⟩
  else
    ⟨end_time_inclusive.value_rescaled_to start_time.rate - start_time.value + 1,
      start_time.rate⟩

/-- Modelled from the spec: `RationalTime::duration_from_start_end_time`. -/
def duration_from_start_end_time (start_time end_time_exclusive : RationalTime) :
    RationalTime :=
  if start_time.rate = end_time_exclusive.rate then
    ⟨end_time_exclusive.value - start_time.value, start_time.rate⟩
  else
    ⟨end_time_exclusive.value_rescaled_to start_time.rate - start_time.value,
      start_time.rate⟩

end RationalTime

/-- Modelled from the spec: `otime::TimeRange`, declared in the opentime headers that are not
part of the source tree. A start time and a duration. -/
structure TimeRange where
  start_time : RationalTime
  duration : RationalTime
deriving DecidableEq

namespace TimeRange

/-- Modelled from the spec: `TimeRange::end_time_exclusive`, the duration added to the start
rescaled to the duration's rate. -/
def end_time_exclusive (r : TimeRange) : RationalTime :=
  RationalTime.add r.duration (r.start_time.rescaled_to r.duration.rate)

/-- Modelled from the spec: `TimeRange::end_time_inclusive`, the time of the last frame of
the range: one frame before the exclusive end (or its floor for a fractional duration) when
the range is longer than one frame, the start otherwise. -/
def end_time_inclusive (r : TimeRange) : RationalTime :=
  let et := r.end_time_exclusive
  if (RationalTime.sub et (r.start_time.rescaled_to r.duration.rate)).value > 1 then
    if r.duration.value ≠ (⌊r.duration.value⌋ : ℚ) then ⟨(⌊et.value⌋ : ℚ), et.rate⟩
    else RationalTime.sub et ⟨1, r.duration.rate⟩
  else r.start_time

/-- Modelled from the spec: `TimeRange::contains(RationalTime)`; the start is included and the
exclusive end is not. -/
def contains (r : TimeRange) (other : RationalTime) : Prop :=
  RationalTime.le r.start_time other ∧ RationalTime.lt other r.end_time_exclusive

instance (r : TimeRange) (t : RationalTime) : Decidable (r.contains t) := by
  unfold contains; infer_instance

/-- Modelled from the spec: `TimeRange::range_from_start_end_time_inclusive`. -/
def range_from_start_end_time_inclusive (start_time end_time_inclusive : RationalTime) :
    TimeRange :=
  ⟨start_time, RationalTime.duration_from_start_end_time_inclusive start_time end_time_inclusive⟩

/-- Modelled from the spec: `TimeRange::range_from_start_end_time`. -/
def range_from_start_end_time (start_time end_time_exclusive : RationalTime) : TimeRange :=
  ⟨start_time, RationalTime.duration_from_start_end_time start_time end_time_exclusive⟩

end TimeRange

/-! ## `loopTime` (TimelinePlayer.cpp) -/

/-- The function `loopTime` of TimelinePlayer.cpp: a time before the start of the range becomes
the inclusive end, a time after the inclusive end becomes the start. -/
def loopTime (time : RationalTime) (range : TimeRange) : RationalTime :=
  if RationalTime.lt time range.start_time then range.end_time_inclusive
  else if RationalTime.gt time range.end_time_inclusive then range.start_time
  else time

/-! ## `toRanges` (Timeline.cpp) -/

/-- The call `std::sort(frames.begin(), frames.end())` of `toRanges`: the frames in an order
in which no element is less (`operator<`) than an earlier one. -/
def sortFrames (frames : List RationalTime) : List RationalTime :=
  frames.insertionSort (fun a b => ¬ RationalTime.lt b a)

/-- The do-while loop of `toRanges` over the sorted frames: `i` is the frame the iterator `i`
points at (the start of the run being built), `j` the frame the iterator `j` points at, and
the list is what follows `j`, so its head is `*k`. A run is closed when the next frame is more
than one unit later, or when there is no next frame. -/
def toRangesLoop (i j : RationalTime) : List RationalTime → List TimeRange
  | [] => [TimeRange.range_from_start_end_time_inclusive i j]
  | k :: rest =>
    if (RationalTime.sub k j).value > 1 then
      TimeRange.range_from_start_end_time_inclusive i j :: toRangesLoop k k rest
    else toRangesLoop i k rest

/-- The function `toRanges` of Timeline.cpp: sorts the frames and coalesces runs of frames
that are at most one unit apart into inclusive ranges. -/
def toRanges (frames : List RationalTime) : List TimeRange :=
  match sortFrames frames with
  | [] => []
  | f :: rest => toRangesLoop f f rest

/-- Specification side (`enumerate` of the range-coalescing property): the whole-frame times
of one range, the start and every following frame before the exclusive end. -/
def TimeRange.frames (r : TimeRange) : List RationalTime :=
  (List.range ⌈r.duration.value⌉.toNat).map
    (fun k : ℕ => (⟨r.start_time.value + (k : ℚ), r.start_time.rate⟩ : RationalTime))

/-- Specification side (`enumerate` of the range-coalescing property): the whole-frame times
of a list of ranges, range after range. -/
def enumerate (ranges : List TimeRange) : List RationalTime :=
  ranges.flatMap TimeRange.frames

/-- The whole-frame time `n` at rate `q`. -/
def frameTime (q : ℚ) (n : ℤ) : RationalTime := ⟨(n : ℚ), q⟩

/-! ## Frames and frame assembly (`Timeline::Private::frameRequests`) -/

/-- An image is known by its identity (the shared pointer of the source). -/
abbrev Image := ℕ

/-- The enumeration `Transition` of Timeline.cpp. -/
inductive Transition where
  | None
  | Dissolve
deriving DecidableEq

/-- Modelled from the spec: the structure `FrameLayer` of Timeline.h, whose fields
Timeline.cpp compares and assigns; `imageB` is `none` for a null pointer. -/
structure FrameLayer where
  image : Image
  imageB : Option Image
  transition : Transition
  transitionValue : ℚ
deriving DecidableEq

/-- Modelled from the spec: the structure `Frame` of Timeline.h, a time and the layers in
track order. -/
structure Frame where
  time : RationalTime
  layers : List FrameLayer
deriving DecidableEq

/-- What `std::future<avio::VideoFrame>::get()` does for one read: it returns the image, or
it throws. The future that `readVideoFrame` returns when no reader could be opened has no
state, and `get()` on it counts as throwing. -/
inductive ReadOutcome where
  | value (image : Image)
  | exception
deriving DecidableEq

/-- The structure `LayerData` local to `frameRequests`: the read of the clip, the read of the
transition partner when that future is `valid()`, and the transition data. -/
structure LayerData where
  image : ReadOutcome
  imageB : Option ReadOutcome
  transition : Transition
  transitionValue : ℚ
deriving DecidableEq

/-- The second loop of the try block of `frameRequests`: every layer data is turned into a
layer and pushed onto `frame.layers`. The first `get()` that throws leaves the try block, and
the layers pushed until then stay in the frame. -/
def assembleLayers : List LayerData → List FrameLayer → List FrameLayer
  | [], layers => layers
  | j :: rest, layers =>
    match j.image with
    | ReadOutcome.exception => layers
    | ReadOutcome.value image =>
      match j.imageB with
      | some ReadOutcome.exception => layers
      | some (ReadOutcome.value imageB) =>
        assembleLayers rest (layers ++ [⟨image, some imageB, j.transition, j.transitionValue⟩])
      | none =>
        assembleLayers rest (layers ++ [⟨image, none, j.transition, j.transitionValue⟩])

/-- The branch `if (resultValid)` of `Timeline::Private::frameRequests` for the request time
`time`: the frame that is given to the promise. `walk` is what the first loop of the try
block (the walk over the tracks that issues the reads) leaves behind: the layer data, or
`none` when an exception left the try block during the walk. -/
def frameRequests (time : RationalTime) (walk : Option (List LayerData)) : Frame :=
  let frame : Frame := ⟨time, []⟩
  match walk with
  | none => frame
  | some layerData => { frame with layers := assembleLayers layerData frame.layers }

/-- Specification side: both reads of a layer succeed. -/
def LayerData.succeeded (j : LayerData) : Bool :=
  match j.image, j.imageB with
  | ReadOutcome.value _, none => true
  | ReadOutcome.value _, some (ReadOutcome.value _) => true
  | _, _ => false

/-- Specification side: the layer of a layer data whose reads succeed. -/
def LayerData.layer (j : LayerData) : Option FrameLayer :=
  match j.image, j.imageB with
  | ReadOutcome.value image, none => some ⟨image, none, j.transition, j.transitionValue⟩
  | ReadOutcome.value image, some (ReadOutcome.value imageB) =>
    some ⟨image, some imageB, j.transition, j.transitionValue⟩
  | _, _ => none

/-! ## The player (TimelinePlayer.cpp) -/

/-- The enumeration `Playback`. -/
inductive Playback where
  | Stop
  | Forward
  | Reverse
deriving DecidableEq

/-- The enumeration `Loop`. -/
inductive Loop where
  | Loop
  | Once
  | PingPong
deriving DecidableEq

/-- The enumeration `FrameCacheDirection`. -/
inductive FrameCacheDirection where
  | Forward
  | Reverse
deriving DecidableEq

/-- Two keys of a `std::map<otime::RationalTime, _>` are the same key when neither is less
than the other. -/
def keyEquiv (a b : RationalTime) : Prop := ¬ RationalTime.lt a b ∧ ¬ RationalTime.lt b a

instance (a b : RationalTime) : Decidable (keyEquiv a b) := by unfold keyEquiv; infer_instance

/-- The call `std::map::find`: the value stored under a key equivalent to `k`. -/
def mapFind {α : Type} (m : List (RationalTime × α)) (k : RationalTime) : Option α :=
  (m.find? (fun e => decide (keyEquiv e.1 k))).map Prod.snd

/-- The assignment `m[k] = v` of a `std::map`: the value of an equivalent key is replaced
(the key object stays), a new key is inserted at its place in key order. -/
def mapInsert {α : Type} (k : RationalTime) (v : α) :
    List (RationalTime × α) → List (RationalTime × α)
  | [] => [(k, v)]
  | e :: m =>
    if RationalTime.lt k e.1 then (k, v) :: e :: m
    else if RationalTime.lt e.1 k then e :: mapInsert k v m
    else (e.1, v) :: m

/-- The structure `ThreadData`, the state shared with the worker thread. Of the map
`frameRequests` only the keys are kept: whether the future of a key is ready, and with which
frame, is decided by the compositor and is an input of `frameCacheUpdate`. -/
structure ThreadData where
  currentTime : RationalTime
  inOutRange : TimeRange
  frame : Frame
  frameRequests : List (RationalTime × Unit)
  clearFrameRequests : Bool
  frameCache : List (RationalTime × Frame)
  cachedFrames : List TimeRange
  frameCacheDirection : FrameCacheDirection
  frameCacheReadAhead : ℕ
  frameCacheReadBehind : ℕ
deriving DecidableEq

/-- The first loop of `frameCacheUpdate`: `n` steps of one frame backwards, each looped
inside the range. `rate` is `timeline->getDuration().rate()`. -/
def stepBack (rate : ℚ) (range : TimeRange) : ℕ → RationalTime → RationalTime
  | 0, time => time
  | n + 1, time => stepBack rate range n (loopTime (RationalTime.sub time ⟨1, rate⟩) range)

/-- The second loop of `frameCacheUpdate`: at most `n` frames are pushed, one frame forward
each time and looped inside the range; the loop breaks when the time is equal (`operator==`)
to the first frame pushed. -/
def collectFrames (rate : ℚ) (range : TimeRange) :
    ℕ → RationalTime → List RationalTime → List RationalTime
  | 0, _, frames => frames
  | n + 1, time, frames =>
    match frames with
    | f0 :: _ =>
      if RationalTime.equal time f0 then frames
      else collectFrames rate range n (loopTime (RationalTime.add time ⟨1, rate⟩) range)
        (frames ++ [time])
    | [] =>
      collectFrames rate range n (loopTime (RationalTime.add time ⟨1, rate⟩) range)
        (frames ++ [time])

/-- The frames that `frameCacheUpdate` wants in the cache (its local `frames`). The sum of the
two `std::size_t` counts is taken modulo `2^64`. -/
def targetFrames (rate : ℚ) (currentTime : RationalTime) (inOutRange : TimeRange)
    (frameCacheDirection : FrameCacheDirection)
    (frameCacheReadAhead frameCacheReadBehind : ℕ) : List RationalTime :=
  let time := stepBack rate inOutRange
    (if frameCacheDirection = FrameCacheDirection.Forward then frameCacheReadBehind
      else frameCacheReadAhead) currentTime
  collectFrames rate inOutRange ((frameCacheReadBehind + frameCacheReadAhead) % 2 ^ 64) time []

/-- The loop "Remove old frames from the cache" of `frameCacheUpdate`: an entry stays when
one of the ranges contains the time of its frame. -/
def removeOld (ranges : List TimeRange) (frameCache : List (RationalTime × Frame)) :
    List (RationalTime × Frame) :=
  frameCache.filter (fun e => ranges.any (fun r => decide (r.contains e.2.time)))

/-- The loop "Find uncached frames" of `frameCacheUpdate`. -/
def findUncached (frames : List RationalTime) (frameCache : List (RationalTime × Frame))
    (requests : List (RationalTime × Unit)) : List RationalTime :=
  frames.filter (fun i => (mapFind frameCache i).isNone && (mapFind requests i).isNone)

/-- The loop over `uncached` of `frameCacheUpdate`: a request is stored for every uncached
frame. -/
def addRequests (uncached : List RationalTime) (requests : List (RationalTime × Unit)) :
    List (RationalTime × Unit) :=
  uncached.foldl (fun m i => mapInsert i () m) requests

/-- The loop over `frameRequests` of `frameCacheUpdate`: a request whose future is ready is
taken out of the requests; its frame gets the key as time and is stored in the cache under
that time. `poll k` is `some frame` when the future of key `k` is ready with `frame`. -/
def pollRequests (poll : RationalTime → Option Frame) :
    List (RationalTime × Unit) → List (RationalTime × Frame) →
      List (RationalTime × Frame) × List (RationalTime × Unit)
  | [], frameCache => (frameCache, [])
  | (k, u) :: rest, frameCache =>
    match poll k with
    | some frame =>
      let frame1 : Frame := { frame with time := k }
      pollRequests poll rest (mapInsert frame1.time frame1 frameCache)
    | none =>
      let out := pollRequests poll rest frameCache
      (out.1, (k, u) :: out.2)

/-- The method `TimelinePlayer::Private::frameCacheUpdate`. `rate` is the rate of the
timeline's duration and `poll` the state of the futures when they are polled. The result is
the thread data after the call and the ranges given to `timeline->setActiveRanges`. -/
def frameCacheUpdate (rate : ℚ) (poll : RationalTime → Option Frame) (td : ThreadData)
    (currentTime : RationalTime) (inOutRange : TimeRange)
    (frameCacheDirection : FrameCacheDirection)
    (frameCacheReadAhead frameCacheReadBehind : ℕ) : ThreadData × List TimeRange :=
  let frames := targetFrames rate currentTime inOutRange frameCacheDirection
    frameCacheReadAhead frameCacheReadBehind
  let ranges := toRanges frames
  let frameCache1 := removeOld ranges td.frameCache
  let uncached := findUncached frames frameCache1 td.frameRequests
  let requests1 := addRequests uncached td.frameRequests
  let polled := pollRequests poll requests1 frameCache1
  let cachedFrames := polled.1.map (fun e => e.2.time)
  ({ td with
      frameRequests := polled.2
      frameCache := polled.1
      cachedFrames := toRanges cachedFrames }, ranges)

/-- The start of the worker's loop body in `TimelinePlayer::_init`: the flag
`clearFrameRequests` is read and reset, and when it was set the pending requests are
cleared. -/
def workerClear (td : ThreadData) : ThreadData :=
  let clearFrameRequests := td.clearFrameRequests
  let td1 := { td with clearFrameRequests := false }
  if clearFrameRequests then { td1 with frameRequests := [] } else td1

/-- One pass of the worker's loop body in `TimelinePlayer::_init`. -/
def workerStep (rate : ℚ) (poll : RationalTime → Option Frame) (td : ThreadData) :
    ThreadData × List TimeRange :=
  let currentTime := td.currentTime
  let inOutRange := td.inOutRange
  let frameCacheDirection := td.frameCacheDirection
  let frameCacheReadAhead := td.frameCacheReadAhead
  let frameCacheReadBehind := td.frameCacheReadBehind
  let td1 := workerClear td
  let out := frameCacheUpdate rate poll td1 currentTime inOutRange frameCacheDirection
    frameCacheReadAhead frameCacheReadBehind
  match mapFind out.1.frameCache currentTime with
  | some frame => ({ out.1 with frame := frame }, out.2)
  | none => out

/-- The state of `TimelinePlayer::Private` that the playback operations read and write. The
observers hold their value; `startTime` is a reading of the steady clock. -/
structure Player where
  globalStartTime : RationalTime
  duration : RationalTime
  playback : Playback
  loop : Loop
  currentTime : RationalTime
  inOutRange : TimeRange
  startTime : ℚ
  playbackStartTime : RationalTime
  threadData : ThreadData
deriving DecidableEq

/-- Modelled from the spec: `observer::Value<otime::RationalTime>::setIfChanged` of
ValueObserver.h, which is not part of the source tree: nothing happens and `false` is
returned when the new value is equal (`operator==`) to the held one, otherwise the value is
replaced and `true` is returned. -/
def setIfChanged (held value : RationalTime) : Bool × RationalTime :=
  if RationalTime.equal value held then (false, held) else (true, value)

/-- The method `TimelinePlayer::seek`; `now` is the reading of the steady clock. -/
def seek (now : ℚ) (time : RationalTime) (p : Player) : Player :=
  let range : TimeRange := ⟨p.globalStartTime, p.duration⟩
  let tmp := loopTime time range
  let changed := setIfChanged p.currentTime tmp
  let p1 := { p with currentTime := changed.2 }
  if changed.1 then
    let p2 :=
      if p1.playback ≠ Playback.Stop then
        { p1 with startTime := now, playbackStartTime := p1.currentTime }
      else p1
    { p2 with threadData := { p2.threadData with currentTime := tmp, clearFrameRequests := true } }
  else p1

/-! ## In/out points, playback and time actions (TimelinePlayer.cpp) -/

/-- Modelled from the spec: `operator==` of `TimeRange`; the start times and the durations
are compared with `operator==` of `RationalTime`. -/
def TimeRange.equal (lhs rhs : TimeRange) : Prop :=
  RationalTime.equal lhs.start_time rhs.start_time ∧ RationalTime.equal lhs.duration rhs.duration

instance (a b : TimeRange) : Decidable (TimeRange.equal a b) := by
  unfold TimeRange.equal; infer_instance

/-- Modelled from the spec: `observer::Value<otime::TimeRange>::setIfChanged` of
ValueObserver.h, which is not part of the source tree: nothing happens and `false` is
returned when the new value is equal (`operator==`) to the held one, otherwise the value is
replaced and `true` is returned. -/
def setIfChangedRange (held value : TimeRange) : Bool × TimeRange :=
  if TimeRange.equal value held then (false, held) else (true, value)

/-- The constant `time::invalidTime`. -/
def invalidTime : RationalTime := ⟨-1, -1⟩

/-- The state that `TimelinePlayer::_init` builds for a timeline with the given global start
time and duration: playback stopped, loop mode Loop, the current time at the global start
and the in/out range over the whole timeline. -/
def initPlayer (globalStartTime duration : RationalTime) : Player :=
  { globalStartTime := globalStartTime
    duration := duration
    playback := Playback.Stop
    loop := Loop.Loop
    currentTime := globalStartTime
    inOutRange := ⟨globalStartTime, duration⟩
    startTime := 0
    playbackStartTime := invalidTime
    threadData :=
      { currentTime := globalStartTime
        inOutRange := ⟨globalStartTime, duration⟩
        frame := ⟨invalidTime, []⟩
        frameRequests := []
        clearFrameRequests := false
        frameCache := []
        cachedFrames := []
        frameCacheDirection := FrameCacheDirection.Forward
        frameCacheReadAhead := 100
        frameCacheReadBehind := 10 } }

/-- The method `TimelinePlayer::setInOutRange`. -/
def setInOutRange (value : TimeRange) (p : Player) : Player :=
  let changed := setIfChangedRange p.inOutRange value
  let p1 := { p with inOutRange := changed.2 }
  if changed.1 then { p1 with threadData := { p1.threadData with inOutRange := value } }
  else p1

/-- The method `TimelinePlayer::setInPoint`. -/
def setInPoint (p : Player) : Player :=
  setInOutRange
    (TimeRange.range_from_start_end_time p.currentTime p.inOutRange.end_time_exclusive) p

/-- The method `TimelinePlayer::resetInPoint`. -/
def resetInPoint (p : Player) : Player :=
  setInOutRange
    (TimeRange.range_from_start_end_time p.globalStartTime p.inOutRange.end_time_exclusive) p

/-- The method `TimelinePlayer::setOutPoint`. -/
def setOutPoint (p : Player) : Player :=
  setInOutRange
    (TimeRange.range_from_start_end_time_inclusive p.inOutRange.start_time p.currentTime) p

/-- The method `TimelinePlayer::resetOutPoint`. -/
def resetOutPoint (p : Player) : Player :=
  setInOutRange ⟨p.inOutRange.start_time, p.duration⟩ p

/-- The method `TimelinePlayer::setLoop`. -/
def setLoop (value : Loop) (p : Player) : Player := { p with loop := value }

/-- The switch at the start of `TimelinePlayer::setPlayback`: under Once a playback that
starts at the far end of the in/out range first seeks to the near end, under PingPong it
starts in the other direction. The result is the player and the playback value to set. -/
def setPlaybackSwitch (now : ℚ) (value : Playback) (p : Player) : Player × Playback :=
  match p.loop with
  | Loop.Once =>
    match value with
    | Playback.Forward =>
      if RationalTime.equal p.currentTime p.inOutRange.end_time_inclusive then
        (seek now p.inOutRange.start_time p, value)
      else (p, value)
    | Playback.Reverse =>
      if RationalTime.equal p.currentTime p.inOutRange.start_time then
        (seek now p.inOutRange.end_time_inclusive p, value)
      else (p, value)
    | Playback.Stop => (p, value)
  | Loop.PingPong =>
    match value with
    | Playback.Forward =>
      if RationalTime.equal p.currentTime p.inOutRange.end_time_inclusive then
        (p, Playback.Reverse)
      else (p, value)
    | Playback.Reverse =>
      if RationalTime.equal p.currentTime p.inOutRange.start_time then
        (p, Playback.Forward)
      else (p, value)
    | Playback.Stop => (p, value)
  | Loop.Loop => (p, value)

/-- The method `TimelinePlayer::setPlayback`; `now` is the reading of the steady clock. When
the playback value changes to Forward or Reverse, the clock reference is reset and the
frame cache direction of the thread data is set. -/
def setPlayback (now : ℚ) (value : Playback) (p : Player) : Player :=
  let sw := setPlaybackSwitch now value p
  let p1 := sw.1
  let value1 := sw.2
  if value1 = p1.playback then p1
  else
    let p2 := { p1 with playback := value1 }
    if value1 ≠ Playback.Stop then
      { p2 with
          startTime := now
          playbackStartTime := p2.currentTime
          threadData :=
            { p2.threadData with
                frameCacheDirection :=
                  if Playback.Forward = value1 then FrameCacheDirection.Forward
                  else FrameCacheDirection.Reverse } }
    else p2

/-- The method `TimelinePlayer::Private::loopPlayback`, the loop policy: the time that
becomes current for the proposed time `time`, and the player with the playback value and the
clock reference that the policy sets. -/
def loopPlayback (now : ℚ) (time : RationalTime) (p : Player) : RationalTime × Player :=
  let range := p.inOutRange
  match p.loop with
  | Loop.Loop =>
    let tmp := loopTime time range
    if ¬ RationalTime.equal tmp time then
      (tmp, { p with startTime := now, playbackStartTime := tmp })
    else (time, p)
  | Loop.Once =>
    if RationalTime.lt time range.start_time then
      (range.start_time, { p with playback := Playback.Stop })
    else if RationalTime.gt time range.end_time_inclusive then
      (range.end_time_inclusive, { p with playback := Playback.Stop })
    else (time, p)
  | Loop.PingPong =>
    if RationalTime.lt time range.start_time ∧ Playback.Reverse = p.playback then
      (range.start_time,
        { p with
            playback := Playback.Forward
            startTime := now
            playbackStartTime := range.start_time })
    else if RationalTime.gt time range.end_time_inclusive ∧ Playback.Forward = p.playback then
      (range.end_time_inclusive,
        { p with
            playback := Playback.Reverse
            startTime := now
            playbackStartTime := range.end_time_inclusive })
    else (time, p)

/-- The time that `TimelinePlayer::tick` proposes to the loop policy at the clock reading
`now`: the playback start time plus the whole number of frames that the elapsed time holds,
counted negative for Reverse. The elapsed seconds are taken as an exact rational. -/
def proposedTime (now : ℚ) (p : Player) : RationalTime :=
  RationalTime.add p.playbackStartTime
    ⟨(⌊(now - p.startTime) * p.duration.rate *
        (if Playback.Forward = p.playback then 1 else -1)⌋ : ℚ), p.duration.rate⟩

/-- The method `TimelinePlayer::tick`: while playing, the current time becomes the looped
proposed time; then the current time is given to the thread data. The observers `frame` and
`cachedFrames`, which only take values from the thread data, are not part of the state. -/
def tick (now : ℚ) (p : Player) : Player :=
  let p1 :=
    if p.playback ≠ Playback.Stop then
      let out := loopPlayback now (proposedTime now p) p
      let changed := setIfChanged out.2.currentTime out.1
      { out.2 with currentTime := changed.2 }
    else p
  { p1 with threadData := { p1.threadData with currentTime := p1.currentTime } }

/-- The enumeration `TimeAction`. -/
inductive TimeAction where
  | Start
  | End
  | FramePrev
  | FramePrevX10
  | FramePrevX100
  | FrameNext
  | FrameNextX10
  | FrameNextX100
deriving DecidableEq

/-- The method `TimelinePlayer::timeAction`: playback is stopped, then the player seeks to
an end of the in/out range or to the current value plus or minus 1, 10 or 100 at the rate of
the timeline's duration. -/
def timeAction (now : ℚ) (time : TimeAction) (p : Player) : Player :=
  let p1 := setPlayback now Playback.Stop p
  let duration := p1.duration
  let currentTime := p1.currentTime
  match time with
  | TimeAction.Start => seek now p1.inOutRange.start_time p1
  | TimeAction.End => seek now p1.inOutRange.end_time_inclusive p1
  | TimeAction.FramePrev => seek now ⟨currentTime.value - 1, duration.rate⟩ p1
  | TimeAction.FramePrevX10 => seek now ⟨currentTime.value - 10, duration.rate⟩ p1
  | TimeAction.FramePrevX100 => seek now ⟨currentTime.value - 100, duration.rate⟩ p1
  | TimeAction.FrameNext => seek now ⟨currentTime.value + 1, duration.rate⟩ p1
  | TimeAction.FrameNextX10 => seek now ⟨currentTime.value + 10, duration.rate⟩ p1
  | TimeAction.FrameNextX100 => seek now ⟨currentTime.value + 100, duration.rate⟩ p1

/-- The operations on the in/out range and the current time that a caller can make on a
player that is not playing. -/
inductive InOutOp where
  | seek (now : ℚ) (time : RationalTime)
  | setInPoint
  | setOutPoint
  | resetInPoint
  | resetOutPoint
  | tick (now : ℚ)

/-- The player after one operation. -/
def InOutOp.apply : InOutOp → Player → Player
  | InOutOp.seek now time, p => tlr.seek now time p
  | InOutOp.setInPoint, p => tlr.setInPoint p
  | InOutOp.setOutPoint, p => tlr.setOutPoint p
  | InOutOp.resetInPoint, p => tlr.resetInPoint p
  | InOutOp.resetOutPoint, p => tlr.resetOutPoint p
  | InOutOp.tick now, p => tlr.tick now p

/-- The player after a sequence of operations, the first of the list first. -/
def runInOutOps : List InOutOp → Player → Player
  | [], p => p
  | op :: ops, p => runInOutOps ops (op.apply p)

/-- Specification side: the condition under which an operation keeps the duration of the
in/out range non-negative. A seek goes to a time with a positive rate, an in point is set at
a current time that is not after the exclusive end of the range, and an out point at a
current time that is not more than one frame (at the rate of the start) before its start. -/
def InOutOp.guard : InOutOp → Player → Prop
  | InOutOp.seek _ time, _ => 0 < time.rate
  | InOutOp.setInPoint, p => RationalTime.le p.currentTime p.inOutRange.end_time_exclusive
  | InOutOp.setOutPoint, p =>
    RationalTime.le p.inOutRange.start_time
      (RationalTime.add p.currentTime ⟨1, p.inOutRange.start_time.rate⟩)
  | InOutOp.resetInPoint, _ => True
  | InOutOp.resetOutPoint, _ => True
  | InOutOp.tick _, _ => True

/-- Specification side: every operation of the sequence meets its condition in the state in
which it is made. -/
def guardedRun : List InOutOp → Player → Prop
  | [], _ => True
  | op :: ops, p => op.guard p ∧ guardedRun ops (op.apply p)

/-- Specification side: the number of frames by which a time action moves the current
time; `none` for Start and End. -/
def frameOffset : TimeAction → Option ℚ
  | TimeAction.Start => none
  | TimeAction.End => none
  | TimeAction.FramePrev => some (-1)
  | TimeAction.FramePrevX10 => some (-10)
  | TimeAction.FramePrevX100 => some (-100)
  | TimeAction.FrameNext => some 1
  | TimeAction.FrameNextX10 => some 10
  | TimeAction.FrameNextX100 => some 100

/-! ## The edit model and the track walk of `frameRequests` (Timeline.cpp) -/

/-- Modelled from the spec: `otio::Clip`, declared in the OpenTimelineIO headers that are not
part of the source tree; the fields that the sources read. `id` stands for the identity of
the clip and of its media reference, `source_range` is what `trimmed_range()` returns, and
`time_scalars` are the scalars of the `LinearTimeWarp` effects in order. -/
structure Clip where
  id : ℕ
  source_range : TimeRange
  time_scalars : List ℚ
deriving DecidableEq

/-- Modelled from the spec: `otio::Transition`, with its type name and its two offsets. -/
structure TransitionItem where
  transition_type : String
  in_offset : RationalTime
  out_offset : RationalTime
deriving DecidableEq

/-- Modelled from the spec: a child of a track, a clip, a transition or another item that
takes time (a gap). -/
inductive Composable where
  | clip (c : Clip)
  | transition (t : TransitionItem)
  | gap (duration : RationalTime)
deriving DecidableEq

/-- Modelled from the spec: `otio::Track::Kind`. -/
inductive TrackKind where
  | video
  | audio
deriving DecidableEq

/-- Modelled from the spec: `otio::Track` without a source range of its own. -/
structure Track where
  kind : TrackKind
  children : List Composable
deriving DecidableEq

/-- Modelled from the spec: `Composable::duration`; a transition lasts its two offsets. -/
def Composable.duration : Composable → RationalTime
  | Composable.clip c => c.source_range.duration
  | Composable.transition t => RationalTime.add t.in_offset t.out_offset
  | Composable.gap d => d

/-- Modelled from the spec: `Composable::overlapping`, true for a transition, which takes no
time of its own in the track. -/
def Composable.overlapping : Composable → Bool
  | Composable.transition _ => true
  | _ => false

/-- Modelled from the spec: `Track::range_of_child_at_index`, which
`trimmed_range_in_parent` returns for a child of a track without source range: the child
starts after the durations of the children before it that are not transitions, a transition
starts its in-offset earlier. -/
def Track.range_of_child_at_index (track : Track) (index : ℕ) : Option TimeRange :=
  match track.children.get? index with
  | none => none
  | some child =>
    let child_duration := child.duration
    let start_time := (track.children.take index).foldl
      (fun st c => if c.overlapping then st else RationalTime.add st c.duration)
      (⟨0, child_duration.rate⟩ : RationalTime)
    match child with
    | Composable.transition t =>
      some ⟨RationalTime.sub start_time t.in_offset, child_duration⟩
    | _ => some ⟨start_time, child_duration⟩

/-- Modelled from the spec: `Track::neighbors_of` with the default policy: the children
before and after the child at `index`, `none` at an end of the track. -/
def Track.neighbors_of (track : Track) (index : ℕ) : Option Composable × Option Composable :=
  (if index = 0 then none else track.children.get? (index - 1), track.children.get? (index + 1))

/-- Modelled from the spec: `Track::transformed_time(time, clip)` for the clip at `index`:
the start of the clip's trimmed range is added and the start of its range in the track is
subtracted. -/
def Track.transformed_time (track : Track) (time : RationalTime) (index : ℕ) (clip : Clip) :
    RationalTime :=
  match track.range_of_child_at_index index with
  | none => time
  | some range =>
    RationalTime.sub (RationalTime.add time clip.source_range.start_time) range.start_time

/-- Modelled from the spec: `otio::TimeTransform`, an offset, a scale and a rate. -/
structure TimeTransform where
  offset : RationalTime
  scale : ℚ
  rate : ℚ
deriving DecidableEq

/-- Modelled from the spec: the default `otio::TimeTransform()`. -/
def TimeTransform.identity : TimeTransform := ⟨⟨0, 1⟩, 1, -1⟩

/-- Modelled from the spec: `TimeTransform::applied_to(TimeTransform)`. -/
def TimeTransform.applied_to_transform (self other : TimeTransform) : TimeTransform :=
  ⟨RationalTime.add self.offset other.offset, self.scale * other.scale,
    if self.rate > 0 then self.rate else other.rate⟩

/-- Modelled from the spec: `TimeTransform::applied_to(RationalTime)`. -/
def TimeTransform.applied_to (self : TimeTransform) (other : RationalTime) : RationalTime :=
  let result := RationalTime.add ⟨other.value * self.scale, other.rate⟩ self.offset
  let target_rate := if self.rate > 0 then self.rate else other.rate
  if target_rate = result.rate then result else result.rescaled_to target_rate

/-- The function `toTransition` of Timeline.cpp. -/
def toTransition (value : String) : Transition :=
  if value = "SMPTE_Dissolve" then Transition.Dissolve else Transition.None

/-- Modelled from the spec: the readers behind `avio::System`, which is not part of the
source tree. `videoDuration id` is the `info.videoDuration` of the reader of clip `id`, or
`none` when no reader with video can be opened for it; `read id time` is what `get()` does
on the future that the reader's `readVideoFrame(time)` returns. -/
structure ReadSystem where
  videoDuration : ℕ → Option RationalTime
  read : ℕ → RationalTime → ReadOutcome

/-- The time transform that `readVideoFrame` builds from the linear time warps of the
clip. -/
def clipTimeTransform (clip : Clip) : TimeTransform :=
  clip.time_scalars.foldl
    (fun timeTransform s =>
      (TimeTransform.mk ⟨0, 1⟩ s (-1)).applied_to_transform timeTransform)
    TimeTransform.identity

/-- The frame time that `Timeline::Private::readVideoFrame` computes for the clip at `index`
of the track: the clip start, moved back by the in-offset of a transition to the left of the
clip, plus the time warp of the clip time counted from that start. -/
def readFrameTime (track : Track) (index : ℕ) (clip : Clip) (time : RationalTime) :
    RationalTime :=
  let timeTransform := clipTimeTransform clip
  let range := clip.source_range
  let startTime :=
    match (track.neighbors_of index).1 with
    | some (Composable.transition transition) =>
      RationalTime.sub range.start_time transition.in_offset
    | _ => range.start_time
  let clipTime := track.transformed_time time index clip
  RationalTime.add startTime (timeTransform.applied_to (RationalTime.sub clipTime startTime))

/-- The state of the future that `Timeline::Private::readVideoFrame` returns: the frame time
is rescaled to the rate of the reader's video duration and floored, and the reader is asked
for that time; `none` is the future without state that is returned when no reader can be
opened. -/
def readVideoFrame (rs : ReadSystem) (track : Track) (index : ℕ) (clip : Clip)
    (time : RationalTime) : Option ReadOutcome :=
  let frameTime := readFrameTime track index clip time
  match rs.videoDuration clip.id with
  | some videoDuration =>
    let readTime := frameTime.rescaled_to videoDuration.rate
    let floorTime : RationalTime := ⟨(⌊readTime.value⌋ : ℚ), readTime.rate⟩
    some (rs.read clip.id floorTime)
  | none => none

/-- The future of the second image, the transition and the transition value of a layer. -/
structure LayerB where
  imageB : Option ReadOutcome
  transition : Transition
  transitionValue : ℚ
deriving DecidableEq

/-- The block of `frameRequests` for the transition to the right of the clip at `index`:
after the start of the transition the second image is read from the clip to the right of
the transition. `none` when the block assigns nothing. -/
def outgoingTransition (rs : ReadSystem) (track : Track) (index : ℕ) (range : TimeRange)
    (time : RationalTime) : Option LayerB :=
  match (track.neighbors_of index).2 with
  | some (Composable.transition transition) =>
    let transitionStartTime := RationalTime.sub range.end_time_inclusive transition.in_offset
    if RationalTime.gt time transitionStartTime then
      match (track.neighbors_of (index + 1)).2 with
      | some (Composable.clip clipB) =>
        some
          { imageB := readVideoFrame rs track (index + 2) clipB time
            transition := toTransition transition.transition_type
            transitionValue := (RationalTime.sub time transitionStartTime).value /
              (transition.in_offset.value + transition.out_offset.value + 1) }
      | _ => none
    else none
  | _ => none

/-- The block of `frameRequests` for the transition to the left of the clip at `index`:
before the end of the transition the second image is read from the clip to the left of the
transition. `none` when the block assigns nothing. -/
def incomingTransition (rs : ReadSystem) (track : Track) (index : ℕ) (range : TimeRange)
    (time : RationalTime) : Option LayerB :=
  match (track.neighbors_of index).1 with
  | some (Composable.transition transition) =>
    let transitionEndTime := RationalTime.add range.start_time transition.out_offset
    if RationalTime.lt time transitionEndTime then
      match (track.neighbors_of (index - 1)).1 with
      | some (Composable.clip clipB) =>
        some
          { imageB := readVideoFrame rs track (index - 2) clipB time
            transition := toTransition transition.transition_type
            transitionValue := 1 -
              ((RationalTime.add (RationalTime.sub time range.start_time)
                transition.in_offset).value + 1) /
              (transition.in_offset.value + transition.out_offset.value + 1) }
      | _ => none
    else none
  | _ => none

/-- The body of the loop over the children of a video track in `frameRequests` for the clip
at `index`: when the range of the clip in the track contains the time, the layer data of the
clip. The block of the incoming transition runs after the block of the outgoing one and
overwrites what that one assigned. -/
def clipLayerData (rs : ReadSystem) (track : Track) (index : ℕ) (clip : Clip)
    (time : RationalTime) : Option LayerData :=
  match track.range_of_child_at_index index with
  | none => none
  | some range =>
    if range.contains time then
      let image :=
        match readVideoFrame rs track index clip time with
        | some outcome => outcome
        | none => ReadOutcome.exception
      let b1 : LayerB :=
        match outgoingTransition rs track index range time with
        | some b => b
        | none => ⟨none, Transition.None, 0⟩
      let b2 : LayerB :=
        match incomingTransition rs track index range time with
        | some b => b
        | none => b1
      some
        { image := image
          imageB := b2.imageB
          transition := b2.transition
          transitionValue := b2.transitionValue }
    else none

/-- The loop over the children of one track in `frameRequests`. -/
def trackLayerData (rs : ReadSystem) (track : Track) (time : RationalTime) : List LayerData :=
  (List.range track.children.length).filterMap
    (fun index =>
      match track.children.get? index with
      | some (Composable.clip clip) => clipLayerData rs track index clip time
      | _ => none)

/-- The first loop of the try block of `frameRequests`: the layer data of the video tracks
in track order, for the request time `time` made relative to the global start time. -/
def walkTracks (rs : ReadSystem) (globalStartTime : RationalTime) (tracks : List Track)
    (time : RationalTime) : List LayerData :=
  tracks.flatMap
    (fun track =>
      if track.kind = TrackKind.video then
        trackLayerData rs track (RationalTime.sub time globalStartTime)
      else [])

/-- The frame that `frameRequests` gives to the promise of the request for `time`. -/
def composeFrame (rs : ReadSystem) (globalStartTime : RationalTime) (tracks : List Track)
    (time : RationalTime) : Frame :=
  frameRequests time (some (walkTracks rs globalStartTime tracks time))

/-! ## Requests and readers of the timeline (Timeline.cpp) -/

/-- Modelled from the spec: `TimeRange::intersects`, taken without its epsilon: each range
starts before the exclusive end of the other. -/
def TimeRange.intersects (r other : TimeRange) : Prop :=
  RationalTime.lt r.start_time other.end_time_exclusive ∧
    RationalTime.gt r.end_time_exclusive other.start_time

instance (r other : TimeRange) : Decidable (TimeRange.intersects r other) := by
  unfold TimeRange.intersects; infer_instance

/-- Modelled from the spec: the state of an `avio::IRead`, which is not part of the source
tree, as far as the timeline asks for it: whether video frame requests are pending
(`hasVideoFrames()`), whether `stop()` was called and whether the reader has stopped
(`hasStopped()`). `id` stands for the identity of the reader. -/
structure Read where
  id : ℕ
  hasVideoFrames : Bool
  stopCalled : Bool
  hasStopped : Bool
deriving DecidableEq

/-- Modelled from the spec: the call `IRead::stop()`. -/
def Read.stop (read : Read) : Read := { read with stopCalled := true }

/-- An entry of the map `readers`: the key is the clip, given with its parent track and its
index in the track, the value holds the reader. -/
structure ReaderEntry where
  track : Track
  index : ℕ
  clip : Clip
  read : Read
deriving DecidableEq

/-- The state of `Timeline::Private` that the requests and the reader lifecycle use. Of a
request only the time is kept; its promise is identified by the place in the list. -/
structure TimelinePrivate where
  globalStartTime : RationalTime
  tracks : List Track
  activeRanges : List TimeRange
  requests : List RationalTime
  readers : List ReaderEntry
  stoppedReaders : List Read
deriving DecidableEq

/-- The method `Timeline::getFrame`: the request is pushed onto the back of the list. -/
def getFrame (time : RationalTime) (p : TimelinePrivate) : TimelinePrivate :=
  { p with requests := p.requests ++ [time] }

/-- The method `Timeline::setActiveRanges`. -/
def setActiveRanges (ranges : List TimeRange) (p : TimelinePrivate) : TimelinePrivate :=
  { p with activeRanges := ranges }

/-- The method `Timeline::cancelFrames`, as far as the request list goes. -/
def cancelFrames (p : TimelinePrivate) : TimelinePrivate :=
  { p with requests := [] }

/-- One call of `Timeline::Private::frameRequests`: when the list of requests is not empty
after the wait, the front request is popped and its promise gets the composed frame. -/
def frameRequestsPass (rs : ReadSystem) (p : TimelinePrivate) :
    Option Frame × TimelinePrivate :=
  match p.requests with
  | [] => (none, p)
  | time :: rest =>
    (some (composeFrame rs p.globalStartTime p.tracks time), { p with requests := rest })

/-- The range that `stopReaders` computes for a reader: the range of the clip in the
timeline (the zero offsets of the track in the stack are left out), the start lowered by the
in-offset of a transition to the left, the end raised by the out-offset of a transition to
the right, moved by the global start time. -/
def readerRange (globalStartTime : RationalTime) (e : ReaderEntry) : TimeRange :=
  let trimmedRange := e.clip.source_range
  let clipRange : TimeRange :=
    match e.track.range_of_child_at_index e.index with
    | some range =>
      ⟨RationalTime.add (RationalTime.sub trimmedRange.start_time trimmedRange.start_time)
        range.start_time, trimmedRange.duration⟩
    | none => trimmedRange
  let startTime := clipRange.start_time
  let endTime := RationalTime.add startTime clipRange.duration
  let neighbors := e.track.neighbors_of e.index
  let startTime1 :=
    match neighbors.1 with
    | some (Composable.transition transition) =>
      RationalTime.sub startTime transition.in_offset
    | _ => startTime
  let endTime1 :=
    match neighbors.2 with
    | some (Composable.transition transition) =>
      RationalTime.add endTime transition.out_offset
    | _ => endTime
  TimeRange.range_from_start_end_time (RationalTime.add globalStartTime startTime1)
    (RationalTime.add globalStartTime endTime1)

/-- The loop of `Timeline::Private::stopReaders` over the map `readers`: a reader whose
range intersects no active range and that has no pending video frames is stopped, pushed
onto the back of `stoppedReaders` and erased from the map. The result is the map and the
list after the loop. -/
def stopReadersLoop (globalStartTime : RationalTime) (activeRanges : List TimeRange) :
    List ReaderEntry → List Read → List ReaderEntry × List Read
  | [], stoppedReaders => ([], stoppedReaders)
  | e :: rest, stoppedReaders =>
    let range := readerRange globalStartTime e
    let del := !(activeRanges.any (fun activeRange => decide (range.intersects activeRange)))
    if del && !e.read.hasVideoFrames then
      stopReadersLoop globalStartTime activeRanges rest (stoppedReaders ++ [e.read.stop])
    else
      let out := stopReadersLoop globalStartTime activeRanges rest stoppedReaders
      (e :: out.1, out.2)

/-- The method `Timeline::Private::stopReaders`. -/
def stopReaders (p : TimelinePrivate) : TimelinePrivate :=
  let out := stopReadersLoop p.globalStartTime p.activeRanges p.readers p.stoppedReaders
  { p with readers := out.1, stoppedReaders := out.2 }

/-- The method `Timeline::Private::delReaders`: the stopped readers that have stopped are
erased from the list. -/
def delReaders (p : TimelinePrivate) : TimelinePrivate :=
  { p with stoppedReaders := p.stoppedReaders.filter (fun read => !read.hasStopped) }

/-- The method `Timeline::Private::tick`, one pass of the thread of the timeline. -/
def timelineTick (rs : ReadSystem) (p : TimelinePrivate) : Option Frame × TimelinePrivate :=
  let out := frameRequestsPass rs p
  (out.1, delReaders (stopReaders out.2))

/-! ## Integer mirror of `toRanges`, used in the proofs -/

/-- The loop of `toRanges` on whole frame numbers: the runs as pairs of first and last
frame. -/
def loopZ (i j : ℤ) : List ℤ → List (ℤ × ℤ)
  | [] => [(i, j)]
  | k :: rest => if k - j > 1 then (i, j) :: loopZ k k rest else loopZ i k rest

/-- The function `toRanges` on whole frame numbers. -/
def toRangesZ (l : List ℤ) : List (ℤ × ℤ) :=
  match l.insertionSort (fun a b => a ≤ b) with
  | [] => []
  | f :: rest => loopZ f f rest

/-- The range at rate `q` from frame `p.1` to frame `p.2` inclusive. -/
def rangeZ (q : ℚ) (p : ℤ × ℤ) : TimeRange :=
  ⟨frameTime q p.1, ⟨((p.2 - p.1 + 1 : ℤ) : ℚ), q⟩⟩

/-- The frame numbers `a, a + 1, ..., a + n - 1`. -/
def runZ (a : ℤ) (n : ℕ) : List ℤ := (List.range n).map (fun k : ℕ => a + (k : ℤ))

/-- The frame numbers of a list of runs. -/
def enumZ (R : List (ℤ × ℤ)) : List ℤ := R.flatMap (fun p => runZ p.1 (p.2 - p.1 + 1).toNat)

/-- The runs are well formed and separated: first frame not after the last, and the next run
starts more than one frame after the last frame of the run before. -/
def SepZ (R : List (ℤ × ℤ)) : Prop :=
  (∀ p ∈ R, p.1 ≤ p.2) ∧ R.Pairwise (fun p p' => p.2 + 1 < p'.1)

/-- Specification side: the time is not before the start of the range and not after its
inclusive end, so that `loopTime` does not wrap it. -/
def inLoopRange (range : TimeRange) (t : RationalTime) : Prop :=
  RationalTime.le range.start_time t ∧ RationalTime.le t range.end_time_inclusive

instance (range : TimeRange) (t : RationalTime) : Decidable (inLoopRange range t) := by
  unfold inLoopRange; infer_instance

/-- Proof side: the time in seconds, the quantity that the comparison operators of
`RationalTime` compare. -/
def secondsOf (t : RationalTime) : ℚ := t.value / t.rate

/-- The invariant of a `std::map`: the entries are in strictly ascending key order, so no
key is held twice. -/
def mapSorted {α : Type} (m : List (RationalTime × α)) : Prop :=
  m.Pairwise (fun a b => RationalTime.lt a.1 b.1)

instance {α : Type} (m : List (RationalTime × α)) : Decidable (mapSorted m) := by
  unfold mapSorted; infer_instance

/-- Specification side: the time is a whole-frame time at rate `q`. -/
def isFrame (q : ℚ) (t : RationalTime) : Prop := ∃ n : ℤ, t = frameTime q n

instance (op : InOutOp) (p : Player) : Decidable (op.guard p) := by
  cases op <;> unfold InOutOp.guard <;> infer_instance

instance guardedRunDecidable : (ops : List InOutOp) → (p : Player) → Decidable (guardedRun ops p)
  | [], _ => isTrue trivial
  | op :: ops, p =>
    have := guardedRunDecidable ops (op.apply p)
    by unfold guardedRun; infer_instance

/-- Proof side: the invariant of a stopped player with valid times: positive rates, a
non-negative duration of the timeline and of the in/out range, and the current time and the
start of the in/out range not before the global start. -/
def inOutInv (p : Player) : Prop :=
  p.playback = Playback.Stop ∧ 0 < p.globalStartTime.rate ∧ 0 < p.duration.rate ∧
    0 ≤ p.duration.value ∧ 0 < p.currentTime.rate ∧
    secondsOf p.globalStartTime ≤ secondsOf p.currentTime ∧
    0 < p.inOutRange.start_time.rate ∧ 0 < p.inOutRange.duration.rate ∧
    0 ≤ p.inOutRange.duration.value ∧
    secondsOf p.globalStartTime ≤ secondsOf p.inOutRange.start_time

/-- The weight of the second clip of a dissolve that the specification names: the linear ramp
that starts `in_offset` frames before the inclusive end `e` of the first clip and takes
`in_offset + out_offset + 1` frames. -/
def rampWeight (a b e t : ℚ) : ℚ := (t - (e - a)) / (a + b + 1)

/-- The frames given to promises by `n` passes of the thread of the timeline, in order. -/
def runPasses (rs : ReadSystem) : ℕ → TimelinePrivate → List Frame × TimelinePrivate
  | 0, p => ([], p)
  | n + 1, p =>
    let out := timelineTick rs p
    let later := runPasses rs n out.2
    (match out.1 with
      | some frame => frame :: later.1
      | none => later.1, later.2)

/-- The test of `stopReaders` on one reader: its range intersects an active range or it has
pending video frames. -/
def readerInUse (p : TimelinePrivate) (e : ReaderEntry) : Prop :=
  (∃ activeRange ∈ p.activeRanges,
    (readerRange p.globalStartTime e).intersects activeRange) ∨ e.read.hasVideoFrames = true

instance (p : TimelinePrivate) (e : ReaderEntry) : Decidable (readerInUse p e) := by
  unfold readerInUse; infer_instance

/-- The frame `j` steps after the frame at offset `k0` in the cyclic order of the `N` frames
of a range that starts at frame `s`. -/
def cycFrame (q : ℚ) (s : ℤ) (N k0 j : ℕ) : RationalTime :=
  frameTime q (s + (((k0 + j) % N : ℕ) : ℤ))

/-! ## Lemmas on the time primitives -/

theorem RationalTime.lt_irrefl (a : RationalTime) : ¬ RationalTime.lt a a := by
  simp [RationalTime.lt, RationalTime.ge]

theorem RationalTime.gt_irrefl (a : RationalTime) : ¬ RationalTime.gt a a := by
  simp [RationalTime.gt]

theorem RationalTime.lt_iff (a b : RationalTime) :
    RationalTime.lt a b ↔ a.value / a.rate < b.value / b.rate := by
  simp [RationalTime.lt, RationalTime.ge]

theorem RationalTime.le_iff (a b : RationalTime) :
    RationalTime.le a b ↔ a.value / a.rate ≤ b.value / b.rate := by
  simp [RationalTime.le, RationalTime.gt]

/-- Rescaling between two positive rates keeps the time in seconds. -/
theorem RationalTime.value_rescaled_to_div (t : RationalTime) (q : ℚ) (ht : 0 < t.rate)
    (hq : 0 < q) : t.value_rescaled_to q / q = t.value / t.rate := by
  unfold RationalTime.value_rescaled_to
  split
  · next h => rw [h]
  · field_simp
    ring

/-- The rate of a sum or difference is the larger rate. -/
theorem RationalTime.add_rate (a b : RationalTime) :
    (RationalTime.add a b).rate = max a.rate b.rate := by
  unfold RationalTime.add
  split
  · next h => simp [max_eq_right h.le]
  · next h => simp [max_eq_left (not_lt.mp h)]

theorem RationalTime.sub_rate (a b : RationalTime) :
    (RationalTime.sub a b).rate = max a.rate b.rate := by
  unfold RationalTime.sub
  split
  · next h => simp [max_eq_right h.le]
  · next h => simp [max_eq_left (not_lt.mp h)]

/-- A sum of two times with positive rates is the sum of the seconds. -/
theorem RationalTime.add_seconds (a b : RationalTime) (ha : 0 < a.rate) (hb : 0 < b.rate) :
    (RationalTime.add a b).value / (RationalTime.add a b).rate
      = a.value / a.rate + b.value / b.rate := by
  unfold RationalTime.add
  split
  · simp only
    rw [add_div, RationalTime.value_rescaled_to_div a b.rate ha hb]
  · simp only
    rw [add_div, RationalTime.value_rescaled_to_div b a.rate hb ha, add_comm]

/-- A difference of two times with positive rates is the difference of the seconds. -/
theorem RationalTime.sub_seconds (a b : RationalTime) (ha : 0 < a.rate) (hb : 0 < b.rate) :
    (RationalTime.sub a b).value / (RationalTime.sub a b).rate
      = a.value / a.rate - b.value / b.rate := by
  unfold RationalTime.sub
  split
  · simp only
    rw [sub_div, RationalTime.value_rescaled_to_div a b.rate ha hb]
  · simp only
    rw [sub_div, RationalTime.value_rescaled_to_div b a.rate hb ha]

/-- The exclusive end of a range has the duration's rate and the value `start + duration`. -/
theorem TimeRange.end_time_exclusive_eq (r : TimeRange) :
    r.end_time_exclusive
      = ⟨r.start_time.value_rescaled_to r.duration.rate + r.duration.value, r.duration.rate⟩ := by
  simp [TimeRange.end_time_exclusive, RationalTime.add, RationalTime.rescaled_to,
    RationalTime.value_rescaled_to]

/-- The three cases of the inclusive end, with the arithmetic carried out. -/
theorem TimeRange.end_time_inclusive_eq (r : TimeRange) :
    r.end_time_inclusive =
      if r.duration.value > 1 then
        if r.duration.value ≠ (⌊r.duration.value⌋ : ℚ) then
          ⟨(⌊r.start_time.value_rescaled_to r.duration.rate + r.duration.value⌋ : ℚ),
            r.duration.rate⟩
        else
          ⟨r.start_time.value_rescaled_to r.duration.rate + r.duration.value - 1,
            r.duration.rate⟩
      else r.start_time := by
  unfold TimeRange.end_time_inclusive
  simp only [TimeRange.end_time_exclusive_eq]
  simp [RationalTime.sub, RationalTime.rescaled_to, RationalTime.value_rescaled_to]

/-- In a range with positive rates the inclusive end is not before the start. -/
theorem TimeRange.start_le_end_time_inclusive (r : TimeRange) (hs : 0 < r.start_time.rate)
    (hd : 0 < r.duration.rate) :
    r.start_time.value / r.start_time.rate
      ≤ r.end_time_inclusive.value / r.end_time_inclusive.rate := by
  rw [TimeRange.end_time_inclusive_eq]
  have hres := RationalTime.value_rescaled_to_div r.start_time r.duration.rate hs hd
  split
  · next h1 =>
    split
    · simp only
      rw [← hres]
      apply div_le_div_of_nonneg_right _ hd.le
      have hfl := Int.sub_one_lt_floor
        (r.start_time.value_rescaled_to r.duration.rate + r.duration.value)
      linarith
    · simp only
      rw [← hres]
      apply div_le_div_of_nonneg_right _ hd.le
      linarith
  · exact le_refl _

/-! ## Loop arithmetic -/

/-- C1 (loop idempotence): for every time `t` and every time range `r`, looping the looped
time again changes nothing, `loopTime (loopTime t r) r = loopTime t r`. -/
theorem loopTime_idempotent (t : RationalTime) (r : TimeRange) :
    loopTime (loopTime t r) r = loopTime t r := by
  unfold loopTime
  by_cases h1 : RationalTime.lt t r.start_time
  · simp [h1, RationalTime.gt_irrefl]
  · by_cases h2 : RationalTime.gt t r.end_time_inclusive
    · simp [h1, h2, RationalTime.lt_irrefl]
    · simp [h1, h2]

/-- C2 (loop boundary): in a range with positive rates, a time between the start and the
inclusive end is left as it is, the time one frame (at any positive rate `q`) before the
start is looped to the inclusive end, and the time one frame after the inclusive end is
looped to the start. -/
theorem loopTime_boundary (r : TimeRange) (t : RationalTime) (q : ℚ)
    (hs : 0 < r.start_time.rate) (hd : 0 < r.duration.rate) (hq : 0 < q) :
    (RationalTime.le r.start_time t → RationalTime.le t r.end_time_inclusive →
        loopTime t r = t) ∧
      loopTime (RationalTime.sub r.start_time ⟨1, q⟩) r = r.end_time_inclusive ∧
      loopTime (RationalTime.add r.end_time_inclusive ⟨1, q⟩) r = r.start_time := by
  have hle := TimeRange.start_le_end_time_inclusive r hs hd
  have hei : 0 < r.end_time_inclusive.rate := by
    rw [TimeRange.end_time_inclusive_eq]
    split
    · split <;> exact hd
    · exact hs
  have hq1 : (0 : ℚ) < 1 / q := by positivity
  refine ⟨?_, ?_, ?_⟩
  · intro h1 h2
    unfold loopTime
    rw [RationalTime.le_iff] at h1 h2
    have n1 : ¬ RationalTime.lt t r.start_time := by
      rw [RationalTime.lt_iff]; exact not_lt.mpr h1
    have n2 : ¬ RationalTime.gt t r.end_time_inclusive := by
      unfold RationalTime.gt; exact not_lt.mpr h2
    simp [n1, n2]
  · have hsec := RationalTime.sub_seconds r.start_time ⟨1, q⟩ hs hq
    have hlt : RationalTime.lt (RationalTime.sub r.start_time ⟨1, q⟩) r.start_time := by
      rw [RationalTime.lt_iff, hsec]
      simp only
      linarith
    unfold loopTime
    simp [hlt]
  · have hsec := RationalTime.add_seconds r.end_time_inclusive ⟨1, q⟩ hei hq
    simp only at hsec
    have n1 : ¬ RationalTime.lt (RationalTime.add r.end_time_inclusive ⟨1, q⟩) r.start_time := by
      rw [RationalTime.lt_iff, hsec]
      apply not_lt.mpr
      linarith
    have h2 : RationalTime.gt (RationalTime.add r.end_time_inclusive ⟨1, q⟩)
        r.end_time_inclusive := by
      unfold RationalTime.gt
      rw [hsec]
      linarith
    unfold loopTime
    simp [n1, h2]

/-- Witness of C2 on the range of the unit test, 24 frames from 0 at 24 frames per second:
23 is left as it is, -1 is looped to 23 and 24 is looped to 0. -/
theorem loopTime_boundary_witness :
    loopTime ⟨23, 24⟩ ⟨⟨0, 24⟩, ⟨24, 24⟩⟩ = ⟨23, 24⟩ ∧
      loopTime ⟨-1, 24⟩ ⟨⟨0, 24⟩, ⟨24, 24⟩⟩ = ⟨23, 24⟩ ∧
      loopTime ⟨24, 24⟩ ⟨⟨0, 24⟩, ⟨24, 24⟩⟩ = ⟨0, 24⟩ := by
  have h := loopTime_boundary ⟨⟨0, 24⟩, ⟨24, 24⟩⟩ ⟨23, 24⟩ 24 (by norm_num) (by norm_num)
    (by norm_num)
  have e : TimeRange.end_time_inclusive ⟨⟨0, 24⟩, ⟨24, 24⟩⟩ = ⟨23, 24⟩ := by decide!
  have e1 : RationalTime.sub (⟨0, 24⟩ : RationalTime) ⟨1, 24⟩ = ⟨-1, 24⟩ := by decide!
  have e2 : RationalTime.add (⟨23, 24⟩ : RationalTime) ⟨1, 24⟩ = ⟨24, 24⟩ := by decide!
  simp only [e, e1, e2] at h
  exact ⟨h.1 (by decide!) (by decide!), h.2.1, h.2.2⟩

/-! ## Range coalescing -/

theorem frameTime_sub_value (q : ℚ) (k j : ℤ) :
    (RationalTime.sub (frameTime q k) (frameTime q j)).value = ((k - j : ℤ) : ℚ) := by
  simp [RationalTime.sub, frameTime, RationalTime.value_rescaled_to]

theorem frameTime_lt_iff (q : ℚ) (hq : 0 < q) (a b : ℤ) :
    RationalTime.lt (frameTime q a) (frameTime q b) ↔ a < b := by
  rw [RationalTime.lt_iff]
  simp only [frameTime]
  rw [div_lt_div_iff_of_pos_right hq]
  exact Int.cast_lt

theorem frameTime_le_iff (q : ℚ) (hq : 0 < q) (a b : ℤ) :
    RationalTime.le (frameTime q a) (frameTime q b) ↔ a ≤ b := by
  rw [RationalTime.le_iff]
  simp only [frameTime]
  rw [div_le_div_iff_of_pos_right hq]
  exact Int.cast_le

theorem frameTime_injective (q : ℚ) : Function.Injective (frameTime q) := by
  intro a b h
  simp only [frameTime, RationalTime.mk.injEq, and_true] at h
  exact_mod_cast h

theorem range_inclusive_frameTime (q : ℚ) (i j : ℤ) :
    TimeRange.range_from_start_end_time_inclusive (frameTime q i) (frameTime q j)
      = rangeZ q (i, j) := by
  simp [TimeRange.range_from_start_end_time_inclusive,
    RationalTime.duration_from_start_end_time_inclusive, rangeZ, frameTime]

theorem toRangesLoop_frameTime (q : ℚ) (rest : List ℤ) :
    ∀ i j : ℤ, toRangesLoop (frameTime q i) (frameTime q j) (rest.map (frameTime q))
      = (loopZ i j rest).map (rangeZ q) := by
  induction rest with
  | nil => intro i j; simp [toRangesLoop, loopZ, range_inclusive_frameTime]
  | cons k rest ih =>
    intro i j
    simp only [List.map_cons, toRangesLoop, loopZ, frameTime_sub_value]
    have hc : ((k - j : ℤ) : ℚ) > 1 ↔ k - j > 1 := by
      constructor
      · intro h; exact_mod_cast h
      · intro h; exact_mod_cast h
    by_cases h : k - j > 1
    · rw [if_pos (hc.mpr h), if_pos h, ih, List.map_cons, range_inclusive_frameTime]
    · rw [if_neg (fun h1 => h (hc.mp h1)), if_neg h, ih]

theorem sortFrames_frameTime (q : ℚ) (hq : 0 < q) (l : List ℤ) :
    sortFrames (l.map (frameTime q))
      = (l.insertionSort (fun a b => a ≤ b)).map (frameTime q) := by
  unfold sortFrames
  symm
  apply List.map_insertionSort
  intro a _ b _
  rw [frameTime_lt_iff q hq]
  exact not_lt.symm

theorem toRanges_frameTime (q : ℚ) (hq : 0 < q) (l : List ℤ) :
    toRanges (l.map (frameTime q)) = (toRangesZ l).map (rangeZ q) := by
  unfold toRanges toRangesZ
  rw [sortFrames_frameTime q hq]
  cases l.insertionSort (fun a b => a ≤ b) with
  | nil => rfl
  | cons f rest => simp only [List.map_cons]; exact toRangesLoop_frameTime q rest f f

theorem rangeZ_contains (q : ℚ) (hq : 0 < q) (p : ℤ × ℤ) (n : ℤ) :
    (rangeZ q p).contains (frameTime q n) ↔ p.1 ≤ n ∧ n ≤ p.2 := by
  unfold TimeRange.contains
  rw [TimeRange.end_time_exclusive_eq]
  have e : (⟨(rangeZ q p).start_time.value_rescaled_to (rangeZ q p).duration.rate
      + (rangeZ q p).duration.value, (rangeZ q p).duration.rate⟩ : RationalTime)
      = frameTime q (p.2 + 1) := by
    simp [rangeZ, frameTime, RationalTime.value_rescaled_to]
    ring
  rw [e]
  have e2 : (rangeZ q p).start_time = frameTime q p.1 := rfl
  rw [e2, frameTime_le_iff q hq, frameTime_lt_iff q hq]
  omega

/-- The runs of `loopZ` cover the run being built and the frames still to come. -/
theorem loopZ_cover (rest : List ℤ) : ∀ i j : ℤ, i ≤ j → List.Sorted (fun a b => a ≤ b) (j :: rest) →
    ∀ n : ℤ, (∃ p ∈ loopZ i j rest, p.1 ≤ n ∧ n ≤ p.2) ↔ ((i ≤ n ∧ n ≤ j) ∨ n ∈ rest) := by
  induction rest with
  | nil => intro i j _ _ n; simp [loopZ]
  | cons k rest ih =>
    intro i j hij hs n
    have hs1 := List.sorted_cons.mp hs
    have hjk : j ≤ k := hs1.1 k (List.mem_cons_self _ _)
    simp only [loopZ]
    by_cases h : k - j > 1
    · rw [if_pos h]
      simp only [List.mem_cons, exists_eq_or_imp]
      rw [ih k k le_rfl hs1.2 n]
      constructor
      · rintro (h1 | h1 | h1)
        · exact Or.inl h1
        · exact Or.inr (Or.inl (by omega))
        · exact Or.inr (Or.inr h1)
      · rintro (h1 | h1 | h1)
        · exact Or.inl h1
        · exact Or.inr (Or.inl (by omega))
        · exact Or.inr (Or.inr h1)
    · rw [if_neg h]
      rw [ih i k (by omega) hs1.2 n]
      simp only [List.mem_cons]
      constructor
      · rintro (h1 | h1)
        · by_cases hn : n ≤ j
          · exact Or.inl ⟨h1.1, hn⟩
          · exact Or.inr (Or.inl (by omega))
        · exact Or.inr (Or.inr h1)
      · rintro (h1 | h1 | h1)
        · exact Or.inl ⟨h1.1, by omega⟩
        · exact Or.inl (by omega)
        · exact Or.inr h1

theorem toRangesZ_cover (l : List ℤ) (n : ℤ) :
    (∃ p ∈ toRangesZ l, p.1 ≤ n ∧ n ≤ p.2) ↔ n ∈ l := by
  unfold toRangesZ
  have hs := List.sorted_insertionSort (fun a b : ℤ => a ≤ b) l
  have hm : ∀ x, x ∈ l.insertionSort (fun a b => a ≤ b) ↔ x ∈ l :=
    fun x => List.mem_insertionSort (fun a b : ℤ => a ≤ b)
  revert hs hm
  cases l.insertionSort (fun a b => a ≤ b) with
  | nil => intro _ hm; simp [← hm n]
  | cons f rest =>
    intro hs hm
    simp only
    rw [loopZ_cover rest f f le_rfl hs n, ← hm n, List.mem_cons]
    constructor
    · rintro (h | h)
      · exact Or.inl (by omega)
      · exact Or.inr h
    · rintro (h | h)
      · exact Or.inl (by omega)
      · exact Or.inr h

theorem mem_runZ (a : ℤ) (n : ℕ) (x : ℤ) : x ∈ runZ a n ↔ a ≤ x ∧ x < a + n := by
  unfold runZ
  simp only [List.mem_map, List.mem_range]
  constructor
  · rintro ⟨k, hk, rfl⟩
    omega
  · rintro ⟨h1, h2⟩
    exact ⟨(x - a).toNat, by omega, by omega⟩

theorem runZ_succ (a : ℤ) (n : ℕ) : runZ a (n + 1) = a :: runZ (a + 1) n := by
  unfold runZ
  rw [List.range_succ_eq_map]
  simp only [List.map_cons, List.map_map, Nat.cast_zero, add_zero, List.cons.injEq, true_and]
  apply List.map_congr_left
  intro k _
  simp only [Function.comp, Nat.succ_eq_add_one, Nat.cast_add, Nat.cast_one]
  ring

theorem runZ_sorted (n : ℕ) : ∀ a : ℤ, List.Sorted (fun x y : ℤ => x ≤ y) (runZ a n) := by
  induction n with
  | zero => intro a; simp [runZ]
  | succ n ih =>
    intro a
    rw [runZ_succ]
    apply List.sorted_cons.mpr
    refine ⟨?_, ih (a + 1)⟩
    intro b hb
    rw [mem_runZ] at hb
    omega

theorem loopZ_runZ (m : ℕ) : ∀ (i j : ℤ) (tail : List ℤ),
    loopZ i j (runZ (j + 1) m ++ tail) = loopZ i (j + m) tail := by
  induction m with
  | zero => intro i j tail; simp [runZ]
  | succ m ih =>
    intro i j tail
    rw [runZ_succ, List.cons_append, loopZ, if_neg (by omega), ih]
    congr 1
    push_cast
    ring

theorem loopZ_inv (rest : List ℤ) : ∀ i j : ℤ, i ≤ j →
    List.Sorted (fun a b => a ≤ b) (j :: rest) →
    (∀ p ∈ loopZ i j rest, i ≤ p.1 ∧ p.1 ≤ p.2) ∧
      (loopZ i j rest).Pairwise (fun p p' => p.2 + 1 < p'.1) := by
  induction rest with
  | nil => intro i j hij _; simp [loopZ, hij]
  | cons k rest ih =>
    intro i j hij hs
    have hs1 := List.sorted_cons.mp hs
    have hjk : j ≤ k := hs1.1 k (List.mem_cons_self _ _)
    simp only [loopZ]
    by_cases h : k - j > 1
    · rw [if_pos h]
      have hk := ih k k le_rfl hs1.2
      refine ⟨?_, ?_⟩
      · intro p hp
        rcases List.mem_cons.mp hp with rfl | hp
        · exact ⟨le_rfl, hij⟩
        · have := hk.1 p hp
          omega
      · apply List.pairwise_cons.mpr
        refine ⟨?_, hk.2⟩
        intro p hp
        have := hk.1 p hp
        simp only
        omega
    · rw [if_neg h]
      exact ih i k (by omega) hs1.2

theorem toRangesZ_sep (l : List ℤ) : SepZ (toRangesZ l) := by
  unfold toRangesZ SepZ
  have hs := List.sorted_insertionSort (fun a b : ℤ => a ≤ b) l
  revert hs
  cases l.insertionSort (fun a b => a ≤ b) with
  | nil => intro _; simp
  | cons f rest =>
    intro hs
    have h := loopZ_inv rest f f le_rfl hs
    exact ⟨fun p hp => (h.1 p hp).2, h.2⟩

theorem mem_enumZ (R : List (ℤ × ℤ)) (x : ℤ) :
    x ∈ enumZ R ↔ ∃ p ∈ R, p.1 ≤ x ∧ x ≤ p.2 := by
  unfold enumZ
  simp only [List.mem_flatMap, mem_runZ]
  constructor
  · rintro ⟨p, hp, h1, h2⟩
    exact ⟨p, hp, h1, by omega⟩
  · rintro ⟨p, hp, h1, h2⟩
    exact ⟨p, hp, h1, by omega⟩

theorem enumZ_cons (p : ℤ × ℤ) (R : List (ℤ × ℤ)) :
    enumZ (p :: R) = runZ p.1 (p.2 - p.1 + 1).toNat ++ enumZ R := by
  simp [enumZ]

theorem SepZ.tail {p : ℤ × ℤ} {R : List (ℤ × ℤ)} (h : SepZ (p :: R)) : SepZ R :=
  ⟨fun p' hp' => h.1 p' (List.mem_cons_of_mem _ hp'), (List.pairwise_cons.mp h.2).2⟩

theorem enumZ_sorted (R : List (ℤ × ℤ)) : SepZ R →
    List.Sorted (fun x y : ℤ => x ≤ y) (enumZ R) := by
  induction R with
  | nil => intro _; simp [enumZ]
  | cons p R ih =>
    intro h
    rw [enumZ_cons]
    apply List.pairwise_append.mpr
    refine ⟨runZ_sorted _ _, ih h.tail, ?_⟩
    intro x hx y hy
    rw [mem_runZ] at hx
    rw [mem_enumZ] at hy
    obtain ⟨p', hp', h1, _⟩ := hy
    have := (List.pairwise_cons.mp h.2).1 p' hp'
    have := h.1 p (List.mem_cons_self _ _)
    omega

theorem runZ_interval (a b : ℤ) (h : a ≤ b) :
    runZ a (b - a + 1).toNat = a :: runZ (a + 1) (b - a).toNat := by
  have e : (b - a + 1).toNat = (b - a).toNat + 1 := by omega
  rw [e, runZ_succ]

theorem loopZ_enumZ (R : List (ℤ × ℤ)) : ∀ a b : ℤ, SepZ ((a, b) :: R) →
    loopZ a a (runZ (a + 1) (b - a).toNat ++ enumZ R) = (a, b) :: R := by
  induction R with
  | nil =>
    intro a b h
    have hab : a ≤ b := h.1 (a, b) (List.mem_cons_self _ _)
    rw [loopZ_runZ]
    simp only [enumZ, List.flatMap_nil, loopZ]
    have e : a + ((b - a).toNat : ℤ) = b := by omega
    rw [e]
  | cons p R ih =>
    intro a b h
    obtain ⟨a', b'⟩ := p
    have hab : a ≤ b := h.1 (a, b) (List.mem_cons_self _ _)
    have hab' : a' ≤ b' := h.1 (a', b') (List.mem_cons_of_mem _ (List.mem_cons_self _ _))
    have hgap : b + 1 < a' := (List.pairwise_cons.mp h.2).1 (a', b') (List.mem_cons_self _ _)
    rw [loopZ_runZ, enumZ_cons]
    simp only
    rw [runZ_interval a' b' hab', List.cons_append, loopZ]
    have e : a + ((b - a).toNat : ℤ) = b := by omega
    rw [e, if_pos (by omega), ih a' b' h.tail]

theorem toRangesZ_enumZ (R : List (ℤ × ℤ)) (h : SepZ R) : toRangesZ (enumZ R) = R := by
  unfold toRangesZ
  rw [List.Sorted.insertionSort_eq (enumZ_sorted R h)]
  cases R with
  | nil => simp [enumZ]
  | cons p R =>
    obtain ⟨a, b⟩ := p
    have hab : a ≤ b := h.1 (a, b) (List.mem_cons_self _ _)
    rw [enumZ_cons]
    simp only
    rw [runZ_interval a b hab, List.cons_append]
    exact loopZ_enumZ R a b h

theorem frames_rangeZ (q : ℚ) (p : ℤ × ℤ) :
    (rangeZ q p).frames = (runZ p.1 (p.2 - p.1 + 1).toNat).map (frameTime q) := by
  unfold TimeRange.frames runZ
  simp only [rangeZ, frameTime, Int.ceil_intCast, List.map_map]
  apply List.map_congr_left
  intro k _
  simp [Function.comp, frameTime]

theorem enumerate_rangeZ (q : ℚ) (R : List (ℤ × ℤ)) :
    enumerate (R.map (rangeZ q)) = (enumZ R).map (frameTime q) := by
  induction R with
  | nil => simp [enumerate, enumZ]
  | cons p R ih =>
    rw [enumZ_cons, List.map_append, ← ih, ← frames_rangeZ]
    simp [enumerate]

/-- A whole-frame time is contained in a range of `toRanges` exactly when it is one of the
frames. -/
theorem toRanges_contains_iff (q : ℚ) (hq : 0 < q) (l : List ℤ) (n : ℤ) :
    (∃ r ∈ toRanges (l.map (frameTime q)), r.contains (frameTime q n)) ↔ n ∈ l := by
  rw [toRanges_frameTime q hq, ← toRangesZ_cover l n]
  simp only [List.mem_map]
  constructor
  · rintro ⟨r, ⟨p, hp, rfl⟩, hc⟩
    exact ⟨p, hp, (rangeZ_contains q hq p n).mp hc⟩
  · rintro ⟨p, hp, hc⟩
    exact ⟨rangeZ q p, ⟨p, hp, rfl⟩, (rangeZ_contains q hq p n).mpr hc⟩

/-- C3 (range coalescing round trip): for frames with whole-number values at one positive
rate `q`, in any order and with duplicates, a whole-frame time is contained in one of the
ranges of `toRanges` exactly when it is one of the frames, the enumeration of the ranges has
exactly the frames as members, and `toRanges` of that enumeration gives the same ranges. -/
theorem toRanges_roundtrip (q : ℚ) (hq : 0 < q) (l : List ℤ) :
    (∀ n : ℤ, (∃ r ∈ toRanges (l.map (frameTime q)), r.contains (frameTime q n)) ↔ n ∈ l) ∧
      (∀ t : RationalTime,
        t ∈ enumerate (toRanges (l.map (frameTime q))) ↔ t ∈ l.map (frameTime q)) ∧
      toRanges (enumerate (toRanges (l.map (frameTime q)))) = toRanges (l.map (frameTime q)) := by
  refine ⟨toRanges_contains_iff q hq l, ?_, ?_⟩
  all_goals rw [toRanges_frameTime q hq]
  · intro t
    rw [enumerate_rangeZ]
    simp only [List.mem_map, mem_enumZ, toRangesZ_cover]
  · rw [enumerate_rangeZ, toRanges_frameTime q hq, toRangesZ_enumZ _ (toRangesZ_sep l)]

/-- Witness of C3: the frames 5, 1, 2, 2 and 7 at 24 frames per second are coalesced into
the ranges 1..2, 5..5 and 7..7; frame 2 is contained in them and frame 3 is not. -/
theorem toRanges_roundtrip_witness :
    toRanges [⟨5, 24⟩, ⟨1, 24⟩, ⟨2, 24⟩, ⟨2, 24⟩, ⟨7, 24⟩]
        = [⟨⟨1, 24⟩, ⟨2, 24⟩⟩, ⟨⟨5, 24⟩, ⟨1, 24⟩⟩, ⟨⟨7, 24⟩, ⟨1, 24⟩⟩] ∧
      ((∃ r ∈ toRanges ([5, 1, 2, 2, 7].map (frameTime 24)), r.contains (frameTime 24 2))
        ↔ (2 : ℤ) ∈ [5, 1, 2, 2, 7]) ∧
      ((∃ r ∈ toRanges ([5, 1, 2, 2, 7].map (frameTime 24)), r.contains (frameTime 24 3))
        ↔ (3 : ℤ) ∈ [5, 1, 2, 2, 7]) ∧
      toRanges (enumerate (toRanges ([5, 1, 2, 2, 7].map (frameTime 24))))
        = toRanges ([5, 1, 2, 2, 7].map (frameTime 24)) :=
  ⟨by decide!,
    (toRanges_roundtrip 24 (by norm_num) [5, 1, 2, 2, 7]).1 2,
    (toRanges_roundtrip 24 (by norm_num) [5, 1, 2, 2, 7]).1 3,
    (toRanges_roundtrip 24 (by norm_num) [5, 1, 2, 2, 7]).2.2⟩

/-! ## Frame assembly -/

theorem assembleLayers_eq (layerData : List LayerData) : ∀ layers : List FrameLayer,
    assembleLayers layerData layers
      = layers ++ (layerData.takeWhile LayerData.succeeded).filterMap LayerData.layer := by
  induction layerData with
  | nil => intro layers; simp [assembleLayers]
  | cons j rest ih =>
    intro layers
    obtain ⟨image, imageB, transition, transitionValue⟩ := j
    cases image with
    | exception => simp [assembleLayers, LayerData.succeeded]
    | value im =>
      cases imageB with
      | none =>
        simp [assembleLayers, LayerData.succeeded, LayerData.layer, ih]
      | some b =>
        cases b with
        | exception => simp [assembleLayers, LayerData.succeeded]
        | value imB => simp [assembleLayers, LayerData.succeeded, LayerData.layer, ih]

theorem mem_mapInsert {α : Type} (k : RationalTime) (v : α) (m : List (RationalTime × α))
    (e : RationalTime × α) (he : e ∈ mapInsert k v m) :
    e ∈ m ∨ (e.2 = v ∧ keyEquiv e.1 k) := by
  induction m with
  | nil =>
    simp only [mapInsert, List.mem_singleton] at he
    subst he
    exact Or.inr ⟨rfl, RationalTime.lt_irrefl k, RationalTime.lt_irrefl k⟩
  | cons x m ih =>
    simp only [mapInsert] at he
    split at he
    · rcases List.mem_cons.mp he with rfl | he
      · exact Or.inr ⟨rfl, RationalTime.lt_irrefl k, RationalTime.lt_irrefl k⟩
      · exact Or.inl he
    · next h1 =>
      split at he
      · rcases List.mem_cons.mp he with rfl | he
        · exact Or.inl (List.mem_cons_self _ _)
        · rcases ih he with h | h
          · exact Or.inl (List.mem_cons_of_mem _ h)
          · exact Or.inr h
      · next h2 =>
        rcases List.mem_cons.mp he with rfl | he
        · exact Or.inr ⟨rfl, h2, h1⟩
        · exact Or.inl (List.mem_cons_of_mem _ he)

/-- An entry of the cache after the requests are polled was in the cache before, or it is
the frame of a ready request with the key of that request as its time. -/
theorem pollRequests_cache (poll : RationalTime → Option Frame)
    (requests : List (RationalTime × Unit)) : ∀ (frameCache : List (RationalTime × Frame))
    (e : RationalTime × Frame), e ∈ (pollRequests poll requests frameCache).1 →
    e ∈ frameCache ∨ (keyEquiv e.1 e.2.time ∧ (e.2.time, ()) ∈ requests ∧
      ∃ frame, poll e.2.time = some frame ∧ e.2 = { frame with time := e.2.time }) := by
  induction requests with
  | nil => intro frameCache e he; exact Or.inl he
  | cons r rest ih =>
    intro frameCache e he
    obtain ⟨k, u⟩ := r
    simp only [pollRequests] at he
    cases hp : poll k with
    | none =>
      rw [hp] at he
      rcases ih frameCache e he with h | ⟨h1, h2, h3⟩
      · exact Or.inl h
      · exact Or.inr ⟨h1, List.mem_cons_of_mem _ h2, h3⟩
    | some frame =>
      rw [hp] at he
      rcases ih _ e he with h | ⟨h1, h2, h3⟩
      · rcases mem_mapInsert _ _ _ _ h with h' | ⟨h1, h2⟩
        · exact Or.inl h'
        · refine Or.inr ⟨?_, ?_, frame, ?_, ?_⟩
          · rw [h1]; exact h2
          · rw [h1]; exact List.mem_cons_self _ _
          · rw [h1]; exact hp
          · rw [h1]
      · exact Or.inr ⟨h1, List.mem_cons_of_mem _ h2, h3⟩

theorem removeOld_subset (ranges : List TimeRange) (frameCache : List (RationalTime × Frame))
    (e : RationalTime × Frame) (he : e ∈ removeOld ranges frameCache) : e ∈ frameCache :=
  (List.mem_filter.mp he).1

/-- C4 (frame time identity): the frame that the compositor gives to the promise of a
request for time `t` has time `t`, whatever the layer reads do and also when an exception
leaves the try block during the walk; and every cache entry that `frameCacheUpdate` stores is
the polled frame with its time set to the key of its request, stored under that key. -/
theorem frame_time_identity :
    (∀ (t : RationalTime) (walk : Option (List LayerData)), (frameRequests t walk).time = t) ∧
      (∀ (rate : ℚ) (poll : RationalTime → Option Frame) (td : ThreadData)
        (currentTime : RationalTime) (inOutRange : TimeRange) (dir : FrameCacheDirection)
        (readAhead readBehind : ℕ) (e : RationalTime × Frame),
        e ∈ (frameCacheUpdate rate poll td currentTime inOutRange dir readAhead
          readBehind).1.frameCache →
        e ∈ td.frameCache ∨ (keyEquiv e.1 e.2.time ∧
          ∃ frame, poll e.2.time = some frame ∧ e.2 = { frame with time := e.2.time })) ∧
      (∀ (k : RationalTime) (frame : Frame) (frameCache : List (RationalTime × Frame)),
        ∃ e ∈ mapInsert k ({ frame with time := k } : Frame) frameCache,
          keyEquiv e.1 k ∧ e.2.time = k) := by
  refine ⟨?_, ?_, ?_⟩
  · intro t walk
    cases walk <;> rfl
  · intro rate poll td currentTime inOutRange dir readAhead readBehind e he
    simp only [frameCacheUpdate] at he
    rcases pollRequests_cache _ _ _ e he with h | ⟨h1, _, h3⟩
    · exact Or.inl (removeOld_subset _ _ e h)
    · exact Or.inr ⟨h1, h3⟩
  · intro k frame frameCache
    induction frameCache with
    | nil =>
      exact ⟨_, List.mem_singleton.mpr rfl, ⟨RationalTime.lt_irrefl k, RationalTime.lt_irrefl k⟩, rfl⟩
    | cons x m ih =>
      simp only [mapInsert]
      split
      · exact ⟨_, List.mem_cons_self _ _, ⟨RationalTime.lt_irrefl k, RationalTime.lt_irrefl k⟩, rfl⟩
      · next h1 =>
        split
        · obtain ⟨e, he, h⟩ := ih
          exact ⟨e, List.mem_cons_of_mem _ he, h⟩
        · next h2 => exact ⟨_, List.mem_cons_self _ _, ⟨h2, h1⟩, rfl⟩

/-- C5, the claim as stated fails: when the read of the first of two layers throws and the
read of the second succeeds, the delivered frame has no layer at all, although the second
read succeeded. -/
theorem layer_omission_counterexample :
    (frameRequests ⟨0, 24⟩
        (some [⟨ReadOutcome.exception, none, Transition.None, 0⟩,
          ⟨ReadOutcome.value 7, none, Transition.None, 0⟩])).layers = [] ∧
      List.filterMap LayerData.layer
        [⟨ReadOutcome.exception, none, Transition.None, 0⟩,
          ⟨ReadOutcome.value 7, none, Transition.None, 0⟩]
        = [⟨7, none, Transition.None, 0⟩] ∧
      (frameRequests ⟨0, 24⟩
        (some [⟨ReadOutcome.exception, none, Transition.None, 0⟩,
          ⟨ReadOutcome.value 7, none, Transition.None, 0⟩])).layers
        ≠ List.filterMap LayerData.layer
          [⟨ReadOutcome.exception, none, Transition.None, 0⟩,
            ⟨ReadOutcome.value 7, none, Transition.None, 0⟩] := by
  decide!

/-- C5 as amended: the layers of the delivered frame are the layers of the reads that come
before the first failing read, in track order; a failing read removes its own layer and the
layers of all later reads, and never a layer of an earlier read. When no read fails, every
layer is delivered. -/
theorem layer_omission_prefix (t : RationalTime) (layerData : List LayerData) :
    (frameRequests t (some layerData)).layers
        = (layerData.takeWhile LayerData.succeeded).filterMap LayerData.layer ∧
      ((∀ j ∈ layerData, j.succeeded = true) →
        (frameRequests t (some layerData)).layers = layerData.filterMap LayerData.layer) := by
  have h : (frameRequests t (some layerData)).layers
      = (layerData.takeWhile LayerData.succeeded).filterMap LayerData.layer := by
    simp [frameRequests, assembleLayers_eq]
  refine ⟨h, ?_⟩
  intro hall
  rw [h]
  congr 1
  exact List.takeWhile_eq_self_iff.mpr hall

/-! ## The target frames of the cache -/

theorem loopTime_eq_self (t : RationalTime) (r : TimeRange) (h : inLoopRange r t) :
    loopTime t r = t := by
  obtain ⟨h1, h2⟩ := h
  rw [RationalTime.le_iff] at h1 h2
  have n1 : ¬ RationalTime.lt t r.start_time := by
    rw [RationalTime.lt_iff]; exact not_lt.mpr h1
  have n2 : ¬ RationalTime.gt t r.end_time_inclusive := by
    unfold RationalTime.gt; exact not_lt.mpr h2
  simp [loopTime, n1, n2]

theorem sub_one_frame (x q : ℚ) : RationalTime.sub ⟨x, q⟩ ⟨1, q⟩ = ⟨x - 1, q⟩ := by
  simp [RationalTime.sub, RationalTime.value_rescaled_to]

theorem add_one_frame (x q : ℚ) : RationalTime.add ⟨x, q⟩ ⟨1, q⟩ = ⟨x + 1, q⟩ := by
  simp [RationalTime.add, RationalTime.value_rescaled_to, add_comm]

theorem stepBack_noWrap (q : ℚ) (range : TimeRange) (n : ℕ) : ∀ x : ℚ,
    (∀ m : ℕ, 1 ≤ m → m ≤ n → inLoopRange range ⟨x - (m : ℚ), q⟩) →
    stepBack q range n ⟨x, q⟩ = ⟨x - (n : ℚ), q⟩ := by
  induction n with
  | zero => intro x _; simp [stepBack]
  | succ n ih =>
    intro x h
    have h1 : inLoopRange range ⟨x - 1, q⟩ := by
      have := h 1 le_rfl (by omega)
      simpa using this
    rw [stepBack, sub_one_frame, loopTime_eq_self _ _ h1, ih]
    · congr 1
      push_cast
      ring
    · intro m hm1 hm2
      have := h (m + 1) (by omega) (by omega)
      have e : x - 1 - (m : ℚ) = x - ((m + 1 : ℕ) : ℚ) := by push_cast; ring
      rw [e]
      exact this

theorem range_succ_map_frames (q x : ℚ) (n : ℕ) :
    (List.range (n + 1)).map (fun k : ℕ => (⟨x + (k : ℚ), q⟩ : RationalTime))
      = ⟨x, q⟩ :: (List.range n).map (fun k : ℕ => (⟨x + 1 + (k : ℚ), q⟩ : RationalTime)) := by
  rw [List.range_succ_eq_map]
  simp only [List.map_cons, List.map_map, Nat.cast_zero, add_zero, List.cons.injEq, true_and]
  apply List.map_congr_left
  intro k _
  simp only [Function.comp, Nat.succ_eq_add_one, Nat.cast_add, Nat.cast_one,
    RationalTime.mk.injEq, and_true]
  ring

theorem collectFrames_noWrap (q : ℚ) (range : TimeRange) (n : ℕ) :
    ∀ (x : ℚ) (time : RationalTime) (acc : List RationalTime),
    (0 < n → time = ⟨x, q⟩) →
    (∀ k : ℕ, k < n → inLoopRange range ⟨x + (k : ℚ), q⟩) →
    (∀ f0 ∈ acc.head?, f0.rate = q ∧ f0.value < x) →
    collectFrames q range n time acc
      = acc ++ (List.range n).map (fun k : ℕ => (⟨x + (k : ℚ), q⟩ : RationalTime)) := by
  induction n with
  | zero => intro x time acc _ _ _; simp [collectFrames]
  | succ n ih =>
    intro x time acc ht hin hacc
    rw [ht (Nat.succ_pos n), range_succ_map_frames]
    have hnext : 0 < n → loopTime (⟨x + 1, q⟩ : RationalTime) range = ⟨x + 1, q⟩ := by
      intro hn
      apply loopTime_eq_self
      have := hin 1 (by omega)
      simpa using this
    have hin' : ∀ k : ℕ, k < n → inLoopRange range ⟨x + 1 + (k : ℚ), q⟩ := by
      intro k hk
      have := hin (k + 1) (by omega)
      have e : x + 1 + (k : ℚ) = x + ((k + 1 : ℕ) : ℚ) := by push_cast; ring
      rw [e]
      exact this
    cases acc with
    | nil =>
      simp only [collectFrames, add_one_frame, List.nil_append]
      rw [ih (x + 1) _ [⟨x, q⟩] hnext hin']
      · rfl
      · intro f0 hf0
        simp only [List.head?_cons, Option.mem_def, Option.some.injEq] at hf0
        subst hf0
        exact ⟨rfl, by simp⟩
    | cons f0 acc =>
      have hf := hacc f0 (by simp)
      have hne : ¬ RationalTime.equal ⟨x, q⟩ f0 := by
        unfold RationalTime.equal RationalTime.value_rescaled_to
        simp only [hf.1, if_true]
        exact fun h => absurd h.symm (ne_of_lt hf.2)
      simp only [collectFrames, if_neg hne, add_one_frame]
      rw [ih (x + 1) _ ((f0 :: acc) ++ [(⟨x, q⟩ : RationalTime)]) hnext hin']
      · simp
      · intro g hg
        simp only [List.cons_append, List.head?_cons, Option.mem_def, Option.some.injEq] at hg
        subst hg
        exact ⟨hf.1, by linarith⟩

/-- Without wrapping the target frames are `readBehind + readAhead` consecutive frames that
start `readBehind` (Forward) or `readAhead` (Reverse) frames before the current time. -/
theorem targetFrames_noWrap (q c : ℚ) (range : TimeRange) (dir : FrameCacheDirection)
    (ra rb : ℕ) (hsize : rb + ra < 2 ^ 64)
    (hin : ∀ k : ℕ, k < rb + ra → inLoopRange range
      ⟨c - ((if dir = FrameCacheDirection.Forward then rb else ra : ℕ) : ℚ) + (k : ℚ), q⟩) :
    targetFrames q ⟨c, q⟩ range dir ra rb
      = (List.range (rb + ra)).map (fun k : ℕ =>
          (⟨c - ((if dir = FrameCacheDirection.Forward then rb else ra : ℕ) : ℚ) + (k : ℚ), q⟩ :
            RationalTime)) := by
  unfold targetFrames
  simp only [Nat.mod_eq_of_lt hsize]
  have hs : (if dir = FrameCacheDirection.Forward then rb else ra) ≤ rb + ra := by
    split <;> omega
  generalize (if dir = FrameCacheDirection.Forward then rb else ra) = s at hin hs ⊢
  rw [stepBack_noWrap q range s c]
  · rw [collectFrames_noWrap q range (rb + ra) (c - (s : ℚ)) _ [] (fun _ => rfl) hin]
    · rfl
    · intro f0 hf0
      simp at hf0
  · intro m hm1 hm2
    have := hin (s - m) (by omega)
    have e : c - (s : ℚ) + ((s - m : ℕ) : ℚ) = c - (m : ℚ) := by
      rw [Nat.cast_sub hm2]
      ring
    rw [e] at this
    exact this

theorem consecutive_sorted (q : ℚ) (hq : 0 < q) (y : ℚ) (m : ℕ) :
    List.Sorted (fun a b => ¬ RationalTime.lt b a)
      ((List.range m).map (fun k : ℕ => (⟨y + (k : ℚ), q⟩ : RationalTime))) := by
  unfold List.Sorted
  rw [List.pairwise_map]
  apply (List.pairwise_lt_range m).imp
  intro a b hab
  rw [RationalTime.lt_iff]
  simp only [not_lt]
  apply div_le_div_of_nonneg_right _ hq.le
  have : (a : ℚ) < b := by exact_mod_cast hab
  linarith

theorem toRangesLoop_consecutive (q : ℚ) (i : RationalTime) (n : ℕ) : ∀ z : ℚ,
    toRangesLoop i ⟨z, q⟩
        ((List.range n).map (fun k : ℕ => (⟨z + 1 + (k : ℚ), q⟩ : RationalTime)))
      = [TimeRange.range_from_start_end_time_inclusive i ⟨z + (n : ℚ), q⟩] := by
  induction n with
  | zero => intro z; simp [toRangesLoop]
  | succ n ih =>
    intro z
    rw [range_succ_map_frames, toRangesLoop]
    have hv : ¬ (RationalTime.sub (⟨z + 1, q⟩ : RationalTime) ⟨z, q⟩).value > 1 := by
      simp [RationalTime.sub, RationalTime.value_rescaled_to]
    rw [if_neg hv, ih (z + 1)]
    congr 3
    push_cast
    ring

theorem toRanges_consecutive (q : ℚ) (hq : 0 < q) (y : ℚ) (m : ℕ) :
    toRanges ((List.range (m + 1)).map (fun k : ℕ => (⟨y + (k : ℚ), q⟩ : RationalTime)))
      = [⟨⟨y, q⟩, ⟨(m : ℚ) + 1, q⟩⟩] := by
  unfold toRanges sortFrames
  rw [List.Sorted.insertionSort_eq (consecutive_sorted q hq y (m + 1)), range_succ_map_frames]
  simp only
  rw [toRangesLoop_consecutive]
  simp [TimeRange.range_from_start_end_time_inclusive,
    RationalTime.duration_from_start_end_time_inclusive]

/-- C7, the claim as stated fails: on a timeline at 24 frames per second, `seek` to the time
10 at rate 48 (frame 5) leaves the current time at rate 48. With read ahead 10 and read
behind 1 in the range of 24 frames nothing wraps, and the target list holds the eleven frame
times from frame 4 to frame 14, written at rate 48 with values two apart; `toRanges` starts
a new range whenever the value grows by more than 1, so the timeline is given eleven ranges
of duration 1 at rate 48 and not the single range that covers the frames. -/
theorem forward_target_set_counterexample :
    (seek 0 ⟨10, 48⟩ (initPlayer ⟨0, 24⟩ ⟨24, 24⟩)).currentTime = ⟨10, 48⟩ ∧
      targetFrames 24 ⟨10, 48⟩ ⟨⟨0, 24⟩, ⟨24, 24⟩⟩ FrameCacheDirection.Forward 10 1
        = [⟨8, 48⟩, ⟨10, 48⟩, ⟨12, 48⟩, ⟨14, 48⟩, ⟨16, 48⟩, ⟨18, 48⟩, ⟨20, 48⟩, ⟨22, 48⟩,
            ⟨24, 48⟩, ⟨26, 48⟩, ⟨28, 48⟩] ∧
      (∀ t ∈ targetFrames 24 ⟨10, 48⟩ ⟨⟨0, 24⟩, ⟨24, 24⟩⟩ FrameCacheDirection.Forward 10 1,
        inLoopRange ⟨⟨0, 24⟩, ⟨24, 24⟩⟩ t) ∧
      (frameCacheUpdate 24 (fun _ => none)
        ⟨⟨10, 48⟩, ⟨⟨0, 24⟩, ⟨24, 24⟩⟩, ⟨⟨0, 1⟩, []⟩, [], false, [], [],
          FrameCacheDirection.Forward, 10, 1⟩
        ⟨10, 48⟩ ⟨⟨0, 24⟩, ⟨24, 24⟩⟩ FrameCacheDirection.Forward 10 1).2
        = [⟨⟨8, 48⟩, ⟨1, 48⟩⟩, ⟨⟨10, 48⟩, ⟨1, 48⟩⟩, ⟨⟨12, 48⟩, ⟨1, 48⟩⟩, ⟨⟨14, 48⟩, ⟨1, 48⟩⟩,
            ⟨⟨16, 48⟩, ⟨1, 48⟩⟩, ⟨⟨18, 48⟩, ⟨1, 48⟩⟩, ⟨⟨20, 48⟩, ⟨1, 48⟩⟩, ⟨⟨22, 48⟩, ⟨1, 48⟩⟩,
            ⟨⟨24, 48⟩, ⟨1, 48⟩⟩, ⟨⟨26, 48⟩, ⟨1, 48⟩⟩, ⟨⟨28, 48⟩, ⟨1, 48⟩⟩] ∧
      (frameCacheUpdate 24 (fun _ => none)
        ⟨⟨10, 48⟩, ⟨⟨0, 24⟩, ⟨24, 24⟩⟩, ⟨⟨0, 1⟩, []⟩, [], false, [], [],
          FrameCacheDirection.Forward, 10, 1⟩
        ⟨10, 48⟩ ⟨⟨0, 24⟩, ⟨24, 24⟩⟩ FrameCacheDirection.Forward 10 1).2.length ≠ 1 := by
  decide!

/-- C7 as amended: for the direction Forward, a current time `c` at the timeline rate `q`,
counts whose sum is below `2^64` and an in/out range in which none of the times `c -
readBehind, ..., c + readAhead - 1` wraps, the target list of `frameCacheUpdate` is exactly
these `readBehind + readAhead` consecutive frame times in ascending order, and the active
ranges given to the timeline are the single range that starts at `c - readBehind` and lasts
`readBehind + readAhead` frames (no range when both counts are zero). -/
theorem forward_target_set (q : ℚ) (hq : 0 < q) (c : ℚ) (range : TimeRange) (ra rb : ℕ)
    (hsize : rb + ra < 2 ^ 64)
    (hin : ∀ k : ℕ, k < rb + ra → inLoopRange range ⟨c - (rb : ℚ) + (k : ℚ), q⟩) :
    targetFrames q ⟨c, q⟩ range FrameCacheDirection.Forward ra rb
        = (List.range (rb + ra)).map
          (fun k : ℕ => (⟨c - (rb : ℚ) + (k : ℚ), q⟩ : RationalTime)) ∧
      ∀ (poll : RationalTime → Option Frame) (td : ThreadData),
        (frameCacheUpdate q poll td ⟨c, q⟩ range FrameCacheDirection.Forward ra rb).2
          = if rb + ra = 0 then []
            else [⟨⟨c - (rb : ℚ), q⟩, ⟨((rb + ra : ℕ) : ℚ), q⟩⟩] := by
  have h := targetFrames_noWrap q c range FrameCacheDirection.Forward ra rb hsize
    (by simpa using hin)
  simp only [if_true] at h
  refine ⟨h, ?_⟩
  intro poll td
  simp only [frameCacheUpdate, h]
  cases hn : rb + ra with
  | zero => simp [toRanges, sortFrames]
  | succ m =>
    rw [toRanges_consecutive q hq]
    simp

/-- Witness of C7 as amended, the scenario of the specification: with read ahead 10, read behind
1 and the current time 5 in a range of 24 frames at 24 frames per second, the target frames
are 4, ..., 14 and the active range starts at 4 and lasts 11 frames. -/
theorem forward_target_set_witness :
    targetFrames 24 ⟨5, 24⟩ ⟨⟨0, 24⟩, ⟨24, 24⟩⟩ FrameCacheDirection.Forward 10 1
        = [⟨4, 24⟩, ⟨5, 24⟩, ⟨6, 24⟩, ⟨7, 24⟩, ⟨8, 24⟩, ⟨9, 24⟩, ⟨10, 24⟩, ⟨11, 24⟩,
            ⟨12, 24⟩, ⟨13, 24⟩, ⟨14, 24⟩] ∧
      toRanges (targetFrames 24 ⟨5, 24⟩ ⟨⟨0, 24⟩, ⟨24, 24⟩⟩ FrameCacheDirection.Forward 10 1)
        = [⟨⟨4, 24⟩, ⟨11, 24⟩⟩] := by
  have h := (forward_target_set 24 (by norm_num) 5 ⟨⟨0, 24⟩, ⟨24, 24⟩⟩ 10 1 (by norm_num)
    (by intro k hk; interval_cases k <;> decide!)).1
  rw [h]
  constructor <;> decide!

/-- What the code does for the direction Reverse without wrapping: the target list is the
`readBehind + readAhead` consecutive frame times from `c - readAhead` to
`c + readBehind - 1`. -/
theorem reverse_target_set (q : ℚ) (c : ℚ) (range : TimeRange) (ra rb : ℕ)
    (hsize : rb + ra < 2 ^ 64)
    (hin : ∀ k : ℕ, k < rb + ra → inLoopRange range ⟨c - (ra : ℚ) + (k : ℚ), q⟩) :
    targetFrames q ⟨c, q⟩ range FrameCacheDirection.Reverse ra rb
        = (List.range (rb + ra)).map
          (fun k : ℕ => (⟨c - (ra : ℚ) + (k : ℚ), q⟩ : RationalTime)) := by
  have h := targetFrames_noWrap q c range FrameCacheDirection.Reverse ra rb hsize
    (by simpa using hin)
  simpa using h

/-- C8 at the failing input: for the direction Reverse, the current time 20 in a range of
48 frames at 24 frames per second, read ahead 10 and read behind 1, the target frames are
10, ..., 20: the latest is the current time itself and not the frame 21 behind it, and the
earliest is 10 and not 11. With read behind 0 the target frames 10, ..., 19 do not even hold
the current time. -/
theorem reverse_target_set_off_by_one :
    targetFrames 24 ⟨20, 24⟩ ⟨⟨0, 24⟩, ⟨48, 24⟩⟩ FrameCacheDirection.Reverse 10 1
        = [⟨10, 24⟩, ⟨11, 24⟩, ⟨12, 24⟩, ⟨13, 24⟩, ⟨14, 24⟩, ⟨15, 24⟩, ⟨16, 24⟩, ⟨17, 24⟩,
            ⟨18, 24⟩, ⟨19, 24⟩, ⟨20, 24⟩] ∧
      (⟨21, 24⟩ : RationalTime)
        ∉ targetFrames 24 ⟨20, 24⟩ ⟨⟨0, 24⟩, ⟨48, 24⟩⟩ FrameCacheDirection.Reverse 10 1 ∧
      targetFrames 24 ⟨20, 24⟩ ⟨⟨0, 24⟩, ⟨48, 24⟩⟩ FrameCacheDirection.Reverse 10 0
        = [⟨10, 24⟩, ⟨11, 24⟩, ⟨12, 24⟩, ⟨13, 24⟩, ⟨14, 24⟩, ⟨15, 24⟩, ⟨16, 24⟩, ⟨17, 24⟩,
            ⟨18, 24⟩, ⟨19, 24⟩] ∧
      targetFrames 24 ⟨20, 24⟩ ⟨⟨0, 24⟩, ⟨48, 24⟩⟩ FrameCacheDirection.Forward 10 1
        = [⟨19, 24⟩, ⟨20, 24⟩, ⟨21, 24⟩, ⟨22, 24⟩, ⟨23, 24⟩, ⟨24, 24⟩, ⟨25, 24⟩, ⟨26, 24⟩,
            ⟨27, 24⟩, ⟨28, 24⟩, ⟨29, 24⟩] := by
  decide!

/-! ## Seeking -/

theorem RationalTime.equal_self (a : RationalTime) : RationalTime.equal a a := by
  simp [RationalTime.equal, RationalTime.value_rescaled_to]

theorem seek_of_equal (now : ℚ) (time : RationalTime) (p : Player)
    (h : RationalTime.equal (loopTime time ⟨p.globalStartTime, p.duration⟩) p.currentTime) :
    seek now time p = p := by
  simp [seek, setIfChanged, h]

theorem seek_currentTime_of_changed (now : ℚ) (time : RationalTime) (p : Player)
    (h : ¬ RationalTime.equal (loopTime time ⟨p.globalStartTime, p.duration⟩) p.currentTime) :
    (seek now time p).currentTime = loopTime time ⟨p.globalStartTime, p.duration⟩ := by
  by_cases hp : p.playback = Playback.Stop <;> simp [seek, setIfChanged, h, hp]

theorem seek_threadData_of_changed (now : ℚ) (time : RationalTime) (p : Player)
    (h : ¬ RationalTime.equal (loopTime time ⟨p.globalStartTime, p.duration⟩) p.currentTime) :
    (seek now time p).threadData
      = { p.threadData with
          currentTime := loopTime time ⟨p.globalStartTime, p.duration⟩
          clearFrameRequests := true } := by
  by_cases hp : p.playback = Playback.Stop <;> simp [seek, setIfChanged, h, hp]

/-- C9 (seek): for every time `t'` and every player state, after `seek(t')` the current time
is equal (`operator==`) to `loopTime(t', TimeRange(globalStartTime, duration))`, the time
looped in the full timeline range; it is that very value whenever it replaced the current
time, and the in/out range plays no part. -/
theorem seek_current_time (now : ℚ) (time : RationalTime) (p : Player) :
    RationalTime.equal (loopTime time ⟨p.globalStartTime, p.duration⟩)
        (seek now time p).currentTime ∧
      ((seek now time p).currentTime = loopTime time ⟨p.globalStartTime, p.duration⟩ ∨
        (seek now time p) = p) ∧
      ∀ r : TimeRange, (seek now time { p with inOutRange := r }).currentTime
        = (seek now time p).currentTime := by
  by_cases h : RationalTime.equal (loopTime time ⟨p.globalStartTime, p.duration⟩) p.currentTime
  · refine ⟨?_, Or.inr (seek_of_equal now time p h), ?_⟩
    · rw [seek_of_equal now time p h]; exact h
    · intro r
      rw [seek_of_equal now time p h, seek_of_equal now time { p with inOutRange := r } h]
  · refine ⟨?_, Or.inl (seek_currentTime_of_changed now time p h), ?_⟩
    · rw [seek_currentTime_of_changed now time p h]; exact RationalTime.equal_self _
    · intro r
      rw [seek_currentTime_of_changed now time p h,
        seek_currentTime_of_changed now time { p with inOutRange := r } h]

/-- The unit test of C9: on the timeline of 48 frames at 24 frames per second, `seek(0)`
gives the current time 0 and `seek(1)` gives the current time 1; a seek past the end is
looped in the timeline, whatever the in/out range. -/
theorem seek_unit_test :
    (seek 0 ⟨0, 24⟩ ⟨⟨0, 24⟩, ⟨48, 24⟩, Playback.Stop, Loop.Once, ⟨47, 24⟩,
        ⟨⟨0, 24⟩, ⟨48, 24⟩⟩, 0, ⟨-1, -1⟩,
        ⟨⟨47, 24⟩, ⟨⟨0, 24⟩, ⟨48, 24⟩⟩, ⟨⟨0, 1⟩, []⟩, [], false, [], [],
          FrameCacheDirection.Forward, 10, 1⟩⟩).currentTime = ⟨0, 24⟩ ∧
      (seek 0 ⟨1, 24⟩ ⟨⟨0, 24⟩, ⟨48, 24⟩, Playback.Stop, Loop.Once, ⟨0, 24⟩,
        ⟨⟨0, 24⟩, ⟨48, 24⟩⟩, 0, ⟨-1, -1⟩,
        ⟨⟨0, 24⟩, ⟨⟨0, 24⟩, ⟨48, 24⟩⟩, ⟨⟨0, 1⟩, []⟩, [], false, [], [],
          FrameCacheDirection.Forward, 10, 1⟩⟩).currentTime = ⟨1, 24⟩ ∧
      (seek 0 ⟨111, 24⟩ ⟨⟨0, 24⟩, ⟨48, 24⟩, Playback.Stop, Loop.Once, ⟨11, 24⟩,
        ⟨⟨2, 24⟩, ⟨20, 24⟩⟩, 0, ⟨-1, -1⟩,
        ⟨⟨11, 24⟩, ⟨⟨2, 24⟩, ⟨20, 24⟩⟩, ⟨⟨0, 1⟩, []⟩, [], false, [], [],
          FrameCacheDirection.Forward, 10, 1⟩⟩).currentTime = ⟨0, 24⟩ := by
  decide!

/-- C10, the claim as stated fails: a seek to the time that is already current (here time 5,
with a request for frame 6 pending) does not raise the flag `clearFrameRequests`, and the
next pass of the worker leaves the pending request in place. -/
theorem seek_same_time_counterexample :
    (seek 0 ⟨5, 24⟩ ⟨⟨0, 24⟩, ⟨48, 24⟩, Playback.Stop, Loop.Loop, ⟨5, 24⟩,
        ⟨⟨0, 24⟩, ⟨48, 24⟩⟩, 0, ⟨-1, -1⟩,
        ⟨⟨5, 24⟩, ⟨⟨0, 24⟩, ⟨48, 24⟩⟩, ⟨⟨0, 1⟩, []⟩, [(⟨6, 24⟩, ())], false, [], [],
          FrameCacheDirection.Forward, 10, 1⟩⟩).threadData.clearFrameRequests = false ∧
      (workerClear (seek 0 ⟨5, 24⟩ ⟨⟨0, 24⟩, ⟨48, 24⟩, Playback.Stop, Loop.Loop, ⟨5, 24⟩,
        ⟨⟨0, 24⟩, ⟨48, 24⟩⟩, 0, ⟨-1, -1⟩,
        ⟨⟨5, 24⟩, ⟨⟨0, 24⟩, ⟨48, 24⟩⟩, ⟨⟨0, 1⟩, []⟩, [(⟨6, 24⟩, ())], false, [], [],
          FrameCacheDirection.Forward, 10, 1⟩⟩).threadData).frameRequests
        = [(⟨6, 24⟩, ())] := by
  decide!

/-- C10 as amended: every seek whose looped target is not equal to the current time raises
the flag `clearFrameRequests`, so that the next pass of the worker clears all pending
requests, and neither the seek nor that clearing changes the contents of the frame cache. -/
theorem seek_clears_requests (now : ℚ) (time : RationalTime) (p : Player)
    (h : ¬ RationalTime.equal (loopTime time ⟨p.globalStartTime, p.duration⟩) p.currentTime) :
    (seek now time p).threadData.clearFrameRequests = true ∧
      (workerClear (seek now time p).threadData).frameRequests = [] ∧
      (seek now time p).threadData.frameCache = p.threadData.frameCache ∧
      (workerClear (seek now time p).threadData).frameCache = p.threadData.frameCache := by
  rw [seek_threadData_of_changed now time p h]
  simp [workerClear]

/-- Witness of C10 as amended: a seek from time 5 to time 7 with a request for frame 6
pending and frame 5 in the cache. -/
theorem seek_clears_requests_witness :
    (workerClear (seek 0 ⟨7, 24⟩ ⟨⟨0, 24⟩, ⟨48, 24⟩, Playback.Stop, Loop.Loop, ⟨5, 24⟩,
        ⟨⟨0, 24⟩, ⟨48, 24⟩⟩, 0, ⟨-1, -1⟩,
        ⟨⟨5, 24⟩, ⟨⟨0, 24⟩, ⟨48, 24⟩⟩, ⟨⟨0, 1⟩, []⟩, [(⟨6, 24⟩, ())], false,
          [(⟨5, 24⟩, ⟨⟨5, 24⟩, []⟩)], [], FrameCacheDirection.Forward, 10, 1⟩⟩).threadData).frameRequests
        = [] ∧
      (seek 0 ⟨7, 24⟩ ⟨⟨0, 24⟩, ⟨48, 24⟩, Playback.Stop, Loop.Loop, ⟨5, 24⟩,
        ⟨⟨0, 24⟩, ⟨48, 24⟩⟩, 0, ⟨-1, -1⟩,
        ⟨⟨5, 24⟩, ⟨⟨0, 24⟩, ⟨48, 24⟩⟩, ⟨⟨0, 1⟩, []⟩, [(⟨6, 24⟩, ())], false,
          [(⟨5, 24⟩, ⟨⟨5, 24⟩, []⟩)], [], FrameCacheDirection.Forward, 10, 1⟩⟩).threadData.frameCache
        = [(⟨5, 24⟩, ⟨⟨5, 24⟩, []⟩)] := by
  have h := seek_clears_requests 0 ⟨7, 24⟩ ⟨⟨0, 24⟩, ⟨48, 24⟩, Playback.Stop, Loop.Loop, ⟨5, 24⟩,
    ⟨⟨0, 24⟩, ⟨48, 24⟩⟩, 0, ⟨-1, -1⟩,
    ⟨⟨5, 24⟩, ⟨⟨0, 24⟩, ⟨48, 24⟩⟩, ⟨⟨0, 1⟩, []⟩, [(⟨6, 24⟩, ())], false,
      [(⟨5, 24⟩, ⟨⟨5, 24⟩, []⟩)], [], FrameCacheDirection.Forward, 10, 1⟩⟩ (by decide!)
  exact ⟨h.2.1, h.2.2.1⟩

/-! ## The frame cache -/

theorem lt_iff_seconds (a b : RationalTime) :
    RationalTime.lt a b ↔ secondsOf a < secondsOf b := RationalTime.lt_iff a b

theorem keyEquiv_seconds (a b : RationalTime) (h : keyEquiv a b) : secondsOf a = secondsOf b := by
  obtain ⟨h1, h2⟩ := h
  rw [lt_iff_seconds] at h1 h2
  exact le_antisymm (not_lt.mp h2) (not_lt.mp h1)

theorem mapInsert_sorted {α : Type} (k : RationalTime) (v : α) (m : List (RationalTime × α))
    (h : mapSorted m) : mapSorted (mapInsert k v m) := by
  induction m with
  | nil => simp [mapInsert, mapSorted]
  | cons x m ih =>
    have hx := List.pairwise_cons.mp h
    simp only [mapInsert]
    split
    · next h1 =>
      apply List.pairwise_cons.mpr
      refine ⟨?_, h⟩
      intro e he
      rcases List.mem_cons.mp he with rfl | he
      · exact h1
      · have := hx.1 e he
        rw [lt_iff_seconds] at this h1 ⊢
        exact lt_trans h1 this
    · next h1 =>
      split
      · next h2 =>
        apply List.pairwise_cons.mpr
        refine ⟨?_, ih hx.2⟩
        intro e he
        rcases mem_mapInsert k v m e he with he | ⟨_, he⟩
        · exact hx.1 e he
        · rw [lt_iff_seconds, keyEquiv_seconds _ _ he, ← lt_iff_seconds]
          exact h2
      · apply List.pairwise_cons.mpr
        exact ⟨hx.1, hx.2⟩

theorem pollRequests_sorted (poll : RationalTime → Option Frame)
    (requests : List (RationalTime × Unit)) : ∀ frameCache : List (RationalTime × Frame),
    mapSorted frameCache → mapSorted (pollRequests poll requests frameCache).1 := by
  induction requests with
  | nil => intro frameCache h; exact h
  | cons r rest ih =>
    intro frameCache h
    obtain ⟨k, u⟩ := r
    simp only [pollRequests]
    cases hp : poll k with
    | none => exact ih frameCache h
    | some frame => exact ih _ (mapInsert_sorted _ _ _ h)

theorem removeOld_sorted (ranges : List TimeRange) (frameCache : List (RationalTime × Frame))
    (h : mapSorted frameCache) : mapSorted (removeOld ranges frameCache) :=
  List.Pairwise.filter _ h

theorem collectFrames_length (rate : ℚ) (range : TimeRange) (n : ℕ) :
    ∀ (time : RationalTime) (acc : List RationalTime),
    (collectFrames rate range n time acc).length ≤ acc.length + n := by
  induction n with
  | zero => intro time acc; simp [collectFrames]
  | succ n ih =>
    intro time acc
    cases acc with
    | nil =>
      simp only [collectFrames]
      have := ih (loopTime (RationalTime.add time ⟨1, rate⟩) range) ([] ++ [time])
      simp only [List.nil_append, List.length_singleton, List.length_nil] at this ⊢
      omega
    | cons f0 acc =>
      simp only [collectFrames]
      split
      · simp only [List.length_cons]; omega
      · have := ih (loopTime (RationalTime.add time ⟨1, rate⟩) range) (f0 :: acc ++ [time])
        simp only [List.length_append, List.length_cons, List.length_singleton,
          List.length_nil] at this ⊢
        omega

/-- The target list holds at most `readAhead + readBehind` frames. -/
theorem targetFrames_length (rate : ℚ) (currentTime : RationalTime) (inOutRange : TimeRange)
    (dir : FrameCacheDirection) (ra rb : ℕ) :
    (targetFrames rate currentTime inOutRange dir ra rb).length ≤ ra + rb := by
  unfold targetFrames
  have h := collectFrames_length rate inOutRange ((rb + ra) % 2 ^ 64)
    (stepBack rate inOutRange (if dir = FrameCacheDirection.Forward then rb else ra) currentTime) []
  have h2 : (rb + ra) % 2 ^ 64 ≤ rb + ra := Nat.mod_le _ _
  simp only [List.length_nil] at h
  show (collectFrames rate inOutRange ((rb + ra) % 2 ^ 64)
    (stepBack rate inOutRange (if dir = FrameCacheDirection.Forward then rb else ra) currentTime)
    []).length ≤ ra + rb
  omega

theorem isFrame_sub_one (q : ℚ) (t : RationalTime) (h : isFrame q t) :
    isFrame q (RationalTime.sub t ⟨1, q⟩) := by
  obtain ⟨n, rfl⟩ := h
  refine ⟨n - 1, ?_⟩
  simp only [frameTime, sub_one_frame]
  push_cast
  rfl

theorem isFrame_add_one (q : ℚ) (t : RationalTime) (h : isFrame q t) :
    isFrame q (RationalTime.add t ⟨1, q⟩) := by
  obtain ⟨n, rfl⟩ := h
  refine ⟨n + 1, ?_⟩
  simp only [frameTime, add_one_frame]
  push_cast
  rfl

theorem isFrame_end_time_inclusive (q : ℚ) (s : ℤ) (d : ℚ) :
    isFrame q (TimeRange.end_time_inclusive ⟨frameTime q s, ⟨d, q⟩⟩) := by
  rw [TimeRange.end_time_inclusive_eq]
  have e : (frameTime q s).value_rescaled_to q = (s : ℚ) := by
    simp [RationalTime.value_rescaled_to, frameTime]
  simp only [e]
  split
  · split
    · exact ⟨⌊(s : ℚ) + d⌋, rfl⟩
    · next h =>
      refine ⟨s + ⌊d⌋ - 1, ?_⟩
      have hd : d = (⌊d⌋ : ℚ) := by
        by_contra hne
        exact h hne
      simp only [frameTime, RationalTime.mk.injEq, and_true]
      push_cast
      rw [← hd]
  · exact ⟨s, rfl⟩

theorem isFrame_loopTime (q : ℚ) (range : TimeRange) (t : RationalTime)
    (hs : isFrame q range.start_time) (he : isFrame q range.end_time_inclusive)
    (ht : isFrame q t) : isFrame q (loopTime t range) := by
  unfold loopTime
  split
  · exact he
  · split
    · exact hs
    · exact ht

theorem isFrame_stepBack (q : ℚ) (range : TimeRange) (hs : isFrame q range.start_time)
    (he : isFrame q range.end_time_inclusive) (n : ℕ) :
    ∀ t : RationalTime, isFrame q t → isFrame q (stepBack q range n t) := by
  induction n with
  | zero => intro t ht; exact ht
  | succ n ih =>
    intro t ht
    exact ih _ (isFrame_loopTime q range _ hs he (isFrame_sub_one q t ht))

theorem isFrame_collectFrames (q : ℚ) (range : TimeRange) (hs : isFrame q range.start_time)
    (he : isFrame q range.end_time_inclusive) (n : ℕ) :
    ∀ (t : RationalTime) (acc : List RationalTime), isFrame q t → (∀ a ∈ acc, isFrame q a) →
    ∀ a ∈ collectFrames q range n t acc, isFrame q a := by
  induction n with
  | zero => intro t acc _ hacc a ha; exact hacc a ha
  | succ n ih =>
    intro t acc ht hacc a ha
    have hnext := isFrame_loopTime q range _ hs he (isFrame_add_one q t ht)
    have hacc' : ∀ a ∈ acc ++ [t], isFrame q a := by
      intro a ha
      rcases List.mem_append.mp ha with h | h
      · exact hacc a h
      · rw [List.mem_singleton.mp h]; exact ht
    cases acc with
    | nil =>
      simp only [collectFrames] at ha
      exact ih _ _ hnext hacc' a ha
    | cons f0 acc =>
      simp only [collectFrames] at ha
      split at ha
      · exact hacc a ha
      · exact ih _ _ hnext hacc' a ha

theorem exists_frames_of_isFrame (q : ℚ) (l : List RationalTime) (h : ∀ t ∈ l, isFrame q t) :
    ∃ lz : List ℤ, l = lz.map (frameTime q) := by
  induction l with
  | nil => exact ⟨[], rfl⟩
  | cons t l ih =>
    obtain ⟨lz, hlz⟩ := ih (fun a ha => h a (List.mem_cons_of_mem _ ha))
    obtain ⟨n, hn⟩ := h t (List.mem_cons_self _ _)
    exact ⟨n :: lz, by rw [List.map_cons, ← hn, ← hlz]⟩

/-- With a whole-frame current time and a range that starts on a whole frame, every target
frame is a whole frame. -/
theorem targetFrames_isFrame (q : ℚ) (c s : ℤ) (d : ℚ) (dir : FrameCacheDirection)
    (ra rb : ℕ) :
    ∃ lz : List ℤ, targetFrames q (frameTime q c) ⟨frameTime q s, ⟨d, q⟩⟩ dir ra rb
      = lz.map (frameTime q) := by
  apply exists_frames_of_isFrame
  have hs : isFrame q (TimeRange.start_time ⟨frameTime q s, ⟨d, q⟩⟩) := ⟨s, rfl⟩
  have he := isFrame_end_time_inclusive q s d
  unfold targetFrames
  apply isFrame_collectFrames q _ hs he
  · exact isFrame_stepBack q _ hs he _ _ ⟨c, rfl⟩
  · intro a ha
    simp at ha

theorem mem_mapInsert_key {α : Type} (k : RationalTime) (v : α) (m : List (RationalTime × α))
    (e : RationalTime × α) (he : e ∈ mapInsert k v m) :
    (∃ e' ∈ m, e'.1 = e.1) ∨ e.1 = k := by
  induction m with
  | nil =>
    simp only [mapInsert, List.mem_singleton] at he
    subst he
    exact Or.inr rfl
  | cons x m ih =>
    simp only [mapInsert] at he
    split at he
    · rcases List.mem_cons.mp he with rfl | he
      · exact Or.inr rfl
      · exact Or.inl ⟨e, he, rfl⟩
    · split at he
      · rcases List.mem_cons.mp he with rfl | he
        · exact Or.inl ⟨e, List.mem_cons_self _ _, rfl⟩
        · rcases ih he with ⟨e', he', h⟩ | h
          · exact Or.inl ⟨e', List.mem_cons_of_mem _ he', h⟩
          · exact Or.inr h
      · rcases List.mem_cons.mp he with rfl | he
        · exact Or.inl ⟨x, List.mem_cons_self _ _, rfl⟩
        · exact Or.inl ⟨e, List.mem_cons_of_mem _ he, rfl⟩

theorem addRequests_key_mem (uncached : List RationalTime) :
    ∀ (requests : List (RationalTime × Unit)) (r : RationalTime × Unit),
    r ∈ addRequests uncached requests →
    (∃ r' ∈ requests, r'.1 = r.1) ∨ r.1 ∈ uncached := by
  induction uncached with
  | nil => intro requests r hr; exact Or.inl ⟨r, hr, rfl⟩
  | cons u us ih =>
    intro requests r hr
    simp only [addRequests, List.foldl_cons] at hr
    rcases ih _ r hr with ⟨r', hr', h⟩ | h
    · rcases mem_mapInsert_key _ _ _ _ hr' with ⟨r'', hr'', h'⟩ | h'
      · exact Or.inl ⟨r'', hr'', h'.trans h⟩
      · exact Or.inr (by rw [← h, h']; exact List.mem_cons_self _ _)
    · exact Or.inr (List.mem_cons_of_mem _ h)

theorem pollRequests_requests_subset (poll : RationalTime → Option Frame)
    (requests : List (RationalTime × Unit)) : ∀ (frameCache : List (RationalTime × Frame))
    (r : RationalTime × Unit), r ∈ (pollRequests poll requests frameCache).2 → r ∈ requests := by
  induction requests with
  | nil => intro frameCache r hr; simp [pollRequests] at hr
  | cons x rest ih =>
    intro frameCache r hr
    obtain ⟨k, u⟩ := x
    simp only [pollRequests] at hr
    cases hp : poll k with
    | none =>
      rw [hp] at hr
      rcases List.mem_cons.mp hr with rfl | hr
      · exact List.mem_cons_self _ _
      · exact List.mem_cons_of_mem _ (ih frameCache r hr)
    | some frame =>
      rw [hp] at hr
      exact List.mem_cons_of_mem _ (ih _ r hr)

theorem keyEquiv_frameTime (q : ℚ) (hq : 0 < q) (a b : ℤ)
    (h : keyEquiv (frameTime q a) (frameTime q b)) : a = b := by
  obtain ⟨h1, h2⟩ := h
  rw [frameTime_lt_iff q hq] at h1 h2
  omega

theorem mapInsert_inv (q : ℚ) (hq : 0 < q) (k : RationalTime) (v : Frame)
    (m : List (RationalTime × Frame)) (hk : isFrame q k) (hv : v.time = k)
    (hm : ∀ e ∈ m, e.2.time = e.1 ∧ isFrame q e.1) :
    ∀ e ∈ mapInsert k v m, e.2.time = e.1 ∧ isFrame q e.1 := by
  intro e he
  rcases mem_mapInsert k v m e he with h | ⟨h1, h2⟩
  · exact hm e h
  · have hek : e.1 = k := by
      rcases mem_mapInsert_key k v m e he with ⟨e', he', h⟩ | h
      · obtain ⟨n', hn'⟩ := (hm e' he').2
        obtain ⟨n, hn⟩ := hk
        rw [← h, hn', hn] at h2
        rw [← h, hn', hn, keyEquiv_frameTime q hq n' n h2]
      · exact h
    rw [h1, hv, hek]
    exact ⟨rfl, hk⟩

theorem pollRequests_inv (q : ℚ) (hq : 0 < q) (poll : RationalTime → Option Frame)
    (requests : List (RationalTime × Unit)) : ∀ frameCache : List (RationalTime × Frame),
    (∀ r ∈ requests, isFrame q r.1) →
    (∀ e ∈ frameCache, e.2.time = e.1 ∧ isFrame q e.1) →
    ∀ e ∈ (pollRequests poll requests frameCache).1, e.2.time = e.1 ∧ isFrame q e.1 := by
  induction requests with
  | nil => intro frameCache _ hc e he; exact hc e he
  | cons x rest ih =>
    intro frameCache hr hc e he
    obtain ⟨k, u⟩ := x
    have hrest : ∀ r ∈ rest, isFrame q r.1 := fun r h => hr r (List.mem_cons_of_mem _ h)
    simp only [pollRequests] at he
    cases hp : poll k with
    | none =>
      rw [hp] at he
      exact ih frameCache hrest hc e he
    | some frame =>
      rw [hp] at he
      refine ih _ hrest ?_ e he
      exact mapInsert_inv q hq k _ frameCache (hr (k, u) (List.mem_cons_self _ _)) rfl hc

theorem mapSorted_nodup_keys {α : Type} (m : List (RationalTime × α)) (h : mapSorted m) :
    (m.map Prod.fst).Nodup := by
  unfold List.Nodup
  rw [List.pairwise_map]
  apply h.imp
  intro a b hab heq
  rw [heq] at hab
  exact RationalTime.lt_irrefl _ hab

/-- C6, the claim as stated fails: with read ahead 1 and read behind 0 at the current time 5
(24 frames per second), a cache that holds frame 5 and the half-frame time 5.5 is a fixed
point of `frameCacheUpdate` with no request pending, and it holds two entries, more than
`readAhead + readBehind = 1`. The active range from 5 to before 6 contains the time 5.5,
so the entry is never removed. Such a cache arises from an update at the current time 5.5
followed by an update at the current time 5. -/
theorem cache_bound_counterexample :
    frameCacheUpdate 24 (fun _ => none)
        ⟨⟨5, 24⟩, ⟨⟨0, 24⟩, ⟨48, 24⟩⟩, ⟨⟨0, 1⟩, []⟩, [], false,
          [(⟨5, 24⟩, ⟨⟨5, 24⟩, []⟩), (⟨11 / 2, 24⟩, ⟨⟨11 / 2, 24⟩, []⟩)],
          [⟨⟨5, 24⟩, ⟨3 / 2, 24⟩⟩], FrameCacheDirection.Forward, 1, 0⟩
        ⟨5, 24⟩ ⟨⟨0, 24⟩, ⟨48, 24⟩⟩ FrameCacheDirection.Forward 1 0
      = (⟨⟨5, 24⟩, ⟨⟨0, 24⟩, ⟨48, 24⟩⟩, ⟨⟨0, 1⟩, []⟩, [], false,
          [(⟨5, 24⟩, ⟨⟨5, 24⟩, []⟩), (⟨11 / 2, 24⟩, ⟨⟨11 / 2, 24⟩, []⟩)],
          [⟨⟨5, 24⟩, ⟨3 / 2, 24⟩⟩], FrameCacheDirection.Forward, 1, 0⟩,
        [⟨⟨5, 24⟩, ⟨1, 24⟩⟩]) ∧
      ¬ (List.length [((⟨5, 24⟩ : RationalTime), (⟨⟨5, 24⟩, []⟩ : Frame)),
          (⟨11 / 2, 24⟩, ⟨⟨11 / 2, 24⟩, []⟩)] ≤ 1 + 0) ∧
      (frameCacheUpdate 24 (fun t => some ⟨t, []⟩)
        (frameCacheUpdate 24 (fun t => some ⟨t, []⟩)
          ⟨⟨11 / 2, 24⟩, ⟨⟨0, 24⟩, ⟨48, 24⟩⟩, ⟨⟨0, 1⟩, []⟩, [], false, [], [],
            FrameCacheDirection.Forward, 1, 0⟩
          ⟨11 / 2, 24⟩ ⟨⟨0, 24⟩, ⟨48, 24⟩⟩ FrameCacheDirection.Forward 1 0).1
        ⟨5, 24⟩ ⟨⟨0, 24⟩, ⟨48, 24⟩⟩ FrameCacheDirection.Forward 1 0).1.frameCache
        = [(⟨5, 24⟩, ⟨⟨5, 24⟩, []⟩), (⟨11 / 2, 24⟩, ⟨⟨11 / 2, 24⟩, []⟩)] := by
  decide!

/-- C6 as amended: when the current time is a whole frame at the timeline rate, the in/out
range starts on a whole frame and has a duration at that rate, every cached frame time is a
whole frame stored under its own time, and every pending request time lies in the target
set, then after `frameCacheUpdate` the frame cache holds at most `readAhead + readBehind`
entries, all with a time in the target set; and the cache and the pending requests meet
the same conditions again, so that the bound holds for every repetition of the update. -/
theorem cache_bound_whole_frames (q : ℚ) (hq : 0 < q) (poll : RationalTime → Option Frame)
    (td : ThreadData) (c s : ℤ) (d : ℚ) (dir : FrameCacheDirection) (ra rb : ℕ)
    (hmap : mapSorted td.frameCache)
    (hcache : ∀ e ∈ td.frameCache, e.2.time = e.1 ∧ isFrame q e.1)
    (hreq : ∀ r ∈ td.frameRequests,
      r.1 ∈ targetFrames q (frameTime q c) ⟨frameTime q s, ⟨d, q⟩⟩ dir ra rb) :
    (frameCacheUpdate q poll td (frameTime q c) ⟨frameTime q s, ⟨d, q⟩⟩ dir ra
        rb).1.frameCache.length ≤ ra + rb ∧
      (∀ e ∈ (frameCacheUpdate q poll td (frameTime q c) ⟨frameTime q s, ⟨d, q⟩⟩ dir ra
          rb).1.frameCache,
        e.1 ∈ targetFrames q (frameTime q c) ⟨frameTime q s, ⟨d, q⟩⟩ dir ra rb) ∧
      mapSorted (frameCacheUpdate q poll td (frameTime q c) ⟨frameTime q s, ⟨d, q⟩⟩ dir ra
        rb).1.frameCache ∧
      (∀ e ∈ (frameCacheUpdate q poll td (frameTime q c) ⟨frameTime q s, ⟨d, q⟩⟩ dir ra
          rb).1.frameCache, e.2.time = e.1 ∧ isFrame q e.1) ∧
      (∀ r ∈ (frameCacheUpdate q poll td (frameTime q c) ⟨frameTime q s, ⟨d, q⟩⟩ dir ra
          rb).1.frameRequests,
        r.1 ∈ targetFrames q (frameTime q c) ⟨frameTime q s, ⟨d, q⟩⟩ dir ra rb) := by
  obtain ⟨Tz, hTz⟩ := targetFrames_isFrame q c s d dir ra rb
  have hlen := targetFrames_length q (frameTime q c) ⟨frameTime q s, ⟨d, q⟩⟩ dir ra rb
  simp only [frameCacheUpdate]
  generalize targetFrames q (frameTime q c) ⟨frameTime q s, ⟨d, q⟩⟩ dir ra rb = T
    at hreq hTz hlen ⊢
  have hT : ∀ t ∈ T, isFrame q t := by
    intro t ht
    rw [hTz] at ht
    obtain ⟨n, _, rfl⟩ := List.mem_map.mp ht
    exact ⟨n, rfl⟩
  have h1 : ∀ e ∈ removeOld (toRanges T) td.frameCache, e.1 ∈ T := by
    intro e he
    obtain ⟨hmem, hany⟩ := List.mem_filter.mp he
    obtain ⟨r, hr, hc⟩ := List.any_eq_true.mp hany
    have hc' : r.contains e.2.time := of_decide_eq_true hc
    obtain ⟨htime, n, hn⟩ := hcache e hmem
    rw [htime, hn] at hc'
    rw [hTz] at hr
    have := (toRanges_contains_iff q hq Tz n).mp ⟨r, hr, hc'⟩
    rw [hn, hTz]
    exact List.mem_map.mpr ⟨n, this, rfl⟩
  have h1inv : ∀ e ∈ removeOld (toRanges T) td.frameCache, e.2.time = e.1 ∧ isFrame q e.1 :=
    fun e he => hcache e (removeOld_subset _ _ e he)
  have h2 : ∀ r ∈ addRequests
      (findUncached T (removeOld (toRanges T) td.frameCache) td.frameRequests)
      td.frameRequests, r.1 ∈ T := by
    intro r hr
    rcases addRequests_key_mem _ _ r hr with ⟨r', hr', h⟩ | h
    · rw [← h]; exact hreq r' hr'
    · exact (List.mem_filter.mp h).1
  have h3 := pollRequests_inv q hq poll _ _ (fun r hr => hT r.1 (h2 r hr)) h1inv
  have h4 : ∀ e ∈ (pollRequests poll (addRequests
      (findUncached T (removeOld (toRanges T) td.frameCache) td.frameRequests)
      td.frameRequests) (removeOld (toRanges T) td.frameCache)).1, e.1 ∈ T := by
    intro e he
    rcases pollRequests_cache _ _ _ e he with h | ⟨_, hmem, _⟩
    · exact h1 e h
    · have := h2 _ hmem
      rw [(h3 e he).1] at this
      exact this
  have h5 := pollRequests_sorted poll (addRequests
      (findUncached T (removeOld (toRanges T) td.frameCache) td.frameRequests)
      td.frameRequests) _ (removeOld_sorted (toRanges T) _ hmap)
  refine ⟨?_, h4, h5, h3, ?_⟩
  · have hnodup := mapSorted_nodup_keys _ h5
    have hsub : List.map Prod.fst (pollRequests poll (addRequests
        (findUncached T (removeOld (toRanges T) td.frameCache) td.frameRequests)
        td.frameRequests) (removeOld (toRanges T) td.frameCache)).1 ⊆ T := by
      intro k hk
      obtain ⟨e, he, rfl⟩ := List.mem_map.mp hk
      exact h4 e he
    have := (List.subperm_of_subset hnodup hsub).length_le
    rw [List.length_map] at this
    omega
  · intro r hr
    exact h2 r (pollRequests_requests_subset _ _ _ r hr)

/-- Witness of C6 as amended, the scenario of the specification: read ahead 10, read behind
1, current time 5 in a range of 24 frames at 24 frames per second; the cache holds frames
3 and 4, a request for frame 6 is pending and every future is ready. After the update the
cache holds the eleven frames 4, ..., 14. -/
theorem cache_bound_whole_frames_witness :
    (frameCacheUpdate 24 (fun t => some ⟨t, []⟩)
        ⟨⟨5, 24⟩, ⟨⟨0, 24⟩, ⟨24, 24⟩⟩, ⟨⟨0, 1⟩, []⟩, [(⟨6, 24⟩, ())], false,
          [(⟨3, 24⟩, ⟨⟨3, 24⟩, []⟩), (⟨4, 24⟩, ⟨⟨4, 24⟩, []⟩)], [],
          FrameCacheDirection.Forward, 10, 1⟩
        (frameTime 24 5) ⟨frameTime 24 0, ⟨24, 24⟩⟩ FrameCacheDirection.Forward 10
        1).1.frameCache.length ≤ 10 + 1 ∧
      (frameCacheUpdate 24 (fun t => some ⟨t, []⟩)
        ⟨⟨5, 24⟩, ⟨⟨0, 24⟩, ⟨24, 24⟩⟩, ⟨⟨0, 1⟩, []⟩, [(⟨6, 24⟩, ())], false,
          [(⟨3, 24⟩, ⟨⟨3, 24⟩, []⟩), (⟨4, 24⟩, ⟨⟨4, 24⟩, []⟩)], [],
          FrameCacheDirection.Forward, 10, 1⟩
        (frameTime 24 5) ⟨frameTime 24 0, ⟨24, 24⟩⟩ FrameCacheDirection.Forward 10
        1).1.frameCache.map Prod.fst
        = [⟨4, 24⟩, ⟨5, 24⟩, ⟨6, 24⟩, ⟨7, 24⟩, ⟨8, 24⟩, ⟨9, 24⟩, ⟨10, 24⟩, ⟨11, 24⟩,
            ⟨12, 24⟩, ⟨13, 24⟩, ⟨14, 24⟩] :=
  ⟨(cache_bound_whole_frames 24 (by norm_num) (fun t => some ⟨t, []⟩)
      ⟨⟨5, 24⟩, ⟨⟨0, 24⟩, ⟨24, 24⟩⟩, ⟨⟨0, 1⟩, []⟩, [(⟨6, 24⟩, ())], false,
        [(⟨3, 24⟩, ⟨⟨3, 24⟩, []⟩), (⟨4, 24⟩, ⟨⟨4, 24⟩, []⟩)], [],
        FrameCacheDirection.Forward, 10, 1⟩
      5 0 24 FrameCacheDirection.Forward 10 1
      (by decide!)
      (by
        intro e he
        simp only [List.mem_cons, List.mem_singleton, List.not_mem_nil, or_false] at he
        rcases he with rfl | rfl
        · exact ⟨rfl, 3, by simp [frameTime]⟩
        · exact ⟨rfl, 4, by simp [frameTime]⟩)
      (by
        intro r hr
        simp only [List.mem_singleton] at hr
        subst hr
        decide!)).1,
    by decide!⟩

/-! ## In and out points -/

/-- C11, the claim as stated fails: on the timeline of 24 frames at 24 frames per second,
after `seek(2); setInPoint(); seek(22); setOutPoint()` from the default in/out range, the
duration of the in/out range is not 20 frames and its inclusive end is not frame 21. -/
theorem in_out_points_counterexample :
    (setOutPoint (seek 0 ⟨22, 24⟩ (setInPoint (seek 0 ⟨2, 24⟩
        (initPlayer ⟨0, 24⟩ ⟨24, 24⟩))))).inOutRange.duration ≠ ⟨20, 24⟩ ∧
      (setOutPoint (seek 0 ⟨22, 24⟩ (setInPoint (seek 0 ⟨2, 24⟩
        (initPlayer ⟨0, 24⟩ ⟨24, 24⟩))))).inOutRange.end_time_inclusive ≠ ⟨21, 24⟩ := by
  decide!

/-- C11 as amended: on the timeline of 24 frames at 24 frames per second, after
`seek(2); setInPoint(); seek(22); setOutPoint()` from the default in/out range, the in/out
range starts at frame 2, lasts 21 frames and has the inclusive end 22, the frame of the out
point; after `setInPoint()` alone it lasts the 22 frames 2, ..., 23. -/
theorem in_out_points_scenario :
    (setOutPoint (seek 0 ⟨22, 24⟩ (setInPoint (seek 0 ⟨2, 24⟩
        (initPlayer ⟨0, 24⟩ ⟨24, 24⟩))))).inOutRange = ⟨⟨2, 24⟩, ⟨21, 24⟩⟩ ∧
      (setOutPoint (seek 0 ⟨22, 24⟩ (setInPoint (seek 0 ⟨2, 24⟩
        (initPlayer ⟨0, 24⟩ ⟨24, 24⟩))))).inOutRange.end_time_inclusive = ⟨22, 24⟩ ∧
      (setInPoint (seek 0 ⟨2, 24⟩ (initPlayer ⟨0, 24⟩ ⟨24, 24⟩))).inOutRange
        = ⟨⟨2, 24⟩, ⟨22, 24⟩⟩ := by
  decide!

theorem RationalTime.equal_iff_of_rate (a b : RationalTime) (h : a.rate = b.rate) :
    RationalTime.equal a b ↔ a = b := by
  obtain ⟨av, ar⟩ := a
  obtain ⟨bv, br⟩ := b
  simp only at h
  subst h
  simp [RationalTime.equal, RationalTime.value_rescaled_to]

theorem TimeRange.range_equal_iff_of_rate (a b : TimeRange) (hs : a.start_time.rate = b.start_time.rate)
    (hd : a.duration.rate = b.duration.rate) : TimeRange.equal a b ↔ a = b := by
  unfold TimeRange.equal
  rw [RationalTime.equal_iff_of_rate _ _ hs, RationalTime.equal_iff_of_rate _ _ hd]
  obtain ⟨as, ad⟩ := a
  obtain ⟨bs, bd⟩ := b
  simp

theorem seek_fields (now : ℚ) (time : RationalTime) (p : Player) :
    (seek now time p).inOutRange = p.inOutRange ∧
      (seek now time p).globalStartTime = p.globalStartTime ∧
      (seek now time p).duration = p.duration ∧
      (seek now time p).playback = p.playback ∧
      (seek now time p).loop = p.loop ∧
      (seek now time p).threadData.frameCacheDirection = p.threadData.frameCacheDirection := by
  by_cases h : RationalTime.equal (loopTime time ⟨p.globalStartTime, p.duration⟩) p.currentTime
  · rw [seek_of_equal now time p h]
    simp
  · by_cases hp : p.playback = Playback.Stop <;> simp [seek, setIfChanged, h, hp]

/-- A seek to a time that `loopTime` leaves at the rate of the current time makes the
looped time the current time. -/
theorem seek_currentTime_of_rate (now : ℚ) (time : RationalTime) (p : Player)
    (h : (loopTime time ⟨p.globalStartTime, p.duration⟩).rate = p.currentTime.rate) :
    (seek now time p).currentTime = loopTime time ⟨p.globalStartTime, p.duration⟩ := by
  by_cases he : RationalTime.equal (loopTime time ⟨p.globalStartTime, p.duration⟩) p.currentTime
  · rw [seek_of_equal now time p he]
    exact ((RationalTime.equal_iff_of_rate _ _ h).mp he).symm
  · exact seek_currentTime_of_changed now time p he

theorem setInOutRange_fields (value : TimeRange) (p : Player) :
    (setInOutRange value p).currentTime = p.currentTime ∧
      (setInOutRange value p).globalStartTime = p.globalStartTime ∧
      (setInOutRange value p).duration = p.duration ∧
      (setInOutRange value p).playback = p.playback ∧
      (setInOutRange value p).loop = p.loop := by
  by_cases h : TimeRange.equal value p.inOutRange <;>
    simp [setInOutRange, setIfChangedRange, h]

/-- After `setInOutRange` the in/out range is the new value or, when the new value is equal
(`operator==`) to it, the old one. -/
theorem setInOutRange_inOutRange (value : TimeRange) (p : Player) :
    (setInOutRange value p).inOutRange
      = if TimeRange.equal value p.inOutRange then p.inOutRange else value := by
  by_cases h : TimeRange.equal value p.inOutRange <;>
    simp [setInOutRange, setIfChangedRange, h]

theorem setInOutRange_of_rate (value : TimeRange) (p : Player)
    (hs : value.start_time.rate = p.inOutRange.start_time.rate)
    (hd : value.duration.rate = p.inOutRange.duration.rate) :
    (setInOutRange value p).inOutRange = value := by
  rw [setInOutRange_inOutRange]
  split
  · next h => exact ((TimeRange.range_equal_iff_of_rate _ _ hs hd).mp h).symm
  · rfl

theorem setOutPoint_start_time (p : Player) :
    (setOutPoint p).inOutRange.start_time = p.inOutRange.start_time := by
  unfold setOutPoint
  rw [setInOutRange_inOutRange]
  split <;> rfl

theorem end_time_inclusive_frames (q : ℚ) (a b : ℤ) (h : a ≤ b) :
    TimeRange.end_time_inclusive ⟨frameTime q a, ⟨((b - a + 1 : ℤ) : ℚ), q⟩⟩ = frameTime q b := by
  rw [TimeRange.end_time_inclusive_eq]
  have e : (frameTime q a).value_rescaled_to q = (a : ℚ) := by
    simp [RationalTime.value_rescaled_to, frameTime]
  simp only [e]
  by_cases hab : a = b
  · subst hab
    simp
  · have hlt : a < b := lt_of_le_of_ne h hab
    have h1 : (((b - a + 1 : ℤ) : ℚ)) > 1 := by
      have : (1 : ℤ) < b - a + 1 := by omega
      exact_mod_cast this
    rw [if_pos h1]
    have h2 : ¬ (((b - a + 1 : ℤ) : ℚ)) ≠ ((⌊(((b - a + 1 : ℤ) : ℚ))⌋ : ℤ) : ℚ) := by
      rw [Int.floor_intCast]
      simp
    rw [if_neg h2]
    simp only [frameTime, RationalTime.mk.injEq, and_true]
    push_cast
    ring

/-- C12, the claim as stated fails: on the timeline of 24 frames at 24 frames per second with
the in/out range written at rate 48, from time 4 lasting 42 (frames 2 to 22),
`seek(2); setInPoint(); seek(22); setOutPoint()` with the whole frames 2 and 22 at the
timeline rate leaves the range that starts at 4 and lasts 41 at rate 48, twenty and a half
frames and not 21: the range that `setInPoint` builds is equal (`operator==`) to the held
one, which stays, and `setOutPoint` adds 1 at the rate 48 of the start. -/
theorem in_out_points_rate_counterexample :
    (setOutPoint (seek 0 ⟨22, 24⟩ (setInPoint (seek 0 ⟨2, 24⟩
        (setInOutRange ⟨⟨4, 48⟩, ⟨42, 48⟩⟩ (initPlayer ⟨0, 24⟩ ⟨24, 24⟩)))))).inOutRange
        = ⟨⟨4, 48⟩, ⟨41, 48⟩⟩ ∧
      ¬ RationalTime.equal (setOutPoint (seek 0 ⟨22, 24⟩ (setInPoint (seek 0 ⟨2, 24⟩
        (setInOutRange ⟨⟨4, 48⟩, ⟨42, 48⟩⟩
          (initPlayer ⟨0, 24⟩ ⟨24, 24⟩)))))).inOutRange.duration ⟨21, 24⟩ ∧
      (setInOutRange ⟨⟨4, 48⟩, ⟨42, 48⟩⟩ (initPlayer ⟨0, 24⟩ ⟨24, 24⟩)).inOutRange
        = ⟨⟨4, 48⟩, ⟨42, 48⟩⟩ ∧
      inLoopRange ⟨⟨0, 24⟩, ⟨24, 24⟩⟩ ⟨2, 24⟩ ∧ inLoopRange ⟨⟨0, 24⟩, ⟨24, 24⟩⟩ ⟨22, 24⟩ ∧
      RationalTime.lt ⟨2, 24⟩ (TimeRange.end_time_exclusive ⟨⟨4, 48⟩, ⟨42, 48⟩⟩) := by
  decide!

/-- C12 as amended: for a player whose current time and in/out range are at the
rate `q`, and whole frames `t1 <= t2` at that rate that `seek` does not wrap,
`seek(t1); setInPoint(); seek(t2); setOutPoint()` gives the in/out range that starts at `t1`
and lasts `t2 - t1 + 1` frames, with the inclusive end `t2`; `setInPoint` keeps the exclusive
end of the range and `setOutPoint` keeps its start. -/
theorem in_out_points (now1 now2 q : ℚ) (t1 t2 : ℤ) (p : Player)
    (hc : p.currentTime.rate = q) (hrs : p.inOutRange.start_time.rate = q)
    (hrd : p.inOutRange.duration.rate = q)
    (h1 : inLoopRange ⟨p.globalStartTime, p.duration⟩ (frameTime q t1))
    (h2 : inLoopRange ⟨p.globalStartTime, p.duration⟩ (frameTime q t2))
    (h12 : t1 ≤ t2) :
    (setOutPoint (seek now2 (frameTime q t2)
        (setInPoint (seek now1 (frameTime q t1) p)))).inOutRange
        = ⟨frameTime q t1, ⟨((t2 - t1 + 1 : ℤ) : ℚ), q⟩⟩ ∧
      (setOutPoint (seek now2 (frameTime q t2)
        (setInPoint (seek now1 (frameTime q t1) p)))).inOutRange.end_time_inclusive
        = frameTime q t2 ∧
      (setInPoint (seek now1 (frameTime q t1) p)).inOutRange.start_time = frameTime q t1 ∧
      (setInPoint (seek now1 (frameTime q t1) p)).inOutRange.end_time_exclusive
        = p.inOutRange.end_time_exclusive ∧
      ∀ p' : Player, (setOutPoint p').inOutRange.start_time = p'.inOutRange.start_time := by
  -- the first seek
  have hA : (seek now1 (frameTime q t1) p).currentTime = frameTime q t1 := by
    rw [seek_currentTime_of_rate, loopTime_eq_self _ _ h1]
    rw [loopTime_eq_self _ _ h1, hc]
    rfl
  have hAf := seek_fields now1 (frameTime q t1) p
  -- the in point
  have hee : p.inOutRange.end_time_exclusive.rate = q := by
    rw [TimeRange.end_time_exclusive_eq]
    exact hrd
  have hB : (setInPoint (seek now1 (frameTime q t1) p)).inOutRange
      = ⟨frameTime q t1, ⟨p.inOutRange.end_time_exclusive.value - (t1 : ℚ), q⟩⟩ := by
    unfold setInPoint
    rw [setInOutRange_of_rate]
    · rw [hA, hAf.1]
      simp [TimeRange.range_from_start_end_time, RationalTime.duration_from_start_end_time,
        frameTime, hee]
    · rw [hA, hAf.1, hrs]; rfl
    · rw [hA, hAf.1, hrd]
      simp [TimeRange.range_from_start_end_time, RationalTime.duration_from_start_end_time,
        frameTime, hee]
  have hBf := setInOutRange_fields
    (TimeRange.range_from_start_end_time (seek now1 (frameTime q t1) p).currentTime
      (seek now1 (frameTime q t1) p).inOutRange.end_time_exclusive)
    (seek now1 (frameTime q t1) p)
  have hBc : (setInPoint (seek now1 (frameTime q t1) p)).currentTime = frameTime q t1 := by
    unfold setInPoint; rw [hBf.1, hA]
  have hBg : (setInPoint (seek now1 (frameTime q t1) p)).globalStartTime = p.globalStartTime := by
    unfold setInPoint; rw [hBf.2.1, hAf.2.1]
  have hBd : (setInPoint (seek now1 (frameTime q t1) p)).duration = p.duration := by
    unfold setInPoint; rw [hBf.2.2.1, hAf.2.2.1]
  -- the second seek
  have hC : (seek now2 (frameTime q t2) (setInPoint (seek now1 (frameTime q t1) p))).currentTime
      = frameTime q t2 := by
    rw [seek_currentTime_of_rate, hBg, hBd, loopTime_eq_self _ _ h2]
    rw [hBg, hBd, loopTime_eq_self _ _ h2, hBc]
    rfl
  have hCf := seek_fields now2 (frameTime q t2) (setInPoint (seek now1 (frameTime q t1) p))
  -- the out point
  have hD : (setOutPoint (seek now2 (frameTime q t2)
      (setInPoint (seek now1 (frameTime q t1) p)))).inOutRange
      = ⟨frameTime q t1, ⟨((t2 - t1 + 1 : ℤ) : ℚ), q⟩⟩ := by
    unfold setOutPoint
    rw [setInOutRange_of_rate]
    · rw [hC, hCf.1, hB]
      simp [TimeRange.range_from_start_end_time_inclusive,
        RationalTime.duration_from_start_end_time_inclusive, frameTime]
    · rw [hCf.1, hB]; rfl
    · rw [hC, hCf.1, hB]
      simp [TimeRange.range_from_start_end_time_inclusive,
        RationalTime.duration_from_start_end_time_inclusive, frameTime]
  refine ⟨hD, ?_, ?_, ?_, setOutPoint_start_time⟩
  · rw [hD]
    exact end_time_inclusive_frames q t1 t2 h12
  · rw [hB]
  · rw [hB, TimeRange.end_time_exclusive_eq]
    have e : (frameTime q t1).value_rescaled_to q = (t1 : ℚ) := by
      simp [RationalTime.value_rescaled_to, frameTime]
    simp only [e]
    have : (t1 : ℚ) + (p.inOutRange.end_time_exclusive.value - (t1 : ℚ))
        = p.inOutRange.end_time_exclusive.value := by ring
    rw [this, ← hee]

/-- Witness of C12 as amended, the unit test: on the timeline of 48 frames at 24 frames per second
with the in/out range of 23 frames from frame 1, `seek(2); setInPoint(); seek(22);
setOutPoint()` gives the in/out range of 21 frames from frame 2. -/
theorem in_out_points_witness :
    (setOutPoint (seek 0 (frameTime 24 22) (setInPoint (seek 0 (frameTime 24 2)
        (setInOutRange ⟨⟨1, 24⟩, ⟨23, 24⟩⟩ (initPlayer ⟨0, 24⟩ ⟨48, 24⟩)))))).inOutRange
      = ⟨⟨2, 24⟩, ⟨21, 24⟩⟩ := by
  have h := (in_out_points 0 0 24 2 22
    (setInOutRange ⟨⟨1, 24⟩, ⟨23, 24⟩⟩ (initPlayer ⟨0, 24⟩ ⟨48, 24⟩))
    (by decide!) (by decide!) (by decide!) (by decide!) (by decide!) (by decide)).1
  rw [h]
  decide!

theorem resetInPoint_start_equal (p : Player) :
    RationalTime.equal p.globalStartTime (resetInPoint p).inOutRange.start_time := by
  unfold resetInPoint
  rw [setInOutRange_inOutRange]
  split
  · next h => exact h.1
  · exact RationalTime.equal_self _

/-- C13 (reset of the in and out points): from every in/out range, `resetInPoint()` followed
by `resetOutPoint()` leaves an in/out range that is equal (`operator==`) to
`TimeRange(globalStartTime, duration)`; it is that very value when the old range and the
timeline have one rate. -/
theorem reset_in_out_points (p : Player) :
    TimeRange.equal ⟨p.globalStartTime, p.duration⟩
        (resetOutPoint (resetInPoint p)).inOutRange ∧
      (p.inOutRange.start_time.rate = p.globalStartTime.rate →
        p.inOutRange.duration.rate = p.globalStartTime.rate →
        p.duration.rate = p.globalStartTime.rate →
        (resetOutPoint (resetInPoint p)).inOutRange = ⟨p.globalStartTime, p.duration⟩) := by
  have hf := setInOutRange_fields
    (TimeRange.range_from_start_end_time p.globalStartTime p.inOutRange.end_time_exclusive) p
  have hd : (resetInPoint p).duration = p.duration := hf.2.2.1
  refine ⟨?_, ?_⟩
  · have h1 := resetInPoint_start_equal p
    unfold resetOutPoint
    rw [setInOutRange_inOutRange, hd]
    split
    · next h => exact ⟨h1, h.2⟩
    · exact ⟨h1, RationalTime.equal_self _⟩
  · intro hs hdr hD
    have h1 : (resetInPoint p).inOutRange
        = TimeRange.range_from_start_end_time p.globalStartTime
          p.inOutRange.end_time_exclusive := by
      unfold resetInPoint
      apply setInOutRange_of_rate
      · rw [hs]; rfl
      · rw [hdr]
        simp only [TimeRange.range_from_start_end_time,
          RationalTime.duration_from_start_end_time]
        split <;> rfl
    unfold resetOutPoint
    rw [setInOutRange_of_rate, hd, h1]
    · rfl
    · rfl
    · rw [hd, h1, hD]
      simp only [TimeRange.range_from_start_end_time,
        RationalTime.duration_from_start_end_time]
      split <;> rfl

/-- Witness of C13, the unit test: on the timeline of 48 frames at 24 frames per second the
in/out range of 21 frames from frame 2 is reset to the 48 frames from frame 0. -/
theorem reset_in_out_points_witness :
    (resetOutPoint (resetInPoint
        (setInOutRange ⟨⟨2, 24⟩, ⟨21, 24⟩⟩ (initPlayer ⟨0, 24⟩ ⟨48, 24⟩)))).inOutRange
      = ⟨⟨0, 24⟩, ⟨48, 24⟩⟩ :=
  (reset_in_out_points (setInOutRange ⟨⟨2, 24⟩, ⟨21, 24⟩⟩ (initPlayer ⟨0, 24⟩ ⟨48, 24⟩))).2
    (by decide!) (by decide!) (by decide!)

/-- C14, the claim as stated fails: on the timeline of 48 frames at 24 frames per second,
`seek(10); setOutPoint(); seek(20); setInPoint()` from the initial state leaves the in/out
range that starts at frame 20 with the duration -9. -/
theorem in_out_duration_counterexample :
    (runInOutOps [InOutOp.seek 0 ⟨10, 24⟩, InOutOp.setOutPoint, InOutOp.seek 0 ⟨20, 24⟩,
        InOutOp.setInPoint] (initPlayer ⟨0, 24⟩ ⟨48, 24⟩)).inOutRange
        = ⟨⟨20, 24⟩, ⟨-9, 24⟩⟩ ∧
      ¬ (0 ≤ (runInOutOps [InOutOp.seek 0 ⟨10, 24⟩, InOutOp.setOutPoint,
        InOutOp.seek 0 ⟨20, 24⟩, InOutOp.setInPoint]
        (initPlayer ⟨0, 24⟩ ⟨48, 24⟩)).inOutRange.duration.value) := by
  decide!

theorem duration_from_start_end_time_eq (a b : RationalTime) :
    RationalTime.duration_from_start_end_time a b
      = ⟨b.value_rescaled_to a.rate - a.value, a.rate⟩ := by
  unfold RationalTime.duration_from_start_end_time
  split
  · next h => simp [RationalTime.value_rescaled_to, h]
  · rfl

theorem duration_from_start_end_time_inclusive_eq (a b : RationalTime) :
    RationalTime.duration_from_start_end_time_inclusive a b
      = ⟨b.value_rescaled_to a.rate - a.value + 1, a.rate⟩ := by
  unfold RationalTime.duration_from_start_end_time_inclusive
  split
  · next h => simp [RationalTime.value_rescaled_to, h]
  · rfl

theorem le_iff_seconds (a b : RationalTime) :
    RationalTime.le a b ↔ secondsOf a ≤ secondsOf b := RationalTime.le_iff a b

/-- The time that `loopTime` returns for a valid time and a valid range is valid and not
before the start of the range. -/
theorem loopTime_valid (t : RationalTime) (r : TimeRange) (ht : 0 < t.rate)
    (hs : 0 < r.start_time.rate) (hd : 0 < r.duration.rate) :
    0 < (loopTime t r).rate ∧ secondsOf r.start_time ≤ secondsOf (loopTime t r) := by
  have hle := TimeRange.start_le_end_time_inclusive r hs hd
  have hei : 0 < r.end_time_inclusive.rate := by
    rw [TimeRange.end_time_inclusive_eq]
    split
    · split <;> exact hd
    · exact hs
  unfold loopTime
  split
  · exact ⟨hei, hle⟩
  · next h1 =>
    split
    · exact ⟨hs, le_refl _⟩
    · rw [lt_iff_seconds] at h1
      exact ⟨ht, not_lt.mp h1⟩

theorem inOutInv_seek (now : ℚ) (t : RationalTime) (p : Player) (h : inOutInv p)
    (ht : 0 < t.rate) : inOutInv (seek now t p) := by
  by_cases he : RationalTime.equal (loopTime t ⟨p.globalStartTime, p.duration⟩) p.currentTime
  · rw [seek_of_equal now t p he]; exact h
  · obtain ⟨h1, h2, h3, h4, h5, h6, h7, h8, h9, h10⟩ := h
    have hf := seek_fields now t p
    have hc := seek_currentTime_of_changed now t p he
    have hv := loopTime_valid t ⟨p.globalStartTime, p.duration⟩ ht h2 h3
    unfold inOutInv
    rw [hf.1, hf.2.1, hf.2.2.1, hf.2.2.2.1, hc]
    exact ⟨h1, h2, h3, h4, hv.1, hv.2, h7, h8, h9, h10⟩

theorem inOutInv_setInOutRange (value : TimeRange) (p : Player) (h : inOutInv p)
    (hs : 0 < value.start_time.rate) (hd : 0 < value.duration.rate)
    (hv : 0 ≤ value.duration.value)
    (hg : secondsOf p.globalStartTime ≤ secondsOf value.start_time) :
    inOutInv (setInOutRange value p) := by
  obtain ⟨h1, h2, h3, h4, h5, h6, h7, h8, h9, h10⟩ := h
  have hf := setInOutRange_fields value p
  unfold inOutInv
  rw [hf.1, hf.2.1, hf.2.2.1, hf.2.2.2.1, setInOutRange_inOutRange]
  split
  · exact ⟨h1, h2, h3, h4, h5, h6, h7, h8, h9, h10⟩
  · exact ⟨h1, h2, h3, h4, h5, h6, hs, hd, hv, hg⟩

theorem inOutInv_tick (now : ℚ) (p : Player) (h : inOutInv p) : inOutInv (tick now p) := by
  obtain ⟨h1, h2, h3, h4, h5, h6, h7, h8, h9, h10⟩ := h
  unfold tick
  simp only [h1, ne_eq, not_true_eq_false, if_false]
  exact ⟨rfl, h2, h3, h4, h5, h6, h7, h8, h9, h10⟩

/-- The exclusive end of a range with positive rates, in seconds. -/
theorem end_time_exclusive_seconds (r : TimeRange) (hs : 0 < r.start_time.rate)
    (hd : 0 < r.duration.rate) :
    0 < r.end_time_exclusive.rate ∧
      secondsOf r.end_time_exclusive
        = secondsOf r.start_time + r.duration.value / r.duration.rate := by
  rw [TimeRange.end_time_exclusive_eq]
  refine ⟨hd, ?_⟩
  unfold secondsOf
  simp only
  rw [add_div, RationalTime.value_rescaled_to_div _ _ hs hd]

theorem inOutInv_apply (op : InOutOp) (p : Player) (h : inOutInv p) (hg : op.guard p) :
    inOutInv (op.apply p) := by
  have hp := h
  obtain ⟨h1, h2, h3, h4, h5, h6, h7, h8, h9, h10⟩ := h
  have hee := end_time_exclusive_seconds p.inOutRange h7 h8
  cases op with
  | seek now time => exact inOutInv_seek now time p hp hg
  | tick now => exact inOutInv_tick now p hp
  | resetOutPoint =>
    exact inOutInv_setInOutRange _ p hp h7 h3 h4 h10
  | resetInPoint =>
    apply inOutInv_setInOutRange _ p hp
    · exact h2
    · simp only [TimeRange.range_from_start_end_time, duration_from_start_end_time_eq]
      exact h2
    · simp only [TimeRange.range_from_start_end_time, duration_from_start_end_time_eq]
      have e := RationalTime.value_rescaled_to_div p.inOutRange.end_time_exclusive
        p.globalStartTime.rate hee.1 h2
      have hsec : secondsOf p.globalStartTime ≤ secondsOf p.inOutRange.end_time_exclusive := by
        rw [hee.2]
        have : 0 ≤ p.inOutRange.duration.value / p.inOutRange.duration.rate :=
          div_nonneg h9 h8.le
        linarith
      unfold secondsOf at hsec
      rw [← e] at hsec
      have := (div_le_div_iff_of_pos_right h2).mp hsec
      linarith
    · exact le_refl _
  | setInPoint =>
    simp only [InOutOp.guard] at hg
    rw [le_iff_seconds] at hg
    apply inOutInv_setInOutRange _ p hp
    · exact h5
    · simp only [TimeRange.range_from_start_end_time, duration_from_start_end_time_eq]
      exact h5
    · simp only [TimeRange.range_from_start_end_time, duration_from_start_end_time_eq]
      have e := RationalTime.value_rescaled_to_div p.inOutRange.end_time_exclusive
        p.currentTime.rate hee.1 h5
      unfold secondsOf at hg
      rw [← e] at hg
      have := (div_le_div_iff_of_pos_right h5).mp hg
      linarith
    · exact h6
  | setOutPoint =>
    simp only [InOutOp.guard] at hg
    rw [le_iff_seconds] at hg
    have hadd := RationalTime.add_seconds p.currentTime ⟨1, p.inOutRange.start_time.rate⟩ h5 h7
    apply inOutInv_setInOutRange _ p hp
    · exact h7
    · simp only [TimeRange.range_from_start_end_time_inclusive,
        duration_from_start_end_time_inclusive_eq]
      exact h7
    · simp only [TimeRange.range_from_start_end_time_inclusive,
        duration_from_start_end_time_inclusive_eq]
      have e := RationalTime.value_rescaled_to_div p.currentTime
        p.inOutRange.start_time.rate h5 h7
      unfold secondsOf at hg
      rw [hadd] at hg
      simp only at hg
      rw [← e, ← add_div] at hg
      have := (div_le_div_iff_of_pos_right h7).mp hg
      linarith
    · exact h10

theorem inOutInv_run (ops : List InOutOp) : ∀ p : Player, inOutInv p → guardedRun ops p →
    inOutInv (runInOutOps ops p) := by
  induction ops with
  | nil => intro p h _; exact h
  | cons op ops ih =>
    intro p h hg
    exact ih _ (inOutInv_apply op p h hg.1) hg.2

theorem inOutInv_initPlayer (g D : RationalTime) (hg : 0 < g.rate) (hD : 0 < D.rate)
    (hDv : 0 ≤ D.value) : inOutInv (initPlayer g D) :=
  ⟨rfl, hg, hD, hDv, hg, le_refl _, hg, hD, hDv, le_refl _⟩

/-- C14 as amended: for a timeline with a valid global start time and a valid, non-negative
duration, the duration of the in/out range is non-negative in every state reached from the
initial player state by a sequence of seek (to a time with a positive rate), setInPoint,
setOutPoint, resetInPoint, resetOutPoint and tick in which every setInPoint is made at a
current time that is not after the exclusive end of the in/out range and every setOutPoint
at a current time that is not more than one frame before its start. -/
theorem in_out_duration_guarded (g D : RationalTime) (hg : 0 < g.rate) (hD : 0 < D.rate)
    (hDv : 0 ≤ D.value) (ops : List InOutOp) (hops : guardedRun ops (initPlayer g D)) :
    0 ≤ (runInOutOps ops (initPlayer g D)).inOutRange.duration.value :=
  (inOutInv_run ops _ (inOutInv_initPlayer g D hg hD hDv) hops).2.2.2.2.2.2.2.2.1

/-- Witness of C14 as amended: on the timeline of 48 frames at 24 frames per second the
sequence `seek(30); setInPoint(); seek(22); tick; resetInPoint(); setOutPoint();
resetOutPoint(); seek(5); setInPoint()` meets the conditions, and the in/out range that it
leaves has a non-negative duration. -/
theorem in_out_duration_guarded_witness :
    0 ≤ (runInOutOps [InOutOp.seek 0 ⟨30, 24⟩, InOutOp.setInPoint, InOutOp.seek 0 ⟨22, 24⟩,
      InOutOp.tick 1, InOutOp.resetInPoint, InOutOp.setOutPoint, InOutOp.resetOutPoint,
      InOutOp.seek 0 ⟨5, 24⟩, InOutOp.setInPoint]
      (initPlayer ⟨0, 24⟩ ⟨48, 24⟩)).inOutRange.duration.value :=
  in_out_duration_guarded ⟨0, 24⟩ ⟨48, 24⟩ (by norm_num) (by norm_num) (by norm_num)
    [InOutOp.seek 0 ⟨30, 24⟩, InOutOp.setInPoint, InOutOp.seek 0 ⟨22, 24⟩,
      InOutOp.tick 1, InOutOp.resetInPoint, InOutOp.setOutPoint, InOutOp.resetOutPoint,
      InOutOp.seek 0 ⟨5, 24⟩, InOutOp.setInPoint] (by decide!)

/-! ## Playback and the loop policy -/

theorem seek_currentTime_equal (now : ℚ) (time : RationalTime) (p : Player) :
    RationalTime.equal (loopTime time ⟨p.globalStartTime, p.duration⟩)
      (seek now time p).currentTime := by
  by_cases h : RationalTime.equal (loopTime time ⟨p.globalStartTime, p.duration⟩) p.currentTime
  · rw [seek_of_equal now time p h]; exact h
  · rw [seek_currentTime_of_changed now time p h]; exact RationalTime.equal_self _

/-- After `setPlayback` the playback value is the one that the switch on the loop mode
chose, and the current time and the loop mode are those that the switch left. -/
theorem setPlayback_fields (now : ℚ) (value : Playback) (p : Player) :
    (setPlayback now value p).playback = (setPlaybackSwitch now value p).2 ∧
      (setPlayback now value p).currentTime = (setPlaybackSwitch now value p).1.currentTime ∧
      (setPlayback now value p).loop = (setPlaybackSwitch now value p).1.loop ∧
      (setPlayback now value p).inOutRange = (setPlaybackSwitch now value p).1.inOutRange ∧
      (setPlayback now value p).globalStartTime
        = (setPlaybackSwitch now value p).1.globalStartTime ∧
      (setPlayback now value p).duration = (setPlaybackSwitch now value p).1.duration := by
  unfold setPlayback
  simp only
  split
  · next h => exact ⟨h.symm, rfl, rfl, rfl, rfl, rfl⟩
  · split <;> exact ⟨rfl, rfl, rfl, rfl, rfl, rfl⟩

/-- When `setPlayback` changes the playback value to Forward or Reverse, the clock reference
is the current time after the switch, and the frame cache direction follows the value. -/
theorem setPlayback_changed (now : ℚ) (value : Playback) (p : Player)
    (h : (setPlaybackSwitch now value p).2 ≠ (setPlaybackSwitch now value p).1.playback)
    (hs : (setPlaybackSwitch now value p).2 ≠ Playback.Stop) :
    (setPlayback now value p).playbackStartTime = (setPlayback now value p).currentTime ∧
      (setPlayback now value p).startTime = now ∧
      (setPlayback now value p).threadData.frameCacheDirection
        = (if Playback.Forward = (setPlaybackSwitch now value p).2 then
            FrameCacheDirection.Forward else FrameCacheDirection.Reverse) := by
  unfold setPlayback
  simp [if_neg h, hs]

/-- C15 (setPlayback under Once): with the loop mode Once, `setPlayback(Forward)` at a
current time equal to the inclusive end of the in/out range seeks to the start of the range
(which the timeline holds) and then sets the playback to Forward, the clock reference being
the new current time; `setPlayback(Reverse)` at a current time equal to the start seeks to
the inclusive end and sets the playback to Reverse; at any other current time, and for
Stop, the current time is left as it is and the playback value is set. -/
theorem setPlayback_once (now : ℚ) (p : Player) (hloop : p.loop = Loop.Once) :
    (RationalTime.equal p.currentTime p.inOutRange.end_time_inclusive →
        inLoopRange ⟨p.globalStartTime, p.duration⟩ p.inOutRange.start_time →
        RationalTime.equal p.inOutRange.start_time
            (setPlayback now Playback.Forward p).currentTime ∧
          (setPlayback now Playback.Forward p).playback = Playback.Forward ∧
          (p.playback ≠ Playback.Forward →
            (setPlayback now Playback.Forward p).playbackStartTime
              = (setPlayback now Playback.Forward p).currentTime)) ∧
      (RationalTime.equal p.currentTime p.inOutRange.start_time →
        inLoopRange ⟨p.globalStartTime, p.duration⟩ p.inOutRange.end_time_inclusive →
        RationalTime.equal p.inOutRange.end_time_inclusive
            (setPlayback now Playback.Reverse p).currentTime ∧
          (setPlayback now Playback.Reverse p).playback = Playback.Reverse ∧
          (p.playback ≠ Playback.Reverse →
            (setPlayback now Playback.Reverse p).playbackStartTime
              = (setPlayback now Playback.Reverse p).currentTime)) ∧
      (¬ RationalTime.equal p.currentTime p.inOutRange.end_time_inclusive →
        (setPlayback now Playback.Forward p).currentTime = p.currentTime ∧
          (setPlayback now Playback.Forward p).playback = Playback.Forward) ∧
      (¬ RationalTime.equal p.currentTime p.inOutRange.start_time →
        (setPlayback now Playback.Reverse p).currentTime = p.currentTime ∧
          (setPlayback now Playback.Reverse p).playback = Playback.Reverse) ∧
      ((setPlayback now Playback.Stop p).currentTime = p.currentTime ∧
        (setPlayback now Playback.Stop p).playback = Playback.Stop) := by
  refine ⟨?_, ?_, ?_, ?_, ?_⟩
  · intro he hin
    have hsw : setPlaybackSwitch now Playback.Forward p
        = (seek now p.inOutRange.start_time p, Playback.Forward) := by
      simp [setPlaybackSwitch, hloop, he]
    have hf := setPlayback_fields now Playback.Forward p
    rw [hsw] at hf
    refine ⟨?_, hf.1, ?_⟩
    · rw [hf.2.1]
      have := seek_currentTime_equal now p.inOutRange.start_time p
      rw [loopTime_eq_self _ _ hin] at this
      exact this
    · intro hp
      apply (setPlayback_changed now Playback.Forward p _ _).1
      · rw [hsw]
        simp only [(seek_fields now p.inOutRange.start_time p).2.2.2.1]
        exact fun h => hp h.symm
      · rw [hsw]; simp
  · intro he hin
    have hsw : setPlaybackSwitch now Playback.Reverse p
        = (seek now p.inOutRange.end_time_inclusive p, Playback.Reverse) := by
      simp [setPlaybackSwitch, hloop, he]
    have hf := setPlayback_fields now Playback.Reverse p
    rw [hsw] at hf
    refine ⟨?_, hf.1, ?_⟩
    · rw [hf.2.1]
      have := seek_currentTime_equal now p.inOutRange.end_time_inclusive p
      rw [loopTime_eq_self _ _ hin] at this
      exact this
    · intro hp
      apply (setPlayback_changed now Playback.Reverse p _ _).1
      · rw [hsw]
        simp only [(seek_fields now p.inOutRange.end_time_inclusive p).2.2.2.1]
        exact fun h => hp h.symm
      · rw [hsw]; simp
  · intro he
    have hsw : setPlaybackSwitch now Playback.Forward p = (p, Playback.Forward) := by
      simp [setPlaybackSwitch, hloop, he]
    have hf := setPlayback_fields now Playback.Forward p
    rw [hsw] at hf
    exact ⟨hf.2.1, hf.1⟩
  · intro he
    have hsw : setPlaybackSwitch now Playback.Reverse p = (p, Playback.Reverse) := by
      simp [setPlaybackSwitch, hloop, he]
    have hf := setPlayback_fields now Playback.Reverse p
    rw [hsw] at hf
    exact ⟨hf.2.1, hf.1⟩
  · have hsw : setPlaybackSwitch now Playback.Stop p = (p, Playback.Stop) := by
      simp [setPlaybackSwitch, hloop]
    have hf := setPlayback_fields now Playback.Stop p
    rw [hsw] at hf
    exact ⟨hf.2.1, hf.1⟩

/-- Witness of C15: on the timeline of 48 frames at 24 frames per second with the loop mode
Once, `setPlayback(Forward)` at frame 47 leaves the current time 0 and the playback Forward,
`setPlayback(Reverse)` at frame 0 leaves the current time 47, and `setPlayback(Forward)` at
frame 5 leaves the current time 5. -/
theorem setPlayback_once_witness :
    (setPlayback 1 Playback.Forward
        (seek 0 ⟨47, 24⟩ (setLoop Loop.Once (initPlayer ⟨0, 24⟩ ⟨48, 24⟩)))).currentTime
        = ⟨0, 24⟩ ∧
      (setPlayback 1 Playback.Reverse
        (setLoop Loop.Once (initPlayer ⟨0, 24⟩ ⟨48, 24⟩))).currentTime = ⟨47, 24⟩ ∧
      RationalTime.equal ⟨0, 24⟩ (setPlayback 1 Playback.Forward
        (seek 0 ⟨47, 24⟩ (setLoop Loop.Once (initPlayer ⟨0, 24⟩ ⟨48, 24⟩)))).currentTime ∧
      (setPlayback 1 Playback.Forward
        (seek 0 ⟨47, 24⟩ (setLoop Loop.Once (initPlayer ⟨0, 24⟩ ⟨48, 24⟩)))).playback
        = Playback.Forward ∧
      (setPlayback 1 Playback.Forward
        (seek 0 ⟨5, 24⟩ (setLoop Loop.Once (initPlayer ⟨0, 24⟩ ⟨48, 24⟩)))).currentTime
        = ⟨5, 24⟩ := by
  have h := (setPlayback_once 1
    (seek 0 ⟨47, 24⟩ (setLoop Loop.Once (initPlayer ⟨0, 24⟩ ⟨48, 24⟩))) (by decide!)).1
    (by decide!) (by decide!)
  have e : (seek 0 ⟨47, 24⟩ (setLoop Loop.Once
      (initPlayer ⟨0, 24⟩ ⟨48, 24⟩))).inOutRange.start_time = ⟨0, 24⟩ := by decide!
  rw [e] at h
  exact ⟨by decide!, by decide!, h.1, h.2.1, by decide!⟩

/-- In a range with positive rates a time after the inclusive end is not before the
start. -/
theorem not_lt_start_of_gt_end (r : TimeRange) (t : RationalTime)
    (hs : 0 < r.start_time.rate) (hd : 0 < r.duration.rate)
    (h : RationalTime.gt t r.end_time_inclusive) : ¬ RationalTime.lt t r.start_time := by
  have hle := TimeRange.start_le_end_time_inclusive r hs hd
  rw [RationalTime.lt_iff]
  unfold RationalTime.gt at h
  exact not_lt.mpr (le_of_lt (lt_of_le_of_lt hle h))

/-- C16 (loop policy Once): with the loop mode Once, a proposed time before the start of
the in/out range gives the start and the playback Stop, a proposed time after the inclusive
end (and not before the start, as it is in every range with positive rates) gives the
inclusive end and the playback Stop, and any other proposed time is returned as it is with
the player unchanged. -/
theorem loopPlayback_once (now : ℚ) (t : RationalTime) (p : Player)
    (hloop : p.loop = Loop.Once) :
    (RationalTime.lt t p.inOutRange.start_time →
        (loopPlayback now t p).1 = p.inOutRange.start_time ∧
          (loopPlayback now t p).2.playback = Playback.Stop) ∧
      (RationalTime.gt t p.inOutRange.end_time_inclusive →
        ¬ RationalTime.lt t p.inOutRange.start_time →
        (loopPlayback now t p).1 = p.inOutRange.end_time_inclusive ∧
          (loopPlayback now t p).2.playback = Playback.Stop) ∧
      (RationalTime.gt t p.inOutRange.end_time_inclusive →
        0 < p.inOutRange.start_time.rate → 0 < p.inOutRange.duration.rate →
        (loopPlayback now t p).1 = p.inOutRange.end_time_inclusive ∧
          (loopPlayback now t p).2.playback = Playback.Stop) ∧
      (¬ RationalTime.lt t p.inOutRange.start_time →
        ¬ RationalTime.gt t p.inOutRange.end_time_inclusive →
        (loopPlayback now t p).1 = t ∧ (loopPlayback now t p).2 = p) := by
  have h2 : RationalTime.gt t p.inOutRange.end_time_inclusive →
      ¬ RationalTime.lt t p.inOutRange.start_time →
      (loopPlayback now t p).1 = p.inOutRange.end_time_inclusive ∧
        (loopPlayback now t p).2.playback = Playback.Stop := by
    intro hgt hlt
    simp [loopPlayback, hloop, hlt, hgt]
  refine ⟨?_, h2, ?_, ?_⟩
  · intro hlt
    simp [loopPlayback, hloop, hlt]
  · intro hgt hs hd
    exact h2 hgt (not_lt_start_of_gt_end _ _ hs hd hgt)
  · intro hlt hgt
    simp [loopPlayback, hloop, hlt, hgt]

/-- Witness of C16, the scenario of the specification: on the timeline of 48 frames at 24
frames per second with the loop mode Once, playing forward from frame 0, the tick one second
later makes frame 24 current, the tick two seconds later proposes frame 48, makes frame 47
current and stops the playback, and the current time stays 47 at the next tick. -/
theorem loopPlayback_once_witness :
    (loopPlayback 2 ⟨48, 24⟩
        (setPlayback 0 Playback.Forward (setLoop Loop.Once (initPlayer ⟨0, 24⟩ ⟨48, 24⟩)))).1
        = ⟨47, 24⟩ ∧
      (loopPlayback 2 ⟨48, 24⟩
        (setPlayback 0 Playback.Forward
          (setLoop Loop.Once (initPlayer ⟨0, 24⟩ ⟨48, 24⟩)))).2.playback = Playback.Stop ∧
      (tick 1 (setPlayback 0 Playback.Forward
        (setLoop Loop.Once (initPlayer ⟨0, 24⟩ ⟨48, 24⟩)))).currentTime = ⟨24, 24⟩ ∧
      (tick 2 (setPlayback 0 Playback.Forward
        (setLoop Loop.Once (initPlayer ⟨0, 24⟩ ⟨48, 24⟩)))).currentTime = ⟨47, 24⟩ ∧
      (tick 2 (setPlayback 0 Playback.Forward
        (setLoop Loop.Once (initPlayer ⟨0, 24⟩ ⟨48, 24⟩)))).playback = Playback.Stop ∧
      (tick 3 (tick 2 (setPlayback 0 Playback.Forward
        (setLoop Loop.Once (initPlayer ⟨0, 24⟩ ⟨48, 24⟩))))).currentTime = ⟨47, 24⟩ := by
  have h := (loopPlayback_once 2 ⟨48, 24⟩
    (setPlayback 0 Playback.Forward (setLoop Loop.Once (initPlayer ⟨0, 24⟩ ⟨48, 24⟩)))
    (by decide!)).2.1 (by decide!) (by decide!)
  have e : (setPlayback 0 Playback.Forward (setLoop Loop.Once
      (initPlayer ⟨0, 24⟩ ⟨48, 24⟩))).inOutRange.end_time_inclusive = ⟨47, 24⟩ := by decide!
  rw [e] at h
  exact ⟨h.1, h.2, by decide!, by decide!, by decide!, by decide!⟩

/-- C17, the claim as stated fails: on the timeline of 48 frames at 24 frames per second
with the loop mode PingPong, the in/out range of frames 10 to 20 and forward playback
started at frame 5, the proposed time 6 lies before the start of the in/out range, and the
loop policy returns 6 itself and leaves the playback Forward: the tick makes the time 6,
outside the in/out range, current. -/
theorem loopPlayback_pingPong_counterexample :
    RationalTime.lt ⟨6, 24⟩ (setPlayback 0 Playback.Forward (seek 0 ⟨5, 24⟩
        (setInOutRange ⟨⟨10, 24⟩, ⟨11, 24⟩⟩
          (setLoop Loop.PingPong (initPlayer ⟨0, 24⟩ ⟨48, 24⟩))))).inOutRange.start_time ∧
      (loopPlayback (1 / 24) ⟨6, 24⟩ (setPlayback 0 Playback.Forward (seek 0 ⟨5, 24⟩
        (setInOutRange ⟨⟨10, 24⟩, ⟨11, 24⟩⟩
          (setLoop Loop.PingPong (initPlayer ⟨0, 24⟩ ⟨48, 24⟩)))))).1 = ⟨6, 24⟩ ∧
      (loopPlayback (1 / 24) ⟨6, 24⟩ (setPlayback 0 Playback.Forward (seek 0 ⟨5, 24⟩
        (setInOutRange ⟨⟨10, 24⟩, ⟨11, 24⟩⟩
          (setLoop Loop.PingPong (initPlayer ⟨0, 24⟩ ⟨48, 24⟩)))))).2.playback
        = Playback.Forward ∧
      (tick (1 / 24) (setPlayback 0 Playback.Forward (seek 0 ⟨5, 24⟩
        (setInOutRange ⟨⟨10, 24⟩, ⟨11, 24⟩⟩
          (setLoop Loop.PingPong (initPlayer ⟨0, 24⟩ ⟨48, 24⟩)))))).currentTime = ⟨6, 24⟩ ∧
      ¬ inLoopRange ⟨⟨10, 24⟩, ⟨11, 24⟩⟩ (tick (1 / 24) (setPlayback 0 Playback.Forward
        (seek 0 ⟨5, 24⟩ (setInOutRange ⟨⟨10, 24⟩, ⟨11, 24⟩⟩
          (setLoop Loop.PingPong (initPlayer ⟨0, 24⟩ ⟨48, 24⟩)))))).currentTime := by
  decide!

/-- C17 as amended: with the loop mode PingPong, a proposed time that overruns the in/out
range in the direction of the playback (before the start while playing Reverse, after the
inclusive end while playing Forward) gives the overrun end, flips the playback and resets
the clock reference to the returned time, which lies inside an in/out range with positive
rates; every other proposed time is returned as it is with the player unchanged. -/
theorem loopPlayback_pingPong (now : ℚ) (t : RationalTime) (p : Player)
    (hloop : p.loop = Loop.PingPong) :
    (RationalTime.lt t p.inOutRange.start_time → p.playback = Playback.Reverse →
        (loopPlayback now t p).1 = p.inOutRange.start_time ∧
          (loopPlayback now t p).2.playback = Playback.Forward ∧
          (loopPlayback now t p).2.playbackStartTime = p.inOutRange.start_time ∧
          (loopPlayback now t p).2.startTime = now) ∧
      (RationalTime.gt t p.inOutRange.end_time_inclusive → p.playback = Playback.Forward →
        (loopPlayback now t p).1 = p.inOutRange.end_time_inclusive ∧
          (loopPlayback now t p).2.playback = Playback.Reverse ∧
          (loopPlayback now t p).2.playbackStartTime = p.inOutRange.end_time_inclusive ∧
          (loopPlayback now t p).2.startTime = now) ∧
      (¬ (RationalTime.lt t p.inOutRange.start_time ∧ p.playback = Playback.Reverse) →
        ¬ (RationalTime.gt t p.inOutRange.end_time_inclusive ∧
          p.playback = Playback.Forward) →
        (loopPlayback now t p).1 = t ∧ (loopPlayback now t p).2 = p) ∧
      (0 < p.inOutRange.start_time.rate → 0 < p.inOutRange.duration.rate →
        inLoopRange p.inOutRange p.inOutRange.start_time ∧
          inLoopRange p.inOutRange p.inOutRange.end_time_inclusive) := by
  refine ⟨?_, ?_, ?_, ?_⟩
  · intro hlt hp
    simp [loopPlayback, hloop, hlt, hp]
  · intro hgt hp
    simp [loopPlayback, hloop, hgt, hp]
  · intro h1 h2
    have h1' : ¬ (RationalTime.lt t p.inOutRange.start_time ∧ Playback.Reverse = p.playback) :=
      fun h => h1 ⟨h.1, h.2.symm⟩
    have h2' : ¬ (RationalTime.gt t p.inOutRange.end_time_inclusive ∧
        Playback.Forward = p.playback) := fun h => h2 ⟨h.1, h.2.symm⟩
    simp only [loopPlayback, hloop, if_neg h1', if_neg h2', and_self]
  · intro hs hd
    have hle := TimeRange.start_le_end_time_inclusive p.inOutRange hs hd
    unfold inLoopRange
    simp only [RationalTime.le_iff]
    exact ⟨⟨le_refl _, hle⟩, ⟨hle, le_refl _⟩⟩

/-- Witness of C17 as amended: on the timeline of 48 frames at 24 frames per second with the
loop mode PingPong, forward playback from frame 0 and the proposed time 48: the loop policy
returns frame 47 and flips the playback to Reverse. -/
theorem loopPlayback_pingPong_witness :
    (loopPlayback 2 ⟨48, 24⟩ (setPlayback 0 Playback.Forward
        (setLoop Loop.PingPong (initPlayer ⟨0, 24⟩ ⟨48, 24⟩)))).1 = ⟨47, 24⟩ ∧
      (loopPlayback 2 ⟨48, 24⟩ (setPlayback 0 Playback.Forward
        (setLoop Loop.PingPong (initPlayer ⟨0, 24⟩ ⟨48, 24⟩)))).2.playback
        = Playback.Reverse := by
  have h := (loopPlayback_pingPong 2 ⟨48, 24⟩ (setPlayback 0 Playback.Forward
    (setLoop Loop.PingPong (initPlayer ⟨0, 24⟩ ⟨48, 24⟩))) (by decide!)).2.1
    (by decide!) (by decide!)
  have e : (setPlayback 0 Playback.Forward (setLoop Loop.PingPong
      (initPlayer ⟨0, 24⟩ ⟨48, 24⟩))).inOutRange.end_time_inclusive = ⟨47, 24⟩ := by decide!
  rw [e] at h
  exact ⟨h.1, h.2.1⟩

/-- C18 at the failing input: on the timeline of 48 frames at 24 frames per second with the
loop mode PingPong and forward playback started at frame 0, the tick two seconds later
proposes frame 48, and the loop policy flips the playback to Reverse at frame 47; the frame
cache direction of the thread data stays Forward, and stays so at the following tick, while
`setPlayback(Reverse)` at frame 5 of the same player sets it to Reverse. -/
theorem cache_direction_after_flip :
    (tick 2 (setPlayback 0 Playback.Forward
        (setLoop Loop.PingPong (initPlayer ⟨0, 24⟩ ⟨48, 24⟩)))).playback = Playback.Reverse ∧
      (tick 2 (setPlayback 0 Playback.Forward
        (setLoop Loop.PingPong (initPlayer ⟨0, 24⟩ ⟨48, 24⟩)))).currentTime = ⟨47, 24⟩ ∧
      (tick 2 (setPlayback 0 Playback.Forward
        (setLoop Loop.PingPong (initPlayer ⟨0, 24⟩ ⟨48, 24⟩)))).threadData.frameCacheDirection
        = FrameCacheDirection.Forward ∧
      (tick 3 (tick 2 (setPlayback 0 Playback.Forward
        (setLoop Loop.PingPong (initPlayer ⟨0, 24⟩ ⟨48, 24⟩))))).currentTime = ⟨23, 24⟩ ∧
      (tick 3 (tick 2 (setPlayback 0 Playback.Forward
        (setLoop Loop.PingPong
          (initPlayer ⟨0, 24⟩ ⟨48, 24⟩))))).threadData.frameCacheDirection
        = FrameCacheDirection.Forward ∧
      (setPlayback 1 Playback.Reverse (seek 1 ⟨5, 24⟩ (setPlayback 0 Playback.Forward
        (setLoop Loop.PingPong
          (initPlayer ⟨0, 24⟩ ⟨48, 24⟩))))).threadData.frameCacheDirection
        = FrameCacheDirection.Reverse := by
  decide!

/-! ## Time actions -/

theorem loopTime_rate (t : RationalTime) (r : TimeRange) (q : ℚ) (ht : t.rate = q)
    (hs : r.start_time.rate = q) (hd : r.duration.rate = q) : (loopTime t r).rate = q := by
  unfold loopTime
  split
  · rw [TimeRange.end_time_inclusive_eq]
    split
    · split <;> exact hd
    · exact hs
  · split
    · exact hs
    · exact ht

theorem setPlayback_stop_fields (now : ℚ) (p : Player) :
    (setPlayback now Playback.Stop p).currentTime = p.currentTime ∧
      (setPlayback now Playback.Stop p).inOutRange = p.inOutRange ∧
      (setPlayback now Playback.Stop p).globalStartTime = p.globalStartTime ∧
      (setPlayback now Playback.Stop p).duration = p.duration ∧
      (setPlayback now Playback.Stop p).playback = Playback.Stop := by
  have hsw : setPlaybackSwitch now Playback.Stop p = (p, Playback.Stop) := by
    unfold setPlaybackSwitch
    cases p.loop <;> rfl
  have hf := setPlayback_fields now Playback.Stop p
  rw [hsw] at hf
  exact ⟨hf.2.1, hf.2.2.2.1, hf.2.2.2.2.1, hf.2.2.2.2.2, hf.1⟩

theorem timeAction_frame (now : ℚ) (a : TimeAction) (d : ℚ) (p : Player)
    (ha : frameOffset a = some d) :
    timeAction now a p
      = seek now ⟨p.currentTime.value + d, p.duration.rate⟩ (setPlayback now Playback.Stop p) := by
  have hf := setPlayback_stop_fields now p
  cases a <;> simp only [frameOffset, Option.some.injEq] at ha <;>
    simp only [timeAction, hf.1, hf.2.2.2.1, ← ha, sub_eq_add_neg] <;> contradiction

theorem timeAction_frame_currentTime (now : ℚ) (a : TimeAction) (d : ℚ) (p : Player)
    (hc : p.currentTime.rate = p.duration.rate) (hg : p.globalStartTime.rate = p.duration.rate)
    (ha : frameOffset a = some d) :
    (timeAction now a p).currentTime
      = loopTime ⟨p.currentTime.value + d, p.duration.rate⟩ ⟨p.globalStartTime, p.duration⟩ := by
  have hf := setPlayback_stop_fields now p
  rw [timeAction_frame now a d p ha, seek_currentTime_of_rate, hf.2.2.1, hf.2.2.2.1]
  rw [hf.2.2.1, hf.2.2.2.1, hf.1, hc]
  exact loopTime_rate _ _ _ rfl hg rfl

theorem timeAction_start_end (now : ℚ) (p : Player) :
    RationalTime.equal (loopTime p.inOutRange.start_time ⟨p.globalStartTime, p.duration⟩)
        (timeAction now TimeAction.Start p).currentTime ∧
      RationalTime.equal
        (loopTime p.inOutRange.end_time_inclusive ⟨p.globalStartTime, p.duration⟩)
        (timeAction now TimeAction.End p).currentTime := by
  have hf := setPlayback_stop_fields now p
  constructor
  · have h := seek_currentTime_equal now (setPlayback now Playback.Stop p).inOutRange.start_time
      (setPlayback now Playback.Stop p)
    rw [hf.2.1, hf.2.2.1, hf.2.2.2.1] at h
    simp only [timeAction]
    rw [hf.2.1]
    exact h
  · have h := seek_currentTime_equal now
      (setPlayback now Playback.Stop p).inOutRange.end_time_inclusive
      (setPlayback now Playback.Stop p)
    rw [hf.2.1, hf.2.2.1, hf.2.2.2.1] at h
    simp only [timeAction]
    rw [hf.2.1]
    exact h

/-- C19, the claim as stated fails: on the timeline of 48 frames at 24 frames per second,
after `seek(10); setInPoint(); resetOutPoint()` the in/out range starts at frame 10 and lasts
48 frames, so its inclusive end is frame 57; the time action End then seeks to frame 57,
which the seek loops in the timeline, and the current time becomes 0 and not the inclusive
end of the in/out range. -/
theorem timeAction_end_counterexample :
    (resetOutPoint (setInPoint (seek 0 ⟨10, 24⟩
        (initPlayer ⟨0, 24⟩ ⟨48, 24⟩)))).inOutRange.end_time_inclusive = ⟨57, 24⟩ ∧
      (timeAction 0 TimeAction.End (resetOutPoint (setInPoint (seek 0 ⟨10, 24⟩
        (initPlayer ⟨0, 24⟩ ⟨48, 24⟩))))).currentTime = ⟨0, 24⟩ ∧
      ¬ RationalTime.equal
        (resetOutPoint (setInPoint (seek 0 ⟨10, 24⟩
          (initPlayer ⟨0, 24⟩ ⟨48, 24⟩)))).inOutRange.end_time_inclusive
        (timeAction 0 TimeAction.End (resetOutPoint (setInPoint (seek 0 ⟨10, 24⟩
          (initPlayer ⟨0, 24⟩ ⟨48, 24⟩))))).currentTime := by
  decide!

/-- C19 as amended: for a current time `c` and a global start time at the rate of the
timeline's duration, a time action that steps by `d` frames (1, 10 or 100, forwards or
backwards) sets the current time to `loopTime(c + d, full timeline range)`: the inclusive end
of the timeline when `c + d` is before its start and the start when `c + d` is after its
inclusive end. Start and End set the current time to the start and the inclusive end of the
in/out range looped in the full timeline range, which are the start and the inclusive end
themselves when the timeline holds them. -/
theorem timeAction_current_time (now : ℚ) (p : Player)
    (hc : p.currentTime.rate = p.duration.rate)
    (hg : p.globalStartTime.rate = p.duration.rate) :
    (∀ (a : TimeAction) (d : ℚ), frameOffset a = some d →
        (timeAction now a p).currentTime
          = loopTime ⟨p.currentTime.value + d, p.duration.rate⟩
            ⟨p.globalStartTime, p.duration⟩) ∧
      (∀ (a : TimeAction) (d : ℚ), frameOffset a = some d →
        RationalTime.lt ⟨p.currentTime.value + d, p.duration.rate⟩ p.globalStartTime →
        (timeAction now a p).currentTime
          = TimeRange.end_time_inclusive ⟨p.globalStartTime, p.duration⟩) ∧
      (∀ (a : TimeAction) (d : ℚ), frameOffset a = some d →
        ¬ RationalTime.lt ⟨p.currentTime.value + d, p.duration.rate⟩ p.globalStartTime →
        RationalTime.gt ⟨p.currentTime.value + d, p.duration.rate⟩
          (TimeRange.end_time_inclusive ⟨p.globalStartTime, p.duration⟩) →
        (timeAction now a p).currentTime = p.globalStartTime) ∧
      RationalTime.equal (loopTime p.inOutRange.start_time ⟨p.globalStartTime, p.duration⟩)
        (timeAction now TimeAction.Start p).currentTime ∧
      RationalTime.equal
        (loopTime p.inOutRange.end_time_inclusive ⟨p.globalStartTime, p.duration⟩)
        (timeAction now TimeAction.End p).currentTime ∧
      (inLoopRange ⟨p.globalStartTime, p.duration⟩ p.inOutRange.start_time →
        RationalTime.equal p.inOutRange.start_time
          (timeAction now TimeAction.Start p).currentTime) ∧
      (inLoopRange ⟨p.globalStartTime, p.duration⟩ p.inOutRange.end_time_inclusive →
        RationalTime.equal p.inOutRange.end_time_inclusive
          (timeAction now TimeAction.End p).currentTime) := by
  have hse := timeAction_start_end now p
  refine ⟨?_, ?_, ?_, hse.1, hse.2, ?_, ?_⟩
  · intro a d ha
    exact timeAction_frame_currentTime now a d p hc hg ha
  · intro a d ha hlt
    rw [timeAction_frame_currentTime now a d p hc hg ha]
    simp [loopTime, hlt]
  · intro a d ha hlt hgt
    rw [timeAction_frame_currentTime now a d p hc hg ha]
    simp [loopTime, hlt, hgt]
  · intro hin
    have h := hse.1
    rw [loopTime_eq_self _ _ hin] at h
    exact h
  · intro hin
    have h := hse.2
    rw [loopTime_eq_self _ _ hin] at h
    exact h

/-- Witness of C19 as amended, the unit test on the timeline of 48 frames at 24 frames per
second: from frame 1, End gives 47, Start gives 0, FrameNext gives 1, FrameNextX10 gives 11,
FrameNextX100 gives 0, FramePrev gives 47, FramePrevX10 gives 37 and FramePrevX100 gives
47. -/
theorem timeAction_current_time_witness :
    (timeAction 0 TimeAction.FrameNextX100
        (seek 0 ⟨11, 24⟩ (initPlayer ⟨0, 24⟩ ⟨48, 24⟩))).currentTime
        = loopTime ⟨111, 24⟩ ⟨⟨0, 24⟩, ⟨48, 24⟩⟩ ∧
      (timeAction 0 TimeAction.End
        (seek 0 ⟨1, 24⟩ (initPlayer ⟨0, 24⟩ ⟨48, 24⟩))).currentTime = ⟨47, 24⟩ ∧
      (timeAction 0 TimeAction.Start (timeAction 0 TimeAction.End
        (seek 0 ⟨1, 24⟩ (initPlayer ⟨0, 24⟩ ⟨48, 24⟩)))).currentTime = ⟨0, 24⟩ ∧
      (timeAction 0 TimeAction.FrameNext
        (initPlayer ⟨0, 24⟩ ⟨48, 24⟩)).currentTime = ⟨1, 24⟩ ∧
      (timeAction 0 TimeAction.FrameNextX10
        (seek 0 ⟨1, 24⟩ (initPlayer ⟨0, 24⟩ ⟨48, 24⟩))).currentTime = ⟨11, 24⟩ ∧
      (timeAction 0 TimeAction.FrameNextX100
        (seek 0 ⟨11, 24⟩ (initPlayer ⟨0, 24⟩ ⟨48, 24⟩))).currentTime = ⟨0, 24⟩ ∧
      (timeAction 0 TimeAction.FramePrev
        (initPlayer ⟨0, 24⟩ ⟨48, 24⟩)).currentTime = ⟨47, 24⟩ ∧
      (timeAction 0 TimeAction.FramePrevX10
        (seek 0 ⟨47, 24⟩ (initPlayer ⟨0, 24⟩ ⟨48, 24⟩))).currentTime = ⟨37, 24⟩ ∧
      (timeAction 0 TimeAction.FramePrevX100
        (seek 0 ⟨37, 24⟩ (initPlayer ⟨0, 24⟩ ⟨48, 24⟩))).currentTime = ⟨47, 24⟩ := by
  have h := (timeAction_current_time 0 (seek 0 ⟨11, 24⟩ (initPlayer ⟨0, 24⟩ ⟨48, 24⟩))
    (by decide!) (by decide!)).1 TimeAction.FrameNextX100 100 rfl
  have e : (⟨(seek 0 ⟨11, 24⟩ (initPlayer ⟨0, 24⟩ ⟨48, 24⟩)).currentTime.value + 100,
      (seek 0 ⟨11, 24⟩ (initPlayer ⟨0, 24⟩ ⟨48, 24⟩)).duration.rate⟩ : RationalTime)
      = ⟨111, 24⟩ := by decide!
  have e2 : (⟨(seek 0 ⟨11, 24⟩ (initPlayer ⟨0, 24⟩ ⟨48, 24⟩)).globalStartTime,
      (seek 0 ⟨11, 24⟩ (initPlayer ⟨0, 24⟩ ⟨48, 24⟩)).duration⟩ : TimeRange)
      = ⟨⟨0, 24⟩, ⟨48, 24⟩⟩ := by decide!
  rw [e, e2] at h
  exact ⟨h, by decide!, by decide!, by decide!, by decide!, by decide!, by decide!,
    by decide!, by decide!⟩

/-! ## Transitions -/

theorem sub_same_rate (a b q : ℚ) : RationalTime.sub ⟨a, q⟩ ⟨b, q⟩ = ⟨a - b, q⟩ := by
  simp [RationalTime.sub, RationalTime.value_rescaled_to]

theorem add_same_rate (a b q : ℚ) : RationalTime.add ⟨a, q⟩ ⟨b, q⟩ = ⟨b + a, q⟩ := by
  simp [RationalTime.add, RationalTime.value_rescaled_to]

theorem lt_same_rate (a b q : ℚ) (hq : 0 < q) :
    RationalTime.lt ⟨a, q⟩ ⟨b, q⟩ ↔ a < b := by
  rw [RationalTime.lt_iff]
  exact div_lt_div_iff_of_pos_right hq

theorem gt_same_rate (a b q : ℚ) (hq : 0 < q) :
    RationalTime.gt ⟨a, q⟩ ⟨b, q⟩ ↔ b < a := by
  unfold RationalTime.gt
  exact div_lt_div_iff_of_pos_right hq

theorem le_same_rate (a b q : ℚ) (hq : 0 < q) :
    RationalTime.le ⟨a, q⟩ ⟨b, q⟩ ↔ a ≤ b := by
  rw [RationalTime.le_iff]
  exact div_le_div_iff_of_pos_right hq

/-- A range at one positive rate contains the times from its start to before its start plus
its duration. -/
theorem contains_same_rate (s d t q : ℚ) (hq : 0 < q) :
    TimeRange.contains ⟨⟨s, q⟩, ⟨d, q⟩⟩ ⟨t, q⟩ ↔ s ≤ t ∧ t < s + d := by
  unfold TimeRange.contains
  rw [TimeRange.end_time_exclusive_eq]
  simp only [RationalTime.value_rescaled_to, if_true]
  rw [le_same_rate _ _ _ hq, lt_same_rate _ _ _ hq]

/-- The layer data of the track walk for two clips joined by a dissolve with the offsets 2
and 2, one frame before the last frame of the first clip. -/
theorem dissolve_walk (rs : ReadSystem) (q g : ℚ) (hq : 0 < q) (n1 : ℤ) (hn : 2 ≤ n1) (c1 c2 : Clip)
    (h1 : c1.source_range.duration = ⟨(n1 : ℚ), q⟩) (h2 : c2.source_range.duration.rate = q) :
    walkTracks rs ⟨g, q⟩
        [⟨TrackKind.video, [Composable.clip c1,
          Composable.transition ⟨"SMPTE_Dissolve", ⟨2, q⟩, ⟨2, q⟩⟩, Composable.clip c2]⟩]
        ⟨g + ((n1 : ℚ) - 2), q⟩
      = [⟨(match readVideoFrame rs ⟨TrackKind.video, [Composable.clip c1,
            Composable.transition ⟨"SMPTE_Dissolve", ⟨2, q⟩, ⟨2, q⟩⟩, Composable.clip c2]⟩ 0 c1
            ⟨(n1 : ℚ) - 2, q⟩ with
          | some outcome => outcome
          | none => ReadOutcome.exception),
          readVideoFrame rs ⟨TrackKind.video, [Composable.clip c1,
            Composable.transition ⟨"SMPTE_Dissolve", ⟨2, q⟩, ⟨2, q⟩⟩, Composable.clip c2]⟩ 2 c2
            ⟨(n1 : ℚ) - 2, q⟩,
          Transition.Dissolve, 1 / 5⟩] := by
  have hn' : (2 : ℚ) ≤ (n1 : ℚ) := by exact_mod_cast hn
  have ht : RationalTime.sub ⟨g + ((n1 : ℚ) - 2), q⟩ ⟨g, q⟩ = ⟨(n1 : ℚ) - 2, q⟩ := by
    rw [sub_same_rate]; congr 1; ring
  have hr0 : Track.range_of_child_at_index ⟨TrackKind.video, [Composable.clip c1,
      Composable.transition ⟨"SMPTE_Dissolve", ⟨2, q⟩, ⟨2, q⟩⟩, Composable.clip c2]⟩ 0
      = some ⟨⟨0, q⟩, ⟨(n1 : ℚ), q⟩⟩ := by
    simp [Track.range_of_child_at_index, Composable.duration, h1]
  have hr2 : Track.range_of_child_at_index ⟨TrackKind.video, [Composable.clip c1,
      Composable.transition ⟨"SMPTE_Dissolve", ⟨2, q⟩, ⟨2, q⟩⟩, Composable.clip c2]⟩ 2
      = some ⟨⟨(n1 : ℚ), q⟩, ⟨c2.source_range.duration.value, q⟩⟩ := by
    obtain ⟨id2, ⟨s2, ⟨d2v, d2r⟩⟩, w2⟩ := c2
    simp only at h2
    subst h2
    simp [Track.range_of_child_at_index, Composable.duration, Composable.overlapping, h1,
      RationalTime.add, RationalTime.value_rescaled_to]
  have hei : TimeRange.end_time_inclusive ⟨⟨0, q⟩, ⟨(n1 : ℚ), q⟩⟩ = ⟨(n1 : ℚ) - 1, q⟩ := by
    rw [TimeRange.end_time_inclusive_eq]
    have h1' : (n1 : ℚ) > 1 := by linarith
    have h2' : ¬ (n1 : ℚ) ≠ ((⌊(n1 : ℚ)⌋ : ℤ) : ℚ) := by
      rw [Int.floor_intCast]; simp
    simp only [if_pos h1', if_neg h2', RationalTime.value_rescaled_to, if_true, zero_add]
  have hc0 : clipLayerData rs ⟨TrackKind.video, [Composable.clip c1,
      Composable.transition ⟨"SMPTE_Dissolve", ⟨2, q⟩, ⟨2, q⟩⟩, Composable.clip c2]⟩ 0 c1
      ⟨(n1 : ℚ) - 2, q⟩
      = some ⟨(match readVideoFrame rs ⟨TrackKind.video, [Composable.clip c1,
            Composable.transition ⟨"SMPTE_Dissolve", ⟨2, q⟩, ⟨2, q⟩⟩, Composable.clip c2]⟩ 0 c1
            ⟨(n1 : ℚ) - 2, q⟩ with
          | some outcome => outcome
          | none => ReadOutcome.exception),
          readVideoFrame rs ⟨TrackKind.video, [Composable.clip c1,
            Composable.transition ⟨"SMPTE_Dissolve", ⟨2, q⟩, ⟨2, q⟩⟩, Composable.clip c2]⟩ 2 c2
            ⟨(n1 : ℚ) - 2, q⟩,
          Transition.Dissolve, 1 / 5⟩ := by
    have hcont : TimeRange.contains ⟨⟨0, q⟩, ⟨(n1 : ℚ), q⟩⟩ ⟨(n1 : ℚ) - 2, q⟩ := by
      rw [contains_same_rate _ _ _ _ hq]
      constructor <;> linarith
    have hgt : RationalTime.gt ⟨(n1 : ℚ) - 2, q⟩ ⟨(n1 : ℚ) - 1 - 2, q⟩ := by
      rw [gt_same_rate _ _ _ hq]; linarith
    simp only [clipLayerData, hr0, if_pos hcont, outgoingTransition, incomingTransition,
      Track.neighbors_of, hei]
    simp [toTransition, sub_same_rate, hgt]
    norm_num
  have hc2 : clipLayerData rs ⟨TrackKind.video, [Composable.clip c1,
      Composable.transition ⟨"SMPTE_Dissolve", ⟨2, q⟩, ⟨2, q⟩⟩, Composable.clip c2]⟩ 2 c2
      ⟨(n1 : ℚ) - 2, q⟩ = none := by
    have hcont : ¬ TimeRange.contains ⟨⟨(n1 : ℚ), q⟩, ⟨c2.source_range.duration.value, q⟩⟩
        ⟨(n1 : ℚ) - 2, q⟩ := by
      rw [contains_same_rate _ _ _ _ hq]
      intro h
      linarith [h.1]
    simp only [clipLayerData, hr2, if_neg hcont]
  simp [walkTracks, trackLayerData, ht, List.range_succ, hc0, hc2]

/-- C20, the claim as stated fails: for two clips of 24 frames at 24 frames per second joined
by a dissolve with in-offset 2 and out-offset 2, the frame requested at frame 22, one frame
before the last frame of the first clip, has one layer, and its transition value is 1/5 and
not 2/5. -/
theorem dissolve_value_counterexample :
    (composeFrame ⟨fun _ => some ⟨24, 24⟩, fun id _ => ReadOutcome.value id⟩ ⟨0, 24⟩
        [⟨TrackKind.video, [Composable.clip ⟨1, ⟨⟨0, 24⟩, ⟨24, 24⟩⟩, []⟩,
          Composable.transition ⟨"SMPTE_Dissolve", ⟨2, 24⟩, ⟨2, 24⟩⟩,
          Composable.clip ⟨2, ⟨⟨0, 24⟩, ⟨24, 24⟩⟩, []⟩]⟩] ⟨22, 24⟩).layers
        = [⟨1, some 2, Transition.Dissolve, 1 / 5⟩] ∧
      (composeFrame ⟨fun _ => some ⟨24, 24⟩, fun id _ => ReadOutcome.value id⟩ ⟨0, 24⟩
        [⟨TrackKind.video, [Composable.clip ⟨1, ⟨⟨0, 24⟩, ⟨24, 24⟩⟩, []⟩,
          Composable.transition ⟨"SMPTE_Dissolve", ⟨2, 24⟩, ⟨2, 24⟩⟩,
          Composable.clip ⟨2, ⟨⟨0, 24⟩, ⟨24, 24⟩⟩, []⟩]⟩] ⟨22, 24⟩).layers.map
          FrameLayer.transitionValue ≠ [2 / 5] := by
  decide!

/-- C20 as amended: for two clips joined by a dissolve with in-offset 2 and out-offset 2
frames, at one positive rate, the first clip lasting `n1 >= 2` whole frames, the frame
requested one frame before the last frame of the first clip has exactly one layer data, that
of the first clip, with the second image requested from the second clip, the transition
Dissolve and the transition value `1 / (2 + 2 + 1) = 1/5`; when both reads succeed this is
the one layer of the frame. -/
theorem dissolve_value (rs : ReadSystem) (q g : ℚ) (hq : 0 < q) (n1 : ℤ) (hn : 2 ≤ n1)
    (c1 c2 : Clip) (h1 : c1.source_range.duration = ⟨(n1 : ℚ), q⟩)
    (h2 : c2.source_range.duration.rate = q) :
    walkTracks rs ⟨g, q⟩
        [⟨TrackKind.video, [Composable.clip c1,
          Composable.transition ⟨"SMPTE_Dissolve", ⟨2, q⟩, ⟨2, q⟩⟩, Composable.clip c2]⟩]
        ⟨g + ((n1 : ℚ) - 2), q⟩
        = [⟨(match readVideoFrame rs ⟨TrackKind.video, [Composable.clip c1,
              Composable.transition ⟨"SMPTE_Dissolve", ⟨2, q⟩, ⟨2, q⟩⟩, Composable.clip c2]⟩
              0 c1 ⟨(n1 : ℚ) - 2, q⟩ with
            | some outcome => outcome
            | none => ReadOutcome.exception),
            readVideoFrame rs ⟨TrackKind.video, [Composable.clip c1,
              Composable.transition ⟨"SMPTE_Dissolve", ⟨2, q⟩, ⟨2, q⟩⟩, Composable.clip c2]⟩
              2 c2 ⟨(n1 : ℚ) - 2, q⟩,
            Transition.Dissolve, 1 / (2 + 2 + 1)⟩] ∧
      ∀ image imageB : Image,
        readVideoFrame rs ⟨TrackKind.video, [Composable.clip c1,
            Composable.transition ⟨"SMPTE_Dissolve", ⟨2, q⟩, ⟨2, q⟩⟩, Composable.clip c2]⟩
            0 c1 ⟨(n1 : ℚ) - 2, q⟩ = some (ReadOutcome.value image) →
        readVideoFrame rs ⟨TrackKind.video, [Composable.clip c1,
            Composable.transition ⟨"SMPTE_Dissolve", ⟨2, q⟩, ⟨2, q⟩⟩, Composable.clip c2]⟩
            2 c2 ⟨(n1 : ℚ) - 2, q⟩ = some (ReadOutcome.value imageB) →
        composeFrame rs ⟨g, q⟩
            [⟨TrackKind.video, [Composable.clip c1,
              Composable.transition ⟨"SMPTE_Dissolve", ⟨2, q⟩, ⟨2, q⟩⟩, Composable.clip c2]⟩]
            ⟨g + ((n1 : ℚ) - 2), q⟩
          = ⟨⟨g + ((n1 : ℚ) - 2), q⟩, [⟨image, some imageB, Transition.Dissolve, 1 / 5⟩]⟩ := by
  have hw := dissolve_walk rs q g hq n1 hn c1 c2 h1 h2
  have e : (1 : ℚ) / (2 + 2 + 1) = 1 / 5 := by norm_num
  refine ⟨?_, ?_⟩
  · rw [hw, e]
  · intro image imageB hi hb
    simp only [composeFrame, hw, hi, hb]
    simp [frameRequests, assembleLayers]

/-- Witness of C20 as amended: two clips of 24 frames at 24 frames per second, the request
for frame 22. -/
theorem dissolve_value_witness :
    composeFrame ⟨fun _ => some ⟨24, 24⟩, fun id _ => ReadOutcome.value id⟩ ⟨0, 24⟩
        [⟨TrackKind.video, [Composable.clip ⟨1, ⟨⟨0, 24⟩, ⟨24, 24⟩⟩, []⟩,
          Composable.transition ⟨"SMPTE_Dissolve", ⟨2, 24⟩, ⟨2, 24⟩⟩,
          Composable.clip ⟨2, ⟨⟨0, 24⟩, ⟨24, 24⟩⟩, []⟩]⟩] ⟨0 + (((24 : ℤ) : ℚ) - 2), 24⟩
      = ⟨⟨0 + (((24 : ℤ) : ℚ) - 2), 24⟩, [⟨1, some 2, Transition.Dissolve, 1 / 5⟩]⟩ :=
  (dissolve_value ⟨fun _ => some ⟨24, 24⟩, fun id _ => ReadOutcome.value id⟩ 24 0
    (by norm_num) 24 (by norm_num) ⟨1, ⟨⟨0, 24⟩, ⟨24, 24⟩⟩, []⟩ ⟨2, ⟨⟨0, 24⟩, ⟨24, 24⟩⟩, []⟩
    (by simp) rfl).2 1 2 (by decide!) (by decide!)

/-! ## Transition values -/

/-- The inclusive end of a range at one rate is at that rate and at most one frame before the
exclusive end. -/
theorem end_time_inclusive_same_rate (s d q : ℚ) :
    ∃ ev : ℚ, TimeRange.end_time_inclusive ⟨⟨s, q⟩, ⟨d, q⟩⟩ = ⟨ev, q⟩ ∧ s + d - 1 ≤ ev := by
  rw [TimeRange.end_time_inclusive_eq]
  simp only [RationalTime.value_rescaled_to, if_true]
  by_cases h1 : d > 1
  · by_cases h2 : d ≠ ((⌊d⌋ : ℤ) : ℚ)
    · refine ⟨((⌊s + d⌋ : ℤ) : ℚ), ?_, ?_⟩
      · simp only [if_pos h1, if_pos h2]
      · have := Int.sub_one_lt_floor (s + d)
        linarith
    · refine ⟨s + d - 1, ?_, ?_⟩
      · simp only [if_pos h1, if_neg h2]
      · linarith
  · refine ⟨s, ?_, ?_⟩
    · simp only [if_neg h1]
    · linarith

/-- The value that the block of the outgoing transition assigns lies between 0 and 1. -/
theorem outgoingTransition_bounds (rs : ReadSystem) (track : Track) (index : ℕ)
    (q s d t : ℚ) (hq : 0 < q) (ht : t < s + d)
    (hright : ∀ tr, (track.neighbors_of index).2 = some (Composable.transition tr) →
      tr.in_offset.rate = q ∧ tr.out_offset.rate = q ∧
        0 ≤ tr.in_offset.value ∧ 0 ≤ tr.out_offset.value)
    (b : LayerB)
    (hb : outgoingTransition rs track index ⟨⟨s, q⟩, ⟨d, q⟩⟩ ⟨t, q⟩ = some b) :
    0 ≤ b.transitionValue ∧ b.transitionValue ≤ 1 := by
  obtain ⟨ev, hev, hle⟩ := end_time_inclusive_same_rate s d q
  unfold outgoingTransition at hb
  rw [hev] at hb
  split at hb
  · rename_i transition hn
    obtain ⟨h1, h2, h3, h4⟩ := hright transition hn
    obtain ⟨ty, ⟨a, ra⟩, ⟨c, rc⟩⟩ := transition
    simp only at h1 h2 h3 h4
    subst h1
    simp only [sub_same_rate] at hb
    split at hb
    · rename_i hgt
      rw [gt_same_rate _ _ _ hq] at hgt
      split at hb
      · simp only [Option.some.injEq] at hb
        subst hb
        simp only
        have hD : 0 < a + c + 1 := by linarith
        constructor
        · apply div_nonneg <;> linarith
        · rw [div_le_one hD]; linarith
      · simp at hb
    · simp at hb
  · simp at hb

/-- The value that the block of the incoming transition assigns lies between 0 and 1. -/
theorem incomingTransition_bounds (rs : ReadSystem) (track : Track) (index : ℕ)
    (q s d t : ℚ) (hq : 0 < q) (ht : s ≤ t)
    (hleft : ∀ tr, (track.neighbors_of index).1 = some (Composable.transition tr) →
      tr.in_offset.rate = q ∧ tr.out_offset.rate = q ∧
        0 ≤ tr.in_offset.value ∧ 0 ≤ tr.out_offset.value)
    (b : LayerB)
    (hb : incomingTransition rs track index ⟨⟨s, q⟩, ⟨d, q⟩⟩ ⟨t, q⟩ = some b) :
    0 ≤ b.transitionValue ∧ b.transitionValue ≤ 1 := by
  unfold incomingTransition at hb
  split at hb
  · rename_i transition hn
    obtain ⟨h1, h2, h3, h4⟩ := hleft transition hn
    obtain ⟨ty, ⟨a, ra⟩, ⟨c, rc⟩⟩ := transition
    simp only at h1 h2 h3 h4
    subst h1
    subst h2
    simp only [sub_same_rate, add_same_rate] at hb
    split at hb
    · rename_i hlt
      rw [lt_same_rate _ _ _ hq] at hlt
      split at hb
      · simp only [Option.some.injEq] at hb
        subst hb
        simp only
        have hD : 0 < a + c + 1 := by linarith
        constructor
        · rw [sub_nonneg, div_le_one hD]; linarith
        · have : 0 ≤ (a + (t - s) + 1) / (a + c + 1) := by
            apply div_nonneg <;> linarith
          linarith
      · simp at hb
    · simp at hb
  · simp at hb

/-- C21, the claim as stated fails: for a clip of 24 frames at rate 24, a dissolve with the
offsets 2 and 2 at rate 24 and a clip of 72 frames at rate 72, the layer of the first clip
at the time 71 at rate 72, inside its range, has the transition value 8/5, and the layer of
the second clip at the time 72 at rate 72, the start of its range, has -2/5: the values of
times at different rates are subtracted and divided without a common unit. -/
theorem transition_value_rate_counterexample :
    (clipLayerData ⟨fun _ => some ⟨24, 24⟩, fun id _ => ReadOutcome.value id⟩
        ⟨TrackKind.video, [Composable.clip ⟨1, ⟨⟨0, 24⟩, ⟨24, 24⟩⟩, []⟩,
          Composable.transition ⟨"SMPTE_Dissolve", ⟨2, 24⟩, ⟨2, 24⟩⟩,
          Composable.clip ⟨2, ⟨⟨0, 72⟩, ⟨72, 72⟩⟩, []⟩]⟩ 0 ⟨1, ⟨⟨0, 24⟩, ⟨24, 24⟩⟩, []⟩
        ⟨71, 72⟩).map LayerData.transitionValue = some (8 / 5) ∧
      (clipLayerData ⟨fun _ => some ⟨24, 24⟩, fun id _ => ReadOutcome.value id⟩
        ⟨TrackKind.video, [Composable.clip ⟨1, ⟨⟨0, 24⟩, ⟨24, 24⟩⟩, []⟩,
          Composable.transition ⟨"SMPTE_Dissolve", ⟨2, 24⟩, ⟨2, 24⟩⟩,
          Composable.clip ⟨2, ⟨⟨0, 72⟩, ⟨72, 72⟩⟩, []⟩]⟩ 2 ⟨2, ⟨⟨0, 72⟩, ⟨72, 72⟩⟩, []⟩
        ⟨72, 72⟩).map LayerData.transitionValue = some (-2 / 5) ∧
      ¬ ((8 / 5 : ℚ) ≤ 1) ∧ ¬ ((0 : ℚ) ≤ -2 / 5) ∧
      TimeRange.contains ⟨⟨0, 24⟩, ⟨24, 24⟩⟩ ⟨71, 72⟩ := by
  decide!

/-- C21 as amended: for a clip whose range in the track and whose neighbouring transitions are
at one positive rate, the offsets of the transitions not negative, and for every time at
that rate for which the walk makes a layer of the clip (the times inside the range of the
clip), the transition value of the layer lies between 0 and 1, over exact rationals,
whichever of the two transition blocks assigned it. -/
theorem transition_value_bounds (rs : ReadSystem) (track : Track) (index : ℕ) (clip : Clip)
    (q s d t : ℚ) (hq : 0 < q)
    (hr : track.range_of_child_at_index index = some ⟨⟨s, q⟩, ⟨d, q⟩⟩)
    (hleft : ∀ tr, (track.neighbors_of index).1 = some (Composable.transition tr) →
      tr.in_offset.rate = q ∧ tr.out_offset.rate = q ∧
        0 ≤ tr.in_offset.value ∧ 0 ≤ tr.out_offset.value)
    (hright : ∀ tr, (track.neighbors_of index).2 = some (Composable.transition tr) →
      tr.in_offset.rate = q ∧ tr.out_offset.rate = q ∧
        0 ≤ tr.in_offset.value ∧ 0 ≤ tr.out_offset.value)
    (layer : LayerData) (hl : clipLayerData rs track index clip ⟨t, q⟩ = some layer) :
    0 ≤ layer.transitionValue ∧ layer.transitionValue ≤ 1 := by
  unfold clipLayerData at hl
  rw [hr] at hl
  simp only at hl
  split at hl
  · rename_i hcont
    rw [contains_same_rate _ _ _ _ hq] at hcont
    simp only [Option.some.injEq] at hl
    subst hl
    simp only
    cases hi : incomingTransition rs track index ⟨⟨s, q⟩, ⟨d, q⟩⟩ ⟨t, q⟩ with
    | some b => exact incomingTransition_bounds rs track index q s d t hq hcont.1 hleft b hi
    | none =>
      cases ho : outgoingTransition rs track index ⟨⟨s, q⟩, ⟨d, q⟩⟩ ⟨t, q⟩ with
      | some b => exact outgoingTransition_bounds rs track index q s d t hq hcont.2 hright b ho
      | none => simp
  · simp at hl

/-- Witness of C21 as amended: the clip of three frames between two transitions, at frame 25
where both transition blocks fire; the transition value of the layer is 1/4. -/
theorem transition_value_bounds_witness :
    clipLayerData ⟨fun _ => some ⟨24, 24⟩, fun id _ => ReadOutcome.value id⟩
        ⟨TrackKind.video, [Composable.clip ⟨1, ⟨⟨0, 24⟩, ⟨24, 24⟩⟩, []⟩,
          Composable.transition ⟨"Custom", ⟨1, 24⟩, ⟨2, 24⟩⟩,
          Composable.clip ⟨2, ⟨⟨0, 24⟩, ⟨3, 24⟩⟩, []⟩,
          Composable.transition ⟨"SMPTE_Dissolve", ⟨2, 24⟩, ⟨2, 24⟩⟩,
          Composable.clip ⟨3, ⟨⟨0, 24⟩, ⟨24, 24⟩⟩, []⟩]⟩ 2 ⟨2, ⟨⟨0, 24⟩, ⟨3, 24⟩⟩, []⟩ ⟨25, 24⟩
        = some ⟨ReadOutcome.value 2, some (ReadOutcome.value 1), Transition.None, 1 / 4⟩ ∧
      (0 : ℚ) ≤ 1 / 4 ∧ (1 / 4 : ℚ) ≤ 1 :=
  ⟨by decide!,
    transition_value_bounds ⟨fun _ => some ⟨24, 24⟩, fun id _ => ReadOutcome.value id⟩
      ⟨TrackKind.video, [Composable.clip ⟨1, ⟨⟨0, 24⟩, ⟨24, 24⟩⟩, []⟩,
        Composable.transition ⟨"Custom", ⟨1, 24⟩, ⟨2, 24⟩⟩,
        Composable.clip ⟨2, ⟨⟨0, 24⟩, ⟨3, 24⟩⟩, []⟩,
        Composable.transition ⟨"SMPTE_Dissolve", ⟨2, 24⟩, ⟨2, 24⟩⟩,
        Composable.clip ⟨3, ⟨⟨0, 24⟩, ⟨24, 24⟩⟩, []⟩]⟩ 2 ⟨2, ⟨⟨0, 24⟩, ⟨3, 24⟩⟩, []⟩
      24 24 3 25 (by norm_num) (by decide!)
      (by
        intro tr h
        have e : tr = ⟨"Custom", ⟨1, 24⟩, ⟨2, 24⟩⟩ := by
          simp [Track.neighbors_of] at h
          exact h.symm
        subst e
        norm_num)
      (by
        intro tr h
        have e : tr = ⟨"SMPTE_Dissolve", ⟨2, 24⟩, ⟨2, 24⟩⟩ := by
          simp [Track.neighbors_of] at h
          exact h.symm
        subst e
        norm_num)
      ⟨ReadOutcome.value 2, some (ReadOutcome.value 1), Transition.None, 1 / 4⟩ (by decide!)⟩

/-- C22, the claim as stated fails: on a track where a clip of three frames stands between
two transitions, at frame 25 both transition blocks fire; the outgoing block gives the image
of the clip to the right, Dissolve and 1/5, the incoming block gives the image of the clip
to the left, no transition and 1/4, and the layer holds what the incoming block gave. -/
theorem tie_break_counterexample :
    outgoingTransition ⟨fun _ => some ⟨24, 24⟩, fun id _ => ReadOutcome.value id⟩
        ⟨TrackKind.video, [Composable.clip ⟨1, ⟨⟨0, 24⟩, ⟨24, 24⟩⟩, []⟩,
          Composable.transition ⟨"Custom", ⟨1, 24⟩, ⟨2, 24⟩⟩,
          Composable.clip ⟨2, ⟨⟨0, 24⟩, ⟨3, 24⟩⟩, []⟩,
          Composable.transition ⟨"SMPTE_Dissolve", ⟨2, 24⟩, ⟨2, 24⟩⟩,
          Composable.clip ⟨3, ⟨⟨0, 24⟩, ⟨24, 24⟩⟩, []⟩]⟩ 2 ⟨⟨24, 24⟩, ⟨3, 24⟩⟩ ⟨25, 24⟩
        = some ⟨some (ReadOutcome.value 3), Transition.Dissolve, 1 / 5⟩ ∧
      incomingTransition ⟨fun _ => some ⟨24, 24⟩, fun id _ => ReadOutcome.value id⟩
        ⟨TrackKind.video, [Composable.clip ⟨1, ⟨⟨0, 24⟩, ⟨24, 24⟩⟩, []⟩,
          Composable.transition ⟨"Custom", ⟨1, 24⟩, ⟨2, 24⟩⟩,
          Composable.clip ⟨2, ⟨⟨0, 24⟩, ⟨3, 24⟩⟩, []⟩,
          Composable.transition ⟨"SMPTE_Dissolve", ⟨2, 24⟩, ⟨2, 24⟩⟩,
          Composable.clip ⟨3, ⟨⟨0, 24⟩, ⟨24, 24⟩⟩, []⟩]⟩ 2 ⟨⟨24, 24⟩, ⟨3, 24⟩⟩ ⟨25, 24⟩
        = some ⟨some (ReadOutcome.value 1), Transition.None, 1 / 4⟩ ∧
      (composeFrame ⟨fun _ => some ⟨24, 24⟩, fun id _ => ReadOutcome.value id⟩ ⟨0, 24⟩
        [⟨TrackKind.video, [Composable.clip ⟨1, ⟨⟨0, 24⟩, ⟨24, 24⟩⟩, []⟩,
          Composable.transition ⟨"Custom", ⟨1, 24⟩, ⟨2, 24⟩⟩,
          Composable.clip ⟨2, ⟨⟨0, 24⟩, ⟨3, 24⟩⟩, []⟩,
          Composable.transition ⟨"SMPTE_Dissolve", ⟨2, 24⟩, ⟨2, 24⟩⟩,
          Composable.clip ⟨3, ⟨⟨0, 24⟩, ⟨24, 24⟩⟩, []⟩]⟩] ⟨25, 24⟩).layers
        = [⟨2, some 1, Transition.None, 1 / 4⟩] ∧
      Track.range_of_child_at_index
        ⟨TrackKind.video, [Composable.clip ⟨1, ⟨⟨0, 24⟩, ⟨24, 24⟩⟩, []⟩,
          Composable.transition ⟨"Custom", ⟨1, 24⟩, ⟨2, 24⟩⟩,
          Composable.clip ⟨2, ⟨⟨0, 24⟩, ⟨3, 24⟩⟩, []⟩,
          Composable.transition ⟨"SMPTE_Dissolve", ⟨2, 24⟩, ⟨2, 24⟩⟩,
          Composable.clip ⟨3, ⟨⟨0, 24⟩, ⟨24, 24⟩⟩, []⟩]⟩ 2 = some ⟨⟨24, 24⟩, ⟨3, 24⟩⟩ := by
  decide!

/-- C22 as amended: when the walk makes a layer of a clip, the second image, the transition
and the transition value of the layer are those that the block of the incoming (left)
transition assigns whenever that block fires, also when the block of the outgoing (right)
transition fired before it; they are those of the outgoing block only when the incoming
block does not fire, and no image, no transition and 0 when neither fires. -/
theorem tie_break_incoming (rs : ReadSystem) (track : Track) (index : ℕ) (clip : Clip)
    (time : RationalTime) (layer : LayerData)
    (hl : clipLayerData rs track index clip time = some layer) :
    ∃ range, track.range_of_child_at_index index = some range ∧
      (∀ b, incomingTransition rs track index range time = some b →
        layer.imageB = b.imageB ∧ layer.transition = b.transition ∧
          layer.transitionValue = b.transitionValue) ∧
      (incomingTransition rs track index range time = none →
        ∀ b, outgoingTransition rs track index range time = some b →
          layer.imageB = b.imageB ∧ layer.transition = b.transition ∧
            layer.transitionValue = b.transitionValue) ∧
      (incomingTransition rs track index range time = none →
        outgoingTransition rs track index range time = none →
          layer.imageB = none ∧ layer.transition = Transition.None ∧
            layer.transitionValue = 0) := by
  unfold clipLayerData at hl
  cases hr : track.range_of_child_at_index index with
  | none => rw [hr] at hl; simp at hl
  | some range =>
    rw [hr] at hl
    simp only at hl
    split at hl
    · simp only [Option.some.injEq] at hl
      subst hl
      refine ⟨range, rfl, ?_, ?_, ?_⟩
      · intro b hb
        simp [hb]
      · intro hi b hb
        simp [hi, hb]
      · intro hi ho
        simp [hi, ho]
    · simp at hl

/-- Witness of C22 as amended: the clip of three frames between two transitions at frame 25,
where both blocks fire. -/
theorem tie_break_incoming_witness :
    ∃ range, Track.range_of_child_at_index
        ⟨TrackKind.video, [Composable.clip ⟨1, ⟨⟨0, 24⟩, ⟨24, 24⟩⟩, []⟩,
          Composable.transition ⟨"Custom", ⟨1, 24⟩, ⟨2, 24⟩⟩,
          Composable.clip ⟨2, ⟨⟨0, 24⟩, ⟨3, 24⟩⟩, []⟩,
          Composable.transition ⟨"SMPTE_Dissolve", ⟨2, 24⟩, ⟨2, 24⟩⟩,
          Composable.clip ⟨3, ⟨⟨0, 24⟩, ⟨24, 24⟩⟩, []⟩]⟩ 2 = some range ∧
      (∀ b, incomingTransition ⟨fun _ => some ⟨24, 24⟩, fun id _ => ReadOutcome.value id⟩
          ⟨TrackKind.video, [Composable.clip ⟨1, ⟨⟨0, 24⟩, ⟨24, 24⟩⟩, []⟩,
            Composable.transition ⟨"Custom", ⟨1, 24⟩, ⟨2, 24⟩⟩,
            Composable.clip ⟨2, ⟨⟨0, 24⟩, ⟨3, 24⟩⟩, []⟩,
            Composable.transition ⟨"SMPTE_Dissolve", ⟨2, 24⟩, ⟨2, 24⟩⟩,
            Composable.clip ⟨3, ⟨⟨0, 24⟩, ⟨24, 24⟩⟩, []⟩]⟩ 2 range ⟨25, 24⟩ = some b →
        (some (ReadOutcome.value 1) : Option ReadOutcome) = b.imageB ∧
          Transition.None = b.transition ∧ (1 / 4 : ℚ) = b.transitionValue) :=
  let ⟨range, h, hi, _⟩ := tie_break_incoming
    ⟨fun _ => some ⟨24, 24⟩, fun id _ => ReadOutcome.value id⟩
    ⟨TrackKind.video, [Composable.clip ⟨1, ⟨⟨0, 24⟩, ⟨24, 24⟩⟩, []⟩,
      Composable.transition ⟨"Custom", ⟨1, 24⟩, ⟨2, 24⟩⟩,
      Composable.clip ⟨2, ⟨⟨0, 24⟩, ⟨3, 24⟩⟩, []⟩,
      Composable.transition ⟨"SMPTE_Dissolve", ⟨2, 24⟩, ⟨2, 24⟩⟩,
      Composable.clip ⟨3, ⟨⟨0, 24⟩, ⟨24, 24⟩⟩, []⟩]⟩ 2 ⟨2, ⟨⟨0, 24⟩, ⟨3, 24⟩⟩, []⟩ ⟨25, 24⟩
    ⟨ReadOutcome.value 2, some (ReadOutcome.value 1), Transition.None, 1 / 4⟩ (by decide!)
  ⟨range, h, hi⟩

theorem end_time_inclusive_whole (s q : ℚ) (n : ℤ) (hn : 1 ≤ n) :
    TimeRange.end_time_inclusive ⟨⟨s, q⟩, ⟨(n : ℚ), q⟩⟩ = ⟨s + (n : ℚ) - 1, q⟩ := by
  rw [TimeRange.end_time_inclusive_eq]
  have h2' : ¬ (n : ℚ) ≠ ((⌊(n : ℚ)⌋ : ℤ) : ℚ) := by
    rw [Int.floor_intCast]; simp
  simp only [if_neg h2', RationalTime.value_rescaled_to, if_true]
  by_cases h1 : (n : ℚ) > 1
  · simp only [if_pos h1]
  · simp only [if_neg h1]
    have : (n : ℚ) ≤ 1 := not_lt.mp h1
    have h1n : (1 : ℚ) ≤ (n : ℚ) := by exact_mod_cast hn
    have : (n : ℚ) = 1 := le_antisymm this h1n
    rw [this]; congr 1; ring

/-- The clip after a clip and a transition starts where the first clip ends. -/
theorem range_of_child_after_transition (track : Track) (i : ℕ) (q s d dB : ℚ)
    (cA cB : Clip) (tr : TransitionItem)
    (h0 : track.children.get? i = some (Composable.clip cA))
    (h1 : track.children.get? (i + 1) = some (Composable.transition tr))
    (h2 : track.children.get? (i + 2) = some (Composable.clip cB))
    (hB : cB.source_range.duration = ⟨dB, q⟩)
    (hs : track.range_of_child_at_index i = some ⟨⟨s, q⟩, ⟨d, q⟩⟩) :
    track.range_of_child_at_index (i + 2) = some ⟨⟨d + s, q⟩, ⟨dB, q⟩⟩ := by
  have hdB : (Composable.clip cB).duration = ⟨dB, q⟩ := hB
  unfold Track.range_of_child_at_index at hs ⊢
  rw [h0] at hs
  rw [h2]
  simp only [Option.some.injEq, TimeRange.mk.injEq] at hs ⊢
  obtain ⟨hs1, hs2⟩ := hs
  rw [hs2] at hs1
  rw [hdB]
  simp only [and_true]
  rw [List.get?_eq_getElem?] at h0 h1
  rw [show i + 2 = (i + 1) + 1 from rfl, List.take_succ, List.take_succ, h1, h0]
  simp only [Option.toList, List.foldl_append, List.foldl_cons, List.foldl_nil]
  rw [hs1, hs2]
  simp [Composable.overlapping, add_same_rate]

/-- C29, the claim as stated fails: on the track where the clip A of the three frames 24 to
26 has a transition on both sides, A is joined to the clip B after it by a dissolve with the
offsets 2 and 2 and B starts at frame 27, one frame after the inclusive end 26 of A. At
frame 25, one of the blended frames of A, the ramp is `(25 - (26 - 2)) / 5 = 1/5`, but the
layer of A holds the image of the clip to the left of A and the transition value 1/4: the
block of the left transition has overwritten what the block of the dissolve assigned. -/
theorem dissolve_ramp_counterexample :
    clipLayerData ⟨fun _ => some ⟨24, 24⟩, fun id _ => ReadOutcome.value id⟩
        ⟨TrackKind.video, [Composable.clip ⟨1, ⟨⟨0, 24⟩, ⟨24, 24⟩⟩, []⟩,
          Composable.transition ⟨"Custom", ⟨1, 24⟩, ⟨2, 24⟩⟩,
          Composable.clip ⟨2, ⟨⟨0, 24⟩, ⟨3, 24⟩⟩, []⟩,
          Composable.transition ⟨"SMPTE_Dissolve", ⟨2, 24⟩, ⟨2, 24⟩⟩,
          Composable.clip ⟨3, ⟨⟨0, 24⟩, ⟨24, 24⟩⟩, []⟩]⟩ 2 ⟨2, ⟨⟨0, 24⟩, ⟨3, 24⟩⟩, []⟩ ⟨25, 24⟩
        = some ⟨ReadOutcome.value 2, some (ReadOutcome.value 1), Transition.None, 1 / 4⟩ ∧
      rampWeight 2 2 26 25 = 1 / 5 ∧
      (Track.range_of_child_at_index
        ⟨TrackKind.video, [Composable.clip ⟨1, ⟨⟨0, 24⟩, ⟨24, 24⟩⟩, []⟩,
          Composable.transition ⟨"Custom", ⟨1, 24⟩, ⟨2, 24⟩⟩,
          Composable.clip ⟨2, ⟨⟨0, 24⟩, ⟨3, 24⟩⟩, []⟩,
          Composable.transition ⟨"SMPTE_Dissolve", ⟨2, 24⟩, ⟨2, 24⟩⟩,
          Composable.clip ⟨3, ⟨⟨0, 24⟩, ⟨24, 24⟩⟩, []⟩]⟩ 2).map TimeRange.end_time_inclusive
        = some ⟨26, 24⟩ ∧
      (Track.range_of_child_at_index
        ⟨TrackKind.video, [Composable.clip ⟨1, ⟨⟨0, 24⟩, ⟨24, 24⟩⟩, []⟩,
          Composable.transition ⟨"Custom", ⟨1, 24⟩, ⟨2, 24⟩⟩,
          Composable.clip ⟨2, ⟨⟨0, 24⟩, ⟨3, 24⟩⟩, []⟩,
          Composable.transition ⟨"SMPTE_Dissolve", ⟨2, 24⟩, ⟨2, 24⟩⟩,
          Composable.clip ⟨3, ⟨⟨0, 24⟩, ⟨24, 24⟩⟩, []⟩]⟩ 4).map TimeRange.start_time
        = some ⟨27, 24⟩ := by
  decide!

/-- C29 as amended: for two clips A and B of a track joined by a transition with the offsets `a` and
`b`, not negative, all at one positive rate, A starting at `s` and lasting `nA` whole frames:
the inclusive end of A is `s + nA - 1` and B starts one frame later; at every time of A
after the start of the transition, when no transition to the left of A fires, the transition
value of the layer of A is the ramp `(t - (A.end_inclusive - a)) / (a + b + 1)`; at every
time of B before the end of the transition one minus the transition value of the layer of B
is the same ramp; and the ramp rises by `1 / (a + b + 1)` per frame. -/
theorem dissolve_ramp (rs : ReadSystem) (track : Track) (i : ℕ) (q : ℚ) (hq : 0 < q)
    (s : ℚ) (nA : ℤ) (hn : 1 ≤ nA) (a b dB : ℚ) (ha : 0 ≤ a) (hb : 0 ≤ b) (ty : String)
    (cA cB : Clip)
    (h0 : track.children.get? i = some (Composable.clip cA))
    (h1 : track.children.get? (i + 1) = some (Composable.transition ⟨ty, ⟨a, q⟩, ⟨b, q⟩⟩))
    (h2 : track.children.get? (i + 2) = some (Composable.clip cB))
    (hB : cB.source_range.duration = ⟨dB, q⟩)
    (hs : track.range_of_child_at_index i = some ⟨⟨s, q⟩, ⟨(nA : ℚ), q⟩⟩) :
    (track.range_of_child_at_index i).map TimeRange.end_time_inclusive
        = some ⟨s + (nA : ℚ) - 1, q⟩ ∧
      (track.range_of_child_at_index (i + 2)).map TimeRange.start_time
        = some ⟨s + (nA : ℚ) - 1 + 1, q⟩ ∧
      (∀ t : ℚ, s ≤ t → t < s + (nA : ℚ) → s + (nA : ℚ) - 1 - a < t →
        incomingTransition rs track i ⟨⟨s, q⟩, ⟨(nA : ℚ), q⟩⟩ ⟨t, q⟩ = none →
        ∃ layer, clipLayerData rs track i cA ⟨t, q⟩ = some layer ∧
          layer.transitionValue = rampWeight a b (s + (nA : ℚ) - 1) t) ∧
      (∀ t : ℚ, s + (nA : ℚ) ≤ t → t < s + (nA : ℚ) + dB → t < s + (nA : ℚ) + b →
        ∃ layer, clipLayerData rs track (i + 2) cB ⟨t, q⟩ = some layer ∧
          1 - layer.transitionValue = rampWeight a b (s + (nA : ℚ) - 1) t) ∧
      ∀ t : ℚ, rampWeight a b (s + (nA : ℚ) - 1) (t + 1) - rampWeight a b (s + (nA : ℚ) - 1) t
        = 1 / (a + b + 1) := by
  have hD : a + b + 1 ≠ 0 := by
    have : 0 < a + b + 1 := by linarith
    exact ne_of_gt this
  have hr2 := range_of_child_after_transition track i q s (nA : ℚ) dB cA cB _ h0 h1 h2 hB hs
  have hei := end_time_inclusive_whole s q nA hn
  refine ⟨?_, ?_, ?_, ?_, ?_⟩
  · rw [hs]; simp only [Option.map_some']; rw [hei]
  · rw [hr2]; simp only [Option.map_some', Option.some.injEq, RationalTime.mk.injEq, and_true]
    ring
  · intro t h0' h1' h2' hin
    have hcont : TimeRange.contains ⟨⟨s, q⟩, ⟨(nA : ℚ), q⟩⟩ ⟨t, q⟩ := by
      rw [contains_same_rate _ _ _ _ hq]
      constructor <;> linarith
    have hgt : RationalTime.gt ⟨t, q⟩ ⟨s + (nA : ℚ) - 1 - a, q⟩ := by
      rw [gt_same_rate _ _ _ hq]; exact h2'
    have hn2 : (track.neighbors_of i).2 = some (Composable.transition ⟨ty, ⟨a, q⟩, ⟨b, q⟩⟩) := by
      simp only [Track.neighbors_of, h1]
    have hn3 : (track.neighbors_of (i + 1)).2 = some (Composable.clip cB) := by
      simp only [Track.neighbors_of, h2]
    simp only [clipLayerData, hs, if_pos hcont, Option.some.injEq, exists_eq_left', hin]
    simp only [outgoingTransition, hn2, hn3, hei, sub_same_rate, if_pos hgt, rampWeight]
  · intro t h0' h1' h2'
    have hcont : TimeRange.contains ⟨⟨(nA : ℚ) + s, q⟩, ⟨dB, q⟩⟩ ⟨t, q⟩ := by
      rw [contains_same_rate _ _ _ _ hq]
      constructor <;> linarith
    have hlt : RationalTime.lt ⟨t, q⟩ ⟨b + ((nA : ℚ) + s), q⟩ := by
      rw [lt_same_rate _ _ _ hq]; linarith
    have hn1 : (track.neighbors_of (i + 2)).1
        = some (Composable.transition ⟨ty, ⟨a, q⟩, ⟨b, q⟩⟩) := by
      simp only [Track.neighbors_of, Nat.add_sub_cancel, show i + 2 - 1 = i + 1 from rfl,
        h1, if_neg (Nat.succ_ne_zero (i + 1))]
    have hn0 : (track.neighbors_of (i + 2 - 1)).1 = some (Composable.clip cA) := by
      simp only [Track.neighbors_of, show i + 2 - 1 = i + 1 from rfl,
        show i + 1 - 1 = i from rfl, h0, if_neg (Nat.succ_ne_zero i)]
    simp only [clipLayerData, hr2, if_pos hcont, Option.some.injEq, exists_eq_left']
    simp only [incomingTransition, hn1, hn0, sub_same_rate, add_same_rate, if_pos hlt,
      rampWeight]
    field_simp
    ring
  · intro t
    unfold rampWeight
    rw [← sub_div]
    congr 1
    ring

/-- Witness of C29 as amended: two clips of 24 frames at 24 frames per second joined by a
dissolve with the offsets 2 and 2; the weight of the second clip is 2/5 at frame 23, the
last frame of the first clip, and 3/5 at frame 24, the first frame of the second clip. -/
theorem dissolve_ramp_witness :
    (∃ layer, clipLayerData ⟨fun _ => some ⟨24, 24⟩, fun id _ => ReadOutcome.value id⟩
        ⟨TrackKind.video, [Composable.clip ⟨1, ⟨⟨0, 24⟩, ⟨24, 24⟩⟩, []⟩,
          Composable.transition ⟨"SMPTE_Dissolve", ⟨2, 24⟩, ⟨2, 24⟩⟩,
          Composable.clip ⟨2, ⟨⟨0, 24⟩, ⟨24, 24⟩⟩, []⟩]⟩ 0 ⟨1, ⟨⟨0, 24⟩, ⟨24, 24⟩⟩, []⟩
        ⟨23, 24⟩ = some layer ∧
      layer.transitionValue = rampWeight 2 2 (0 + ((24 : ℤ) : ℚ) - 1) 23) ∧
    (∃ layer, clipLayerData ⟨fun _ => some ⟨24, 24⟩, fun id _ => ReadOutcome.value id⟩
        ⟨TrackKind.video, [Composable.clip ⟨1, ⟨⟨0, 24⟩, ⟨24, 24⟩⟩, []⟩,
          Composable.transition ⟨"SMPTE_Dissolve", ⟨2, 24⟩, ⟨2, 24⟩⟩,
          Composable.clip ⟨2, ⟨⟨0, 24⟩, ⟨24, 24⟩⟩, []⟩]⟩ (0 + 2)
        ⟨2, ⟨⟨0, 24⟩, ⟨24, 24⟩⟩, []⟩ ⟨24, 24⟩ = some layer ∧
      1 - layer.transitionValue = rampWeight 2 2 (0 + ((24 : ℤ) : ℚ) - 1) 24) ∧
    rampWeight 2 2 (0 + ((24 : ℤ) : ℚ) - 1) 23 = 2 / 5 ∧
    rampWeight 2 2 (0 + ((24 : ℤ) : ℚ) - 1) 24 = 3 / 5 :=
  ⟨(dissolve_ramp ⟨fun _ => some ⟨24, 24⟩, fun id _ => ReadOutcome.value id⟩
      ⟨TrackKind.video, [Composable.clip ⟨1, ⟨⟨0, 24⟩, ⟨24, 24⟩⟩, []⟩,
          Composable.transition ⟨"SMPTE_Dissolve", ⟨2, 24⟩, ⟨2, 24⟩⟩,
          Composable.clip ⟨2, ⟨⟨0, 24⟩, ⟨24, 24⟩⟩, []⟩]⟩ 0 24 (by norm_num) 0
      24 (by norm_num) 2 2 24 (by norm_num) (by norm_num) "SMPTE_Dissolve"
      ⟨1, ⟨⟨0, 24⟩, ⟨24, 24⟩⟩, []⟩ ⟨2, ⟨⟨0, 24⟩, ⟨24, 24⟩⟩, []⟩ rfl rfl rfl rfl
      (by decide!)).2.2.1 23
      (by norm_num) (by norm_num) (by norm_num) (by decide!),
    (dissolve_ramp ⟨fun _ => some ⟨24, 24⟩, fun id _ => ReadOutcome.value id⟩
      ⟨TrackKind.video, [Composable.clip ⟨1, ⟨⟨0, 24⟩, ⟨24, 24⟩⟩, []⟩,
          Composable.transition ⟨"SMPTE_Dissolve", ⟨2, 24⟩, ⟨2, 24⟩⟩,
          Composable.clip ⟨2, ⟨⟨0, 24⟩, ⟨24, 24⟩⟩, []⟩]⟩ 0 24 (by norm_num) 0
      24 (by norm_num) 2 2 24 (by norm_num) (by norm_num) "SMPTE_Dissolve"
      ⟨1, ⟨⟨0, 24⟩, ⟨24, 24⟩⟩, []⟩ ⟨2, ⟨⟨0, 24⟩, ⟨24, 24⟩⟩, []⟩ rfl rfl rfl rfl
      (by decide!)).2.2.2.1 24
      (by norm_num) (by norm_num) (by norm_num),
    by decide!, by decide!⟩

/-! ## The time warp of `readVideoFrame` -/

theorem clipTimeTransform_foldl (l : List ℚ) (P : ℚ) :
    l.foldl (fun timeTransform s =>
        (TimeTransform.mk ⟨0, 1⟩ s (-1)).applied_to_transform timeTransform)
      ⟨⟨0, 1⟩, P, -1⟩ = ⟨⟨0, 1⟩, l.prod * P, -1⟩ := by
  induction l generalizing P with
  | nil => simp
  | cons x rest ih =>
    simp only [List.foldl_cons, List.prod_cons]
    have e : (TimeTransform.mk ⟨0, 1⟩ x (-1)).applied_to_transform ⟨⟨0, 1⟩, P, -1⟩
        = ⟨⟨0, 1⟩, x * P, -1⟩ := by
      simp [TimeTransform.applied_to_transform, add_same_rate]
    rw [e, ih]
    congr 1
    ring

/-- The time transform of a clip scales by the product of the scalars of its time warps and
has no offset. -/
theorem clipTimeTransform_eq (clip : Clip) :
    clipTimeTransform clip = ⟨⟨0, 1⟩, clip.time_scalars.prod, -1⟩ := by
  unfold clipTimeTransform TimeTransform.identity
  rw [clipTimeTransform_foldl]
  simp

/-- A transform without offset and rate multiplies the value of a time at a positive rate. -/
theorem applied_to_scale (S x q : ℚ) (hq : 0 < q) :
    (TimeTransform.mk ⟨0, 1⟩ S (-1)).applied_to ⟨x, q⟩ = ⟨x * S, q⟩ := by
  have hq0 : q ≠ 0 := ne_of_gt hq
  have h10 : ¬ ((-1 : ℚ) > 0) := by norm_num
  unfold TimeTransform.applied_to
  simp only [if_neg h10]
  by_cases h1 : q < 1
  · have hne : q ≠ 1 := ne_of_lt h1
    have hne' : (1 : ℚ) ≠ q := fun h => hne h.symm
    simp [RationalTime.add, RationalTime.rescaled_to, RationalTime.value_rescaled_to, h1, hne,
      hne']
    field_simp
  · by_cases h2 : q = 1
    · subst h2
      simp [RationalTime.add, RationalTime.rescaled_to, RationalTime.value_rescaled_to]
    · simp [RationalTime.add, RationalTime.rescaled_to, RationalTime.value_rescaled_to, h1, h2]

/-- What `tick` proposes in Reverse playback: the elapsed frames are rounded up, not down,
because the floor is taken after the sign is applied. -/
theorem proposedTime_reverse (now : ℚ) (p : Player) (s q : ℚ)
    (hp : p.playback = Playback.Reverse) (hs : p.playbackStartTime = ⟨s, q⟩)
    (hr : p.duration.rate = q) :
    proposedTime now p = ⟨s - (⌈(now - p.startTime) * q⌉ : ℚ), q⟩ := by
  unfold proposedTime
  rw [hp, hs, hr]
  have e : ¬ (Playback.Forward = Playback.Reverse) := by decide
  simp only [if_neg e, add_same_rate]
  congr 1
  rw [mul_neg_one, Int.floor_neg]
  push_cast
  ring

/-- What `tick` proposes in Forward playback: the elapsed frames are rounded down. -/
theorem proposedTime_forward (now : ℚ) (p : Player) (s q : ℚ)
    (hp : p.playback = Playback.Forward) (hs : p.playbackStartTime = ⟨s, q⟩)
    (hr : p.duration.rate = q) :
    proposedTime now p = ⟨s + (⌊(now - p.startTime) * q⌋ : ℚ), q⟩ := by
  unfold proposedTime
  rw [hp, hs, hr]
  simp only [if_true, add_same_rate, mul_one]
  congr 1
  ring

/-- C26 at the failing input: on 48 frames at 24 frames per second, Reverse playback started
at frame 10 at the clock reading 0; at the reading 1/48, half a frame later, `tick` proposes
frame 9 and not the playback start time 10, and the current time becomes 9. Forward playback
started at the same frame still proposes frame 10 at that reading. -/
theorem reverse_clock_off_by_one :
    (setPlayback 0 Playback.Reverse
        (seek 0 ⟨10, 24⟩ (initPlayer ⟨0, 24⟩ ⟨48, 24⟩))).playbackStartTime = ⟨10, 24⟩ ∧
      (1 / 48 - (setPlayback 0 Playback.Reverse
        (seek 0 ⟨10, 24⟩ (initPlayer ⟨0, 24⟩ ⟨48, 24⟩))).startTime) * 24 = 1 / 2 ∧
      proposedTime (1 / 48) (setPlayback 0 Playback.Reverse
        (seek 0 ⟨10, 24⟩ (initPlayer ⟨0, 24⟩ ⟨48, 24⟩))) = ⟨9, 24⟩ ∧
      proposedTime (1 / 48) (setPlayback 0 Playback.Reverse
        (seek 0 ⟨10, 24⟩ (initPlayer ⟨0, 24⟩ ⟨48, 24⟩)))
        ≠ ⟨10 - ((⌊(1 / 2 : ℚ)⌋ : ℤ) : ℚ), 24⟩ ∧
      (tick (1 / 48) (setPlayback 0 Playback.Reverse
        (seek 0 ⟨10, 24⟩ (initPlayer ⟨0, 24⟩ ⟨48, 24⟩)))).currentTime = ⟨9, 24⟩ ∧
      proposedTime (1 / 48) (setPlayback 0 Playback.Forward
        (seek 0 ⟨10, 24⟩ (initPlayer ⟨0, 24⟩ ⟨48, 24⟩))) = ⟨10, 24⟩ := by
  decide!

/-! ## `resetOutPoint` -/

/-- What `resetOutPoint` leaves at one rate: the old start with the duration of the whole
timeline, so the exclusive end is the old start plus that duration. -/
theorem resetOutPoint_inOutRange (p : Player) (s d0 d q : ℚ)
    (hr : p.inOutRange = ⟨⟨s, q⟩, ⟨d0, q⟩⟩) (hd : p.duration = ⟨d, q⟩) :
    (resetOutPoint p).inOutRange = ⟨⟨s, q⟩, ⟨d, q⟩⟩ ∧
      (resetOutPoint p).inOutRange.end_time_exclusive = ⟨s + d, q⟩ := by
  have e : (resetOutPoint p).inOutRange = ⟨⟨s, q⟩, ⟨d, q⟩⟩ := by
    unfold resetOutPoint
    rw [setInOutRange_of_rate]
    · rw [hr, hd]
    · rw [hr]
    · rw [hr, hd]
  refine ⟨e, ?_⟩
  rw [e, TimeRange.end_time_exclusive_eq]
  simp [RationalTime.value_rescaled_to]

/-- C30 at the failing input: on 48 frames at 24 frames per second, after `seek(10);
setInPoint()` the in/out range is frames 10 to 47, inside the timeline; `resetOutPoint()`
leaves the start 10 with the duration 48, so the exclusive end is frame 58 and not the end 48
of the timeline, and the inclusive end 57 is not in the timeline. `resetInPoint()` on the
same state keeps the exclusive end 48. -/
theorem resetOutPoint_past_end :
    (setInPoint (seek 0 ⟨10, 24⟩ (initPlayer ⟨0, 24⟩ ⟨48, 24⟩))).inOutRange
        = ⟨⟨10, 24⟩, ⟨38, 24⟩⟩ ∧
      (resetOutPoint (setInPoint (seek 0 ⟨10, 24⟩
        (initPlayer ⟨0, 24⟩ ⟨48, 24⟩)))).inOutRange = ⟨⟨10, 24⟩, ⟨48, 24⟩⟩ ∧
      (resetOutPoint (setInPoint (seek 0 ⟨10, 24⟩
        (initPlayer ⟨0, 24⟩ ⟨48, 24⟩)))).inOutRange.end_time_exclusive = ⟨58, 24⟩ ∧
      RationalTime.add (⟨0, 24⟩ : RationalTime) ⟨48, 24⟩ = ⟨48, 24⟩ ∧
      (resetOutPoint (setInPoint (seek 0 ⟨10, 24⟩
        (initPlayer ⟨0, 24⟩ ⟨48, 24⟩)))).inOutRange.end_time_inclusive = ⟨57, 24⟩ ∧
      ¬ TimeRange.contains ⟨⟨0, 24⟩, ⟨48, 24⟩⟩ ⟨57, 24⟩ ∧
      (resetInPoint (setInPoint (seek 0 ⟨10, 24⟩
        (initPlayer ⟨0, 24⟩ ⟨48, 24⟩)))).inOutRange.end_time_exclusive = ⟨48, 24⟩ := by
  decide!

/-! ## Readers of the timeline -/

theorem stopReadersLoop_eq (p : TimelinePrivate) (l : List ReaderEntry) (stopped : List Read) :
    stopReadersLoop p.globalStartTime p.activeRanges l stopped
      = (l.filter (fun e => decide (readerInUse p e)),
          stopped ++ (l.filter (fun e => !decide (readerInUse p e))).map
            (fun e => e.read.stop)) := by
  induction l generalizing stopped with
  | nil => simp [stopReadersLoop]
  | cons e rest ih =>
    unfold stopReadersLoop
    by_cases h : readerInUse p e
    · have hc : ¬ ((!(p.activeRanges.any (fun activeRange =>
          decide ((readerRange p.globalStartTime e).intersects activeRange)))
          && !e.read.hasVideoFrames) = true) := by
        unfold readerInUse at h
        simp only [Bool.and_eq_true, Bool.not_eq_true', List.any_eq_false, decide_eq_true_eq,
          not_and, Bool.not_eq_false]
        intro hno
        rcases h with ⟨a, ha, hi⟩ | h
        · exact absurd hi (hno a ha)
        · exact h
      simp only [if_neg hc, ih, List.filter_cons, h, decide_True, if_true, Bool.not_true,
        Bool.false_eq_true, if_false]
    · have hc : ((!(p.activeRanges.any (fun activeRange =>
          decide ((readerRange p.globalStartTime e).intersects activeRange)))
          && !e.read.hasVideoFrames) = true) := by
        unfold readerInUse at h
        push_neg at h
        simp only [Bool.and_eq_true, Bool.not_eq_true', List.any_eq_false, decide_eq_true_eq]
        refine ⟨fun a ha => h.1 a ha, ?_⟩
        simpa using h.2
      simp only [if_pos hc, ih, List.filter_cons, h, decide_False, Bool.false_eq_true,
        if_false, Bool.not_false, if_true, List.map_cons, List.append_assoc,
        List.singleton_append]

/-- A pass of `stopReaders` on two clips joined by a transition with the offsets 2 and 2,
both with an open reader without pending frames, when frames 30 to 40 are active: the range
of the first clip ends at frame 26, its reader is stopped and moved to `stoppedReaders`; the
range of the second clip starts at frame 22, its reader stays. -/
theorem stopReaders_example :
    (stopReaders
      ⟨⟨0, 24⟩, [], [⟨⟨30, 24⟩, ⟨11, 24⟩⟩], [],
        [⟨⟨TrackKind.video, [Composable.clip ⟨1, ⟨⟨0, 24⟩, ⟨24, 24⟩⟩, []⟩,
            Composable.transition ⟨"SMPTE_Dissolve", ⟨2, 24⟩, ⟨2, 24⟩⟩,
            Composable.clip ⟨2, ⟨⟨0, 24⟩, ⟨24, 24⟩⟩, []⟩]⟩, 0,
            ⟨1, ⟨⟨0, 24⟩, ⟨24, 24⟩⟩, []⟩, ⟨1, false, false, false⟩⟩,
          ⟨⟨TrackKind.video, [Composable.clip ⟨1, ⟨⟨0, 24⟩, ⟨24, 24⟩⟩, []⟩,
            Composable.transition ⟨"SMPTE_Dissolve", ⟨2, 24⟩, ⟨2, 24⟩⟩,
            Composable.clip ⟨2, ⟨⟨0, 24⟩, ⟨24, 24⟩⟩, []⟩]⟩, 2,
            ⟨2, ⟨⟨0, 24⟩, ⟨24, 24⟩⟩, []⟩, ⟨2, false, false, false⟩⟩], []⟩).readers.map
        (fun e => e.read.id) = [2] ∧
    (stopReaders
      ⟨⟨0, 24⟩, [], [⟨⟨30, 24⟩, ⟨11, 24⟩⟩], [],
        [⟨⟨TrackKind.video, [Composable.clip ⟨1, ⟨⟨0, 24⟩, ⟨24, 24⟩⟩, []⟩,
            Composable.transition ⟨"SMPTE_Dissolve", ⟨2, 24⟩, ⟨2, 24⟩⟩,
            Composable.clip ⟨2, ⟨⟨0, 24⟩, ⟨24, 24⟩⟩, []⟩]⟩, 0,
            ⟨1, ⟨⟨0, 24⟩, ⟨24, 24⟩⟩, []⟩, ⟨1, false, false, false⟩⟩,
          ⟨⟨TrackKind.video, [Composable.clip ⟨1, ⟨⟨0, 24⟩, ⟨24, 24⟩⟩, []⟩,
            Composable.transition ⟨"SMPTE_Dissolve", ⟨2, 24⟩, ⟨2, 24⟩⟩,
            Composable.clip ⟨2, ⟨⟨0, 24⟩, ⟨24, 24⟩⟩, []⟩]⟩, 2,
            ⟨2, ⟨⟨0, 24⟩, ⟨24, 24⟩⟩, []⟩, ⟨2, false, false, false⟩⟩], []⟩).stoppedReaders
        = [⟨1, false, true, false⟩] ∧
    readerRange ⟨0, 24⟩
        ⟨⟨TrackKind.video, [Composable.clip ⟨1, ⟨⟨0, 24⟩, ⟨24, 24⟩⟩, []⟩,
            Composable.transition ⟨"SMPTE_Dissolve", ⟨2, 24⟩, ⟨2, 24⟩⟩,
            Composable.clip ⟨2, ⟨⟨0, 24⟩, ⟨24, 24⟩⟩, []⟩]⟩, 0,
            ⟨1, ⟨⟨0, 24⟩, ⟨24, 24⟩⟩, []⟩, ⟨1, false, false, false⟩⟩
        = ⟨⟨0, 24⟩, ⟨26, 24⟩⟩ ∧
    readerRange ⟨0, 24⟩
        ⟨⟨TrackKind.video, [Composable.clip ⟨1, ⟨⟨0, 24⟩, ⟨24, 24⟩⟩, []⟩,
            Composable.transition ⟨"SMPTE_Dissolve", ⟨2, 24⟩, ⟨2, 24⟩⟩,
            Composable.clip ⟨2, ⟨⟨0, 24⟩, ⟨24, 24⟩⟩, []⟩]⟩, 2,
            ⟨2, ⟨⟨0, 24⟩, ⟨24, 24⟩⟩, []⟩, ⟨2, false, false, false⟩⟩
        = ⟨⟨22, 24⟩, ⟨26, 24⟩⟩ := by
  decide!

/-! ## Requests of the timeline -/

theorem getFrame_iterate (t : RationalTime) (n : ℕ) (p : TimelinePrivate) :
    Nat.iterate (getFrame t) n p = { p with requests := p.requests ++ List.replicate n t } := by
  induction n with
  | zero => simp
  | succ n ih =>
    rw [Function.iterate_succ_apply', ih]
    simp [getFrame, List.replicate_succ']

theorem stopReaders_requests (p : TimelinePrivate) :
    (delReaders (stopReaders p)).requests = p.requests ∧
      (delReaders (stopReaders p)).globalStartTime = p.globalStartTime ∧
      (delReaders (stopReaders p)).tracks = p.tracks := ⟨rfl, rfl, rfl⟩

/-- The passes of the thread of the timeline serve the requests one by one, in order: as
many passes as there are requests compose one frame for each of them. -/
theorem runPasses_requests (rs : ReadSystem) (l : List RationalTime) (p : TimelinePrivate)
    (h : p.requests = l) :
    (runPasses rs l.length p).1 = l.map (composeFrame rs p.globalStartTime p.tracks) ∧
      (runPasses rs l.length p).2.requests = [] := by
  induction l generalizing p with
  | nil => simp [runPasses, h]
  | cons t rest ih =>
    have hp : frameRequestsPass rs p
        = (some (composeFrame rs p.globalStartTime p.tracks t), { p with requests := rest }) := by
      unfold frameRequestsPass
      rw [h]
    have ih' := ih (delReaders (stopReaders { p with requests := rest })) rfl
    simp only [List.length_cons, runPasses, timelineTick, hp, List.map_cons]
    exact ⟨by rw [ih'.1]; rfl, ih'.2⟩

/-- Where the entries of the frame cache after `frameCacheUpdate` come from: an entry was in
the cache before and the time of its frame is contained in one of the active ranges, or its
frame was taken from a request that was ready, pending from before or made in this call for
a target frame. -/
theorem frameCacheUpdate_cache_origin (q : ℚ) (poll : RationalTime → Option Frame)
    (td : ThreadData) (currentTime : RationalTime) (inOutRange : TimeRange)
    (dir : FrameCacheDirection) (ra rb : ℕ) (e : RationalTime × Frame)
    (he : e ∈ (frameCacheUpdate q poll td currentTime inOutRange dir ra rb).1.frameCache) :
    (e ∈ td.frameCache ∧
        ∃ r ∈ toRanges (targetFrames q currentTime inOutRange dir ra rb),
          r.contains e.2.time) ∨
      ((∃ frame, poll e.2.time = some frame) ∧
        ((∃ r ∈ td.frameRequests, r.1 = e.2.time) ∨
          e.2.time ∈ targetFrames q currentTime inOutRange dir ra rb)) := by
  simp only [frameCacheUpdate] at he
  rcases pollRequests_cache _ _ _ e he with h | ⟨_, hmem, frame, hp, _⟩
  · left
    obtain ⟨hmem, hany⟩ := List.mem_filter.mp h
    obtain ⟨r, hr, hc⟩ := List.any_eq_true.mp hany
    exact ⟨hmem, r, hr, of_decide_eq_true hc⟩
  · right
    refine ⟨⟨frame, hp⟩, ?_⟩
    rcases addRequests_key_mem _ _ _ hmem with ⟨r', hr', h⟩ | h
    · exact Or.inl ⟨r', hr', h⟩
    · exact Or.inr (List.mem_filter.mp h).1

/-- C25, the claim as stated fails: with read ahead 1 and read behind 0 on 48 frames at 24
frames per second, an update at the current time 4 whose request is not ready yet, followed
by an update at the current time 6 when every request is ready, leaves the frames 4 and 6
in the cache, and frame 4 is not in the target set of the second call, which is frame 6
alone: the ready requests are stored after the old frames were removed. -/
theorem eviction_counterexample :
    (frameCacheUpdate 24 (fun _ => none)
        ⟨⟨4, 24⟩, ⟨⟨0, 24⟩, ⟨48, 24⟩⟩, ⟨⟨0, 1⟩, []⟩, [], false, [], [],
          FrameCacheDirection.Forward, 1, 0⟩
        ⟨4, 24⟩ ⟨⟨0, 24⟩, ⟨48, 24⟩⟩ FrameCacheDirection.Forward 1 0).1.frameRequests
      = [(⟨4, 24⟩, ())] ∧
    (frameCacheUpdate 24 (fun t => some ⟨t, []⟩)
        (frameCacheUpdate 24 (fun _ => none)
          ⟨⟨4, 24⟩, ⟨⟨0, 24⟩, ⟨48, 24⟩⟩, ⟨⟨0, 1⟩, []⟩, [], false, [], [],
            FrameCacheDirection.Forward, 1, 0⟩
          ⟨4, 24⟩ ⟨⟨0, 24⟩, ⟨48, 24⟩⟩ FrameCacheDirection.Forward 1 0).1
        ⟨6, 24⟩ ⟨⟨0, 24⟩, ⟨48, 24⟩⟩ FrameCacheDirection.Forward 1 0).1.frameCache
      = [(⟨4, 24⟩, ⟨⟨4, 24⟩, []⟩), (⟨6, 24⟩, ⟨⟨6, 24⟩, []⟩)] ∧
    targetFrames 24 ⟨6, 24⟩ ⟨⟨0, 24⟩, ⟨48, 24⟩⟩ FrameCacheDirection.Forward 1 0 = [⟨6, 24⟩] ∧
    (⟨4, 24⟩ : RationalTime)
      ∉ targetFrames 24 ⟨6, 24⟩ ⟨⟨0, 24⟩, ⟨48, 24⟩⟩ FrameCacheDirection.Forward 1 0 := by
  decide!

/-- C25 as amended: when the current time is a whole frame at the timeline rate, the in/out
range starts on a whole frame and has a duration at that rate, the frames in the cache have
whole-frame times, and every pending request that is ready at the call is for a time in the
target set of the call, then after `frameCacheUpdate` every entry of the frame cache holds a
frame whose time belongs to that target set. -/
theorem eviction_postcondition (q : ℚ) (hq : 0 < q) (poll : RationalTime → Option Frame)
    (td : ThreadData) (c s : ℤ) (d : ℚ) (dir : FrameCacheDirection) (ra rb : ℕ)
    (hcache : ∀ e ∈ td.frameCache, isFrame q e.2.time)
    (hreq : ∀ r ∈ td.frameRequests, (∃ frame, poll r.1 = some frame) →
      r.1 ∈ targetFrames q (frameTime q c) ⟨frameTime q s, ⟨d, q⟩⟩ dir ra rb) :
    ∀ e ∈ (frameCacheUpdate q poll td (frameTime q c) ⟨frameTime q s, ⟨d, q⟩⟩ dir ra
        rb).1.frameCache,
      e.2.time ∈ targetFrames q (frameTime q c) ⟨frameTime q s, ⟨d, q⟩⟩ dir ra rb := by
  intro e he
  obtain ⟨Tz, hTz⟩ := targetFrames_isFrame q c s d dir ra rb
  rcases frameCacheUpdate_cache_origin q poll td _ _ dir ra rb e he with
    ⟨hmem, r, hr, hc⟩ | ⟨hp, ⟨r', hr', h⟩ | h⟩
  · obtain ⟨n, hn⟩ := hcache e hmem
    rw [hn] at hc ⊢
    rw [hTz] at hr ⊢
    have := (toRanges_contains_iff q hq Tz n).mp ⟨r, hr, hc⟩
    exact List.mem_map.mpr ⟨n, this, rfl⟩
  · rw [← h]
    exact hreq r' hr' (by rw [h]; exact hp)
  · exact h

/-- Witness of C25 as amended: read ahead 10, read behind 1, current time 5 in a range of 24
frames at 24 frames per second; the cache holds frames 3 and 4, a request for frame 6 is
pending and every future is ready. After the update frame 3 is gone and the cache holds the
frames 4, ..., 14 of the target set. -/
theorem eviction_postcondition_witness :
    (∀ e ∈ (frameCacheUpdate 24 (fun t => some ⟨t, []⟩)
        ⟨⟨5, 24⟩, ⟨⟨0, 24⟩, ⟨24, 24⟩⟩, ⟨⟨0, 1⟩, []⟩, [(⟨6, 24⟩, ())], false,
          [(⟨3, 24⟩, ⟨⟨3, 24⟩, []⟩), (⟨4, 24⟩, ⟨⟨4, 24⟩, []⟩)], [],
          FrameCacheDirection.Forward, 10, 1⟩
        (frameTime 24 5) ⟨frameTime 24 0, ⟨24, 24⟩⟩ FrameCacheDirection.Forward 10
        1).1.frameCache,
      e.2.time ∈ targetFrames 24 (frameTime 24 5) ⟨frameTime 24 0, ⟨24, 24⟩⟩
        FrameCacheDirection.Forward 10 1) ∧
    (frameCacheUpdate 24 (fun t => some ⟨t, []⟩)
        ⟨⟨5, 24⟩, ⟨⟨0, 24⟩, ⟨24, 24⟩⟩, ⟨⟨0, 1⟩, []⟩, [(⟨6, 24⟩, ())], false,
          [(⟨3, 24⟩, ⟨⟨3, 24⟩, []⟩), (⟨4, 24⟩, ⟨⟨4, 24⟩, []⟩)], [],
          FrameCacheDirection.Forward, 10, 1⟩
        (frameTime 24 5) ⟨frameTime 24 0, ⟨24, 24⟩⟩ FrameCacheDirection.Forward 10
        1).1.frameCache.map (fun e => e.2.time)
      = [⟨4, 24⟩, ⟨5, 24⟩, ⟨6, 24⟩, ⟨7, 24⟩, ⟨8, 24⟩, ⟨9, 24⟩, ⟨10, 24⟩, ⟨11, 24⟩,
          ⟨12, 24⟩, ⟨13, 24⟩, ⟨14, 24⟩] :=
  ⟨eviction_postcondition 24 (by norm_num) (fun t => some ⟨t, []⟩)
      ⟨⟨5, 24⟩, ⟨⟨0, 24⟩, ⟨24, 24⟩⟩, ⟨⟨0, 1⟩, []⟩, [(⟨6, 24⟩, ())], false,
        [(⟨3, 24⟩, ⟨⟨3, 24⟩, []⟩), (⟨4, 24⟩, ⟨⟨4, 24⟩, []⟩)], [],
        FrameCacheDirection.Forward, 10, 1⟩
      5 0 24 FrameCacheDirection.Forward 10 1
      (by
        intro e he
        simp only [List.mem_cons, List.mem_singleton, List.not_mem_nil, or_false] at he
        rcases he with rfl | rfl
        · exact ⟨3, by simp [frameTime]⟩
        · exact ⟨4, by simp [frameTime]⟩)
      (by
        intro r hr _
        simp only [List.mem_singleton] at hr
        subst hr
        decide!),
    by decide!⟩

/-! ## The target list inside the in/out range -/

theorem frameTime_gt_iff (q : ℚ) (hq : 0 < q) (a b : ℤ) :
    RationalTime.gt (frameTime q a) (frameTime q b) ↔ b < a := by
  unfold frameTime
  rw [gt_same_rate _ _ _ hq]
  exact Int.cast_lt

theorem end_time_inclusive_count (q : ℚ) (s : ℤ) (N : ℕ) (hN : 1 ≤ N) :
    TimeRange.end_time_inclusive ⟨frameTime q s, ⟨(N : ℚ), q⟩⟩
      = frameTime q (s + (N : ℤ) - 1) := by
  have h := end_time_inclusive_frames q s (s + (N : ℤ) - 1) (by omega)
  have e : (((s + (N : ℤ) - 1 - s + 1 : ℤ)) : ℚ) = (N : ℚ) := by
    push_cast; ring
  rw [e] at h
  exact h

theorem frameTime_add_one (q : ℚ) (x : ℤ) :
    RationalTime.add (frameTime q x) ⟨1, q⟩ = frameTime q (x + 1) := by
  unfold frameTime
  rw [add_one_frame]
  push_cast
  rfl

theorem frameTime_sub_one (q : ℚ) (x : ℤ) :
    RationalTime.sub (frameTime q x) ⟨1, q⟩ = frameTime q (x - 1) := by
  unfold frameTime
  rw [sub_one_frame]
  push_cast
  rfl

/-- One frame forward from a frame of the range, looped: the next frame in cyclic order. -/
theorem loopTime_next (q : ℚ) (hq : 0 < q) (s : ℤ) (N : ℕ) (k : ℕ) (hk : k < N) :
    loopTime (RationalTime.add (frameTime q (s + (k : ℤ))) ⟨1, q⟩)
        ⟨frameTime q s, ⟨(N : ℚ), q⟩⟩
      = frameTime q (s + (((k + 1) % N : ℕ) : ℤ)) := by
  have hN : 1 ≤ N := by omega
  rw [frameTime_add_one]
  unfold loopTime
  rw [end_time_inclusive_count q s N hN]
  simp only [frameTime_lt_iff q hq, frameTime_gt_iff q hq]
  have h1 : ¬ (s + (k : ℤ) + 1 < s) := by omega
  rw [if_neg h1]
  by_cases h2 : k + 1 = N
  · have h3 : s + (N : ℤ) - 1 < s + (k : ℤ) + 1 := by omega
    rw [if_pos h3, h2, Nat.mod_self]
    simp
  · have h3 : ¬ (s + (N : ℤ) - 1 < s + (k : ℤ) + 1) := by omega
    rw [if_neg h3, Nat.mod_eq_of_lt (by omega)]
    push_cast
    ring_nf

/-- One frame backwards from a frame of the range, looped: again a frame of the range. -/
theorem loopTime_prev (q : ℚ) (hq : 0 < q) (s : ℤ) (N : ℕ) (k : ℕ) (hk : k < N) :
    ∃ k' : ℕ, k' < N ∧
      loopTime (RationalTime.sub (frameTime q (s + (k : ℤ))) ⟨1, q⟩)
        ⟨frameTime q s, ⟨(N : ℚ), q⟩⟩ = frameTime q (s + (k' : ℤ)) := by
  have hN : 1 ≤ N := by omega
  rw [frameTime_sub_one]
  unfold loopTime
  rw [end_time_inclusive_count q s N hN]
  simp only [frameTime_lt_iff q hq, frameTime_gt_iff q hq]
  by_cases h0 : k = 0
  · subst h0
    have h1 : s + ((0 : ℕ) : ℤ) - 1 < s := by omega
    rw [if_pos h1]
    refine ⟨N - 1, by omega, ?_⟩
    congr 1
    omega
  · have h1 : ¬ (s + (k : ℤ) - 1 < s) := by omega
    have h3 : ¬ (s + (N : ℤ) - 1 < s + (k : ℤ) - 1) := by omega
    rw [if_neg h1, if_neg h3]
    refine ⟨k - 1, by omega, ?_⟩
    congr 1
    omega

theorem stepBack_cyclic (q : ℚ) (hq : 0 < q) (s : ℤ) (N : ℕ) (n : ℕ) :
    ∀ k : ℕ, k < N → ∃ k' : ℕ, k' < N ∧
      stepBack q ⟨frameTime q s, ⟨(N : ℚ), q⟩⟩ n (frameTime q (s + (k : ℤ)))
        = frameTime q (s + (k' : ℤ)) := by
  induction n with
  | zero => intro k hk; exact ⟨k, hk, rfl⟩
  | succ n ih =>
    intro k hk
    obtain ⟨k1, hk1, h1⟩ := loopTime_prev q hq s N k hk
    obtain ⟨k2, hk2, h2⟩ := ih k1 hk1
    refine ⟨k2, hk2, ?_⟩
    simp only [stepBack]
    rw [h1, h2]

theorem cycFrame_next (q : ℚ) (hq : 0 < q) (s : ℤ) (N k0 j : ℕ) (hN : 1 ≤ N) :
    loopTime (RationalTime.add (cycFrame q s N k0 j) ⟨1, q⟩) ⟨frameTime q s, ⟨(N : ℚ), q⟩⟩
      = cycFrame q s N k0 (j + 1) := by
  unfold cycFrame
  rw [loopTime_next q hq s N _ (Nat.mod_lt _ (by omega))]
  congr 3
  rw [← Nat.add_assoc, Nat.add_mod (k0 + j) 1 N, Nat.add_mod ((k0 + j) % N) 1 N,
    Nat.mod_mod]

theorem cycFrame_injective (q : ℚ) (s : ℤ) (N k0 i j : ℕ) (hi : i < N) (hj : j < N)
    (h : cycFrame q s N k0 i = cycFrame q s N k0 j) : i = j := by
  unfold cycFrame at h
  have h1 := frameTime_injective q h
  have h2 : (k0 + i) % N = (k0 + j) % N := by omega
  have h3 : i ≡ j [MOD N] := Nat.ModEq.add_left_cancel' k0 h2
  exact Nat.ModEq.eq_of_lt_of_lt h3 hi hj

/-- The second loop of `frameCacheUpdate` started on a frame of the range: the frames in
cyclic order, until the count is used up or the first frame comes again. -/
theorem collectFrames_cyclic (q : ℚ) (hq : 0 < q) (s : ℤ) (N k0 : ℕ) (hN : 1 ≤ N) (m : ℕ) :
    ∀ i : ℕ, i ≤ N →
    collectFrames q ⟨frameTime q s, ⟨(N : ℚ), q⟩⟩ m (cycFrame q s N k0 i)
        ((List.range i).map (cycFrame q s N k0))
      = (List.range (min (i + m) N)).map (cycFrame q s N k0) := by
  induction m with
  | zero =>
    intro i hi
    simp only [collectFrames, Nat.add_zero, min_eq_left hi]
  | succ m ih =>
    intro i hi
    have hpush : (List.range i).map (cycFrame q s N k0) ++ [cycFrame q s N k0 i]
        = (List.range (i + 1)).map (cycFrame q s N k0) := by
      rw [List.range_succ, List.map_append]
      rfl
    cases i with
    | zero =>
      simp only [List.range_zero, List.map_nil, collectFrames]
      rw [cycFrame_next q hq s N k0 0 hN]
      have h1 : (List.range 1).map (cycFrame q s N k0) = [cycFrame q s N k0 0] := rfl
      have := ih 1 hN
      rw [h1] at this
      rw [List.nil_append, Nat.zero_add, this]
      congr 2
      omega
    | succ i =>
      obtain ⟨tl, htl⟩ : ∃ tl, (List.range (i + 1)).map (cycFrame q s N k0)
          = cycFrame q s N k0 0 :: tl := by
        rw [List.range_succ_eq_map]
        exact ⟨_, rfl⟩
      by_cases hiN : i + 1 = N
      · have heq : RationalTime.equal (cycFrame q s N k0 (i + 1)) (cycFrame q s N k0 0) := by
          apply (RationalTime.equal_iff_of_rate (cycFrame q s N k0 (i + 1))
            (cycFrame q s N k0 0) rfl).mpr
          unfold cycFrame
          rw [hiN, Nat.add_mod_right, Nat.add_zero]
        rw [htl]
        simp only [collectFrames, if_pos heq]
        rw [← htl]
        congr 2
        omega
      · have hne : ¬ RationalTime.equal (cycFrame q s N k0 (i + 1)) (cycFrame q s N k0 0) := by
          intro h'
          have h := (RationalTime.equal_iff_of_rate (cycFrame q s N k0 (i + 1))
            (cycFrame q s N k0 0) rfl).mp h'
          have := cycFrame_injective q s N k0 (i + 1) 0 (by omega) (by omega) h
          omega
        rw [htl]
        simp only [collectFrames, if_neg hne]
        rw [← htl, hpush, cycFrame_next q hq s N k0 (i + 1) hN, ih (i + 1 + 1) (by omega)]
        congr 2
        omega

/-- The target frames for a current time inside a range of `N` whole frames: the frames in
cyclic order from the frame that the first loop reaches, as many as the two counts ask for
and at most all `N`. -/
theorem targetFrames_cyclic (q : ℚ) (hq : 0 < q) (s : ℤ) (N : ℕ) (c : ℤ) (hc1 : s ≤ c)
    (hc2 : c < s + (N : ℤ)) (dir : FrameCacheDirection) (ra rb : ℕ) :
    ∃ k0 : ℕ, k0 < N ∧
      targetFrames q (frameTime q c) ⟨frameTime q s, ⟨(N : ℚ), q⟩⟩ dir ra rb
        = (List.range (min ((rb + ra) % 2 ^ 64) N)).map (cycFrame q s N k0) := by
  have hN : 1 ≤ N := by omega
  have hc : c = s + (((c - s).toNat : ℕ) : ℤ) := by omega
  obtain ⟨k0, hk0, hstep⟩ := stepBack_cyclic q hq s N
    (if dir = FrameCacheDirection.Forward then rb else ra) (c - s).toNat (by omega)
  rw [← hc] at hstep
  refine ⟨k0, hk0, ?_⟩
  have h0 : frameTime q (s + (k0 : ℤ)) = cycFrame q s N k0 0 := by
    unfold cycFrame
    rw [Nat.add_zero, Nat.mod_eq_of_lt hk0]
  have h := collectFrames_cyclic q hq s N k0 hN ((rb + ra) % 2 ^ 64) 0 (by omega)
  simp only [List.range_zero, List.map_nil, Nat.zero_add] at h
  unfold targetFrames
  simp only [hstep, h0]
  exact h

/-- C28, the claim as stated fails: in the in/out range of the five frames 0 to 4 at 24
frames per second, the current time 3.5 lies inside the range; with read ahead 10 and read
behind 1 the target list is 2.5, 3.5, 0, 1, 2, 3, 4, 0, 1, 2, 3: the loop never meets its
first element 2.5 again, so the list holds times twice and has 11 elements, not 5. -/
theorem target_list_fraction_counterexample :
    targetFrames 24 ⟨7 / 2, 24⟩ ⟨⟨0, 24⟩, ⟨5, 24⟩⟩ FrameCacheDirection.Forward 10 1
        = [⟨5 / 2, 24⟩, ⟨7 / 2, 24⟩, ⟨0, 24⟩, ⟨1, 24⟩, ⟨2, 24⟩, ⟨3, 24⟩, ⟨4, 24⟩, ⟨0, 24⟩,
            ⟨1, 24⟩, ⟨2, 24⟩, ⟨3, 24⟩] ∧
      ¬ (targetFrames 24 ⟨7 / 2, 24⟩ ⟨⟨0, 24⟩, ⟨5, 24⟩⟩
        FrameCacheDirection.Forward 10 1).Nodup ∧
      (targetFrames 24 ⟨7 / 2, 24⟩ ⟨⟨0, 24⟩, ⟨5, 24⟩⟩
        FrameCacheDirection.Forward 10 1).length ≠ min (10 + 1) 5 ∧
      inLoopRange ⟨⟨0, 24⟩, ⟨5, 24⟩⟩ ⟨7 / 2, 24⟩ ∧
      TimeRange.end_time_inclusive ⟨⟨0, 24⟩, ⟨5, 24⟩⟩ = ⟨4, 24⟩ := by
  decide!

/-- C28 as amended: for an in/out range of `N >= 1` whole frames at the timeline rate, a current
time that is a frame of the range, both cache directions and all read ahead and read behind
counts whose sum is below `2^64`, the target list of `frameCacheUpdate` holds no time twice,
every element lies between the start and the inclusive end of the range, and its length is
the smaller of `readAhead + readBehind` and `N`. -/
theorem target_list_early_stop (q : ℚ) (hq : 0 < q) (s : ℤ) (N : ℕ) (c : ℤ) (hc1 : s ≤ c)
    (hc2 : c < s + (N : ℤ)) (dir : FrameCacheDirection) (ra rb : ℕ)
    (hsize : ra + rb < 2 ^ 64) :
    (targetFrames q (frameTime q c) ⟨frameTime q s, ⟨(N : ℚ), q⟩⟩ dir ra rb).Nodup ∧
      (∀ t ∈ targetFrames q (frameTime q c) ⟨frameTime q s, ⟨(N : ℚ), q⟩⟩ dir ra rb,
        inLoopRange ⟨frameTime q s, ⟨(N : ℚ), q⟩⟩ t) ∧
      (targetFrames q (frameTime q c) ⟨frameTime q s, ⟨(N : ℚ), q⟩⟩ dir ra rb).length
        = min (ra + rb) N := by
  have hN : 1 ≤ N := by omega
  obtain ⟨k0, hk0, hT⟩ := targetFrames_cyclic q hq s N c hc1 hc2 dir ra rb
  have hmod : (rb + ra) % 2 ^ 64 = ra + rb := by
    rw [Nat.mod_eq_of_lt (by omega)]; omega
  rw [hT, hmod]
  refine ⟨?_, ?_, ?_⟩
  · apply List.Nodup.map_on
    · intro x hx y hy hxy
      rw [List.mem_range] at hx hy
      exact cycFrame_injective q s N k0 x y
        (lt_of_lt_of_le hx (min_le_right _ _)) (lt_of_lt_of_le hy (min_le_right _ _)) hxy
    · exact List.nodup_range _
  · intro t ht
    obtain ⟨j, _, rfl⟩ := List.mem_map.mp ht
    have hlt : (k0 + j) % N < N := Nat.mod_lt _ (by omega)
    unfold inLoopRange
    rw [end_time_inclusive_count q s N hN]
    unfold cycFrame
    simp only [frameTime_le_iff q hq]
    constructor <;> omega
  · rw [List.length_map, List.length_range]

/-- Witness of C28 as amended: an in/out range of the five frames 0 to 4 at 24 frames per
second, the current time 3, read ahead 10 and read behind 1: the target list is 2, 3, 4, 0,
1, the loop stops when frame 2 comes again. -/
theorem target_list_early_stop_witness :
    (targetFrames 24 (frameTime 24 3) ⟨frameTime 24 0, ⟨((5 : ℕ) : ℚ), 24⟩⟩
        FrameCacheDirection.Forward 10 1).Nodup ∧
      (∀ t ∈ targetFrames 24 (frameTime 24 3) ⟨frameTime 24 0, ⟨((5 : ℕ) : ℚ), 24⟩⟩
          FrameCacheDirection.Forward 10 1,
        inLoopRange ⟨frameTime 24 0, ⟨((5 : ℕ) : ℚ), 24⟩⟩ t) ∧
      (targetFrames 24 (frameTime 24 3) ⟨frameTime 24 0, ⟨((5 : ℕ) : ℚ), 24⟩⟩
        FrameCacheDirection.Forward 10 1).length = min (10 + 1) 5 ∧
      targetFrames 24 (frameTime 24 3) ⟨frameTime 24 0, ⟨((5 : ℕ) : ℚ), 24⟩⟩
        FrameCacheDirection.Forward 10 1 = [⟨2, 24⟩, ⟨3, 24⟩, ⟨4, 24⟩, ⟨0, 24⟩, ⟨1, 24⟩] :=
  ⟨(target_list_early_stop 24 (by norm_num) 0 5 3 (by norm_num) (by norm_num)
      FrameCacheDirection.Forward 10 1 (by norm_num)).1,
    (target_list_early_stop 24 (by norm_num) 0 5 3 (by norm_num) (by norm_num)
      FrameCacheDirection.Forward 10 1 (by norm_num)).2.1,
    (target_list_early_stop 24 (by norm_num) 0 5 3 (by norm_num) (by norm_num)
      FrameCacheDirection.Forward 10 1 (by norm_num)).2.2,
    by decide!⟩

end tlr
